import Mathlib

/-!
# mLib `BaseImage<T>`: a shallow embedding and its verified properties

The definitions follow `include/core-base/baseImage.h`.  A `BaseImage<T>` is a
record of the four data members plus the `m_format` tag of the base class
`Image`.  The heap array behind `m_data` is a list (`none` is the null
pointer), `unsigned int` values are natural numbers reduced modulo `2 ^ 32`
wherever the source computes with them, and every operation that can fail
returns an `Except Error`.
-/

namespace ml

/-! ## Machine integers and failure modes -/

/-- Number of values of the 32-bit type `unsigned int` (`UINT`). -/
def UINT_RANGE : Nat := 2 ^ 32

/-- Number of values of the 64-bit type `size_t`. -/
def SIZE_RANGE : Nat := 2 ^ 64

/-- The ways in which an operation of the library ends without a result. -/
inductive Error where
  /-- A failed `MLIB_ASSERT` (or `assert`). -/
  | assertion : Error
  /-- A thrown `MLIB_EXCEPTION` (or `std::ios::failure`) carrying its message. -/
  | exception : String → Error
  /-- An access outside the allocated array or through the null pointer. -/
  | undefined : Error
  deriving DecidableEq, Repr

/-- Modelled from the spec: the macro `MLIB_ASSERT` is not part of the sources at hand;
the specification says a violated check fails the operation at once. -/
def MLIB_ASSERT (b : Bool) : Except Error Unit :=
  if b then .ok () else .error Error.assertion

/-- The enumeration `Image::Format`. -/
inductive Format where
  | FORMAT_ColorImageR8G8B8A8 : Format
  | FORMAT_ColorImageR32G32B32A32 : Format
  | FORMAT_ColorImageR32G32B32 : Format
  | FORMAT_DepthImage : Format
  | FORMAT_DepthImage16 : Format
  | FORMAT_Unknown : Format
  deriving DecidableEq, Repr

/-- The function template `BaseImageHelper::formatFromTemplate<T>()`: the primary template
answers `FORMAT_Unknown`, the specialisations are instances of this class. -/
class FormatFromTemplate (T : Type) where
  formatFromTemplate : Format

instance (priority := low) instFormatUnknown (T : Type) : FormatFromTemplate T :=
  ⟨Format.FORMAT_Unknown⟩

/-- Addition of two `unsigned int` values. -/
def uadd (a b : Nat) : Nat := (a + b) % UINT_RANGE

/-- Subtraction of two `unsigned int` values (wrapping below zero). -/
def usub (a b : Nat) : Nat := (a + UINT_RANGE - b % UINT_RANGE) % UINT_RANGE

/-- Multiplication of two `unsigned int` values. -/
def umul (a b : Nat) : Nat := (a * b) % UINT_RANGE

/-! ## Counted loops -/

/-- The loop `for (i = lo; i < hi; i++) body`, run as `forRange body (hi - lo) lo`: the first
number counts the iterations that remain, the second is the loop variable.  A failing body
ends the loop with that failure. -/
def forRange {σ : Type} (body : Nat → σ → Except Error σ) : Nat → Nat → σ → Except Error σ
  | 0, _, s => .ok s
  | k + 1, i, s =>
    match body i s with
    | .error e => .error e
    | .ok s' => forRange body k (i + 1) s'

/-! ## Raw memory -/

/-- Read of `p[i]`: defined only inside an allocated array. -/
def readAt {T : Type} (p : Option (List T)) (i : Nat) : Except Error T :=
  match p with
  | none => .error Error.undefined
  | some l =>
    match l[i]? with
    | some v => .ok v
    | none => .error Error.undefined

/-- Write `p[i] = v`: defined only inside an allocated array. -/
def writeAt {T : Type} (p : Option (List T)) (i : Nat) (v : T) :
    Except Error (Option (List T)) :=
  match p with
  | none => .error Error.undefined
  | some l => if i < l.length then .ok (some (l.set i v)) else .error Error.undefined

/-- The call `memcpy(dst, src, sizeof(T) * n)`, counted in elements.  Copying nothing is a
no-op whatever the pointers are; otherwise both arrays must hold at least `n` elements. -/
def memcpy {T : Type} (dst src : Option (List T)) (n : Nat) :
    Except Error (Option (List T)) :=
  if n = 0 then .ok dst
  else
    match dst, src with
    | some d, some s =>
      if n ≤ d.length ∧ n ≤ s.length then .ok (some (s.take n ++ d.drop n))
      else .error Error.undefined
    | _, _ => .error Error.undefined

/-- The expression `new T[n]`: an array of `n` elements whose initial contents `fresh` are
whatever the allocator hands out. -/
def newArray {T : Type} (fresh : Nat → T) (n : Nat) : Option (List T) :=
  some ((List.range n).map fresh)

/-! ## The class `BaseImage<T>` -/

/-- The data members of `BaseImage<T>` (with `m_format` of the base class `Image`). -/
structure BaseImage (T : Type) where
  /-- Image data: `none` is `nullptr`, `some l` an array of `l.length` pixels. -/
  m_data : Option (List T)
  m_height : Nat
  m_width : Nat
  /-- Invalid image value (the sentinel). -/
  m_InvalidValue : T
  m_format : Format

namespace BaseImage

variable {T : Type}

/-- Number of pixels the array behind `m_data` holds (none for the null pointer). -/
def storageLen (img : BaseImage T) : Nat :=
  match img.m_data with
  | none => 0
  | some l => l.length

/-- The member `getWidth()`. -/
def getWidth (img : BaseImage T) : Nat := img.m_width

/-- The member `getHeight()`. -/
def getHeight (img : BaseImage T) : Nat := img.m_height

/-- The member `size()`: the `unsigned int` product `m_width*m_height`. -/
def size (img : BaseImage T) : Nat := (img.m_width * img.m_height) % UINT_RANGE

/-- The member `getInvalidValue()`. -/
def getInvalidValue (img : BaseImage T) : T := img.m_InvalidValue

/-- The member `setInvalidValue(invalidValue)`. -/
def setInvalidValue (img : BaseImage T) (invalidValue : T) : BaseImage T :=
  { img with m_InvalidValue := invalidValue }

/-- The member `create(width, height)`: stores the size and allocates
`new T[m_height * m_width]`, the count being an `unsigned int` product. -/
def create (img : BaseImage T) (width height : Nat) (fresh : Nat → T) : BaseImage T :=
  { img with
    m_width := width
    m_height := height
    m_data := newArray fresh ((height * width) % UINT_RANGE) }

/-- Modelled from the spec: the macro `SAFE_DELETE_ARRAY` is not part of the sources at hand;
it releases the array and leaves the pointer null. -/
def SAFE_DELETE_ARRAY (img : BaseImage T) : BaseImage T :=
  { img with m_data := none }

/-- The default constructor `BaseImage()`; `inv` is the uninitialised `m_InvalidValue`. -/
def mkDefault [FormatFromTemplate T] (inv : T) : BaseImage T :=
  { m_data := none, m_height := 0, m_width := 0, m_InvalidValue := inv,
    m_format := FormatFromTemplate.formatFromTemplate T }

/-- The member `free()`. -/
def free (img : BaseImage T) : BaseImage T :=
  { (SAFE_DELETE_ARRAY img) with m_height := 0, m_width := 0 }

/-- The friend function `swap(a, b)`: all five members change sides. -/
def swap (a b : BaseImage T) : BaseImage T × BaseImage T :=
  ({ m_data := b.m_data, m_height := b.m_height, m_width := b.m_width,
     m_InvalidValue := b.m_InvalidValue, m_format := b.m_format },
   { m_data := a.m_data, m_height := a.m_height, m_width := a.m_width,
     m_InvalidValue := a.m_InvalidValue, m_format := a.m_format })

/-- The member `allocate(width, height)`. -/
def allocate (img : BaseImage T) (width height : Nat) (fresh : Nat → T) : BaseImage T :=
  if width = 0 ∨ height = 0 then img.free
  else if img.m_width ≠ width ∨ img.m_height ≠ height then
    (SAFE_DELETE_ARRAY img).create width height fresh
  else img

/-- The member `allocateSameSize(other)`. -/
def allocateSameSize (img other : BaseImage T) (fresh : Nat → T) : BaseImage T :=
  if other.m_width ≠ img.m_width ∨ other.m_height ≠ img.m_height then
    (SAFE_DELETE_ARRAY img).create other.m_width other.m_height fresh
  else img

/-- The check and the index of `operator()(unsigned int x, unsigned int y)`: the position of
the element `m_data[y*m_width + x]` the operator refers to, computed in `unsigned int`. -/
def pixelOffset (img : BaseImage T) (x y : Nat) : Except Error Nat :=
  match MLIB_ASSERT (decide (x < img.m_width ∧ y < img.m_height)) with
  | .error e => .error e
  | .ok _ => .ok ((y * img.m_width + x) % UINT_RANGE)

/-- The check and the index of `operator()(size_t x, size_t y)`, computed in `size_t`. -/
def pixelOffsetSize (img : BaseImage T) (x y : Nat) : Except Error Nat :=
  match MLIB_ASSERT (decide (x < img.m_width ∧ y < img.m_height)) with
  | .error e => .error e
  | .ok _ => .ok ((y * img.m_width + x) % SIZE_RANGE)

/-- The member `getPixel(x, y)` at `unsigned int` coordinates: a read through the
constant `operator()`. -/
def getPixel (img : BaseImage T) (x y : Nat) : Except Error T :=
  match img.pixelOffset x y with
  | .error e => .error e
  | .ok i => readAt img.m_data i

/-- The member `setPixel(x, y, value)` at `unsigned int` coordinates: an assignment through
the mutating `operator()`. -/
def setPixel (img : BaseImage T) (x y : Nat) (value : T) : Except Error (BaseImage T) :=
  match img.pixelOffset x y with
  | .error e => .error e
  | .ok i =>
    match writeAt img.m_data i value with
    | .error e => .error e
    | .ok d => .ok { img with m_data := d }

/-- The member `getPixel(x, y)` at `size_t` coordinates. -/
def getPixelSize (img : BaseImage T) (x y : Nat) : Except Error T :=
  match img.pixelOffsetSize x y with
  | .error e => .error e
  | .ok i => readAt img.m_data i

/-- The member `setPixel(x, y, value)` at `size_t` coordinates. -/
def setPixelSize (img : BaseImage T) (x y : Nat) (value : T) : Except Error (BaseImage T) :=
  match img.pixelOffsetSize x y with
  | .error e => .error e
  | .ok i =>
    match writeAt img.m_data i value with
    | .error e => .error e
    | .ok d => .ok { img with m_data := d }

/-- The data-model invariant of a pixel buffer: both dimensions and the pixel count are
`unsigned int` values and the array holds exactly `width * height` pixels. -/
def WellFormed (img : BaseImage T) : Prop :=
  img.m_width < UINT_RANGE ∧ img.m_height < UINT_RANGE ∧
    img.storageLen < UINT_RANGE ∧ img.storageLen = img.m_width * img.m_height

instance (img : BaseImage T) : Decidable (WellFormed img) := by
  unfold WellFormed; infer_instance

/-! ### Constructors and assignment -/

/-- The constructor `BaseImage(size_t width, size_t height)` with `data == nullptr`:
`create((UINT)width, (UINT)height)` on an object whose sentinel `inv` is left
uninitialised. -/
def sized [FormatFromTemplate T] (width height : Nat) (inv : T) (fresh : Nat → T) :
    BaseImage T :=
  (mkDefault inv).create (width % UINT_RANGE) (height % UINT_RANGE) fresh

/-- The constructor `BaseImage(size_t width, size_t height, const T *data)`: after `create`,
a non-null `data` is copied with `memcpy(m_data, data, sizeof(T) * height * width)`, the
count being a `size_t` product. -/
def sizedFrom [FormatFromTemplate T] (width height : Nat) (data : Option (List T)) (inv : T)
    (fresh : Nat → T) : Except Error (BaseImage T) :=
  let img := sized width height inv fresh
  match data with
  | none => .ok img
  | some d =>
    match memcpy img.m_data (some d) ((height * width) % SIZE_RANGE) with
    | .error e => .error e
    | .ok m => .ok { img with m_data := m }

/-- The constructor `BaseImage(const vec2i &dimensions)`:
`create((UINT)dimensions.x, (UINT)dimensions.y)`; the base class gets its default format. -/
def ofDimensions (x y : Int) (inv : T) (fresh : Nat → T) : BaseImage T :=
  ({ m_data := none, m_height := 0, m_width := 0, m_InvalidValue := inv,
     m_format := Format.FORMAT_Unknown } : BaseImage T).create
    (x % (UINT_RANGE : Int)).toNat (y % (UINT_RANGE : Int)).toNat fresh

/-- The member that copies a non-null `data` over the pixels
(`void initialize(const T *data)` in the source). -/
def initData (img : BaseImage T) (data : Option (List T)) : Except Error (BaseImage T) :=
  match data with
  | none => .ok img
  | some d =>
    match memcpy img.m_data (some d) (img.m_height * img.m_width) with
    | .error e => .error e
    | .ok m => .ok { img with m_data := m }

/-- The copy constructor `BaseImage(const BaseImage& other)`. -/
def copy (other : BaseImage T) (fresh : Nat → T) : Except Error (BaseImage T) :=
  let img := ({ m_data := none, m_height := 0, m_width := 0,
                m_InvalidValue := other.m_InvalidValue,
                m_format := other.m_format } : BaseImage T).create
    other.m_width other.m_height fresh
  match memcpy img.m_data other.m_data (img.m_width * img.m_height) with
  | .error e => .error e
  | .ok m => .ok { img with m_data := m, m_InvalidValue := other.getInvalidValue }

/-- The move constructor `BaseImage(BaseImage&& other)`: the new object starts empty and is
swapped with `other`.  The result is the pair (new object, `other` afterwards). -/
def moveConstruct [FormatFromTemplate T] (other : BaseImage T) (inv : T) :
    BaseImage T × BaseImage T :=
  swap (mkDefault inv) other

/-- The copy assignment `*this = other` for two distinct objects (`this != &other`). -/
def copyAssign (img other : BaseImage T) (fresh : Nat → T) : Except Error (BaseImage T) :=
  let img1 :=
    if other.m_width ≠ img.m_width ∨ other.m_height ≠ img.m_height then
      (SAFE_DELETE_ARRAY img).create other.m_width other.m_height fresh
    else img
  match memcpy img1.m_data other.m_data (img1.m_height * img1.m_width) with
  | .error e => .error e
  | .ok m =>
    .ok { img1 with m_data := m, m_InvalidValue := other.getInvalidValue,
                    m_format := other.m_format }

/-- The move assignment `*this = std::move(other)`: `swap(*this, other)`.  The result is
the pair (`*this` afterwards, `other` afterwards). -/
def moveAssign (img other : BaseImage T) : BaseImage T × BaseImage T :=
  swap img other

/-! ### Comparison and arithmetic -/

/-- The loop of `operator==`: `k` iterations remain, `i` is the loop variable. -/
def opEqLoop [DecidableEq T] (a b : Option (List T)) : Nat → Nat → Except Error Bool
  | 0, _ => .ok true
  | k + 1, i =>
    match readAt a i with
    | .error e => .error e
    | .ok x =>
      match readAt b i with
      | .error e => .error e
      | .ok y => if x ≠ y then .ok false else opEqLoop a b k (i + 1)

/-- The comparison `*this == other`. -/
def opEq [DecidableEq T] (img other : BaseImage T) : Except Error Bool :=
  if other.m_width ≠ img.m_width ∨ other.m_height ≠ img.m_height then .ok false
  else opEqLoop img.m_data other.m_data (umul img.m_width img.m_height) 0

/-- The body `im.m_data[i] = f(m_data[i], other.m_data[i])` shared by the two arithmetic
operators. -/
def zipBody (f : T → T → T) (a b : Option (List T)) (i : Nat) (im : BaseImage T) :
    Except Error (BaseImage T) :=
  match readAt a i with
  | .error e => .error e
  | .ok x =>
    match readAt b i with
    | .error e => .error e
    | .ok y =>
      match writeAt im.m_data i (f x y) with
      | .error e => .error e
      | .ok d => .ok { im with m_data := d }

/-- The difference `*this - other`; `inv` and `fresh` are the uninitialised sentinel and
pixels of the local image `im`. -/
def opSub [Sub T] [FormatFromTemplate T] (img other : BaseImage T) (inv : T)
    (fresh : Nat → T) : Except Error (BaseImage T) :=
  if other.m_width ≠ img.m_width ∨ other.m_height ≠ img.m_height then
    .error (Error.exception "Invalid image dimensions")
  else
    forRange (zipBody (fun x y => x - y) img.m_data other.m_data)
      (umul img.m_width img.m_height) 0 (sized img.m_width img.m_height inv fresh)

/-- The sum `*this + other`. -/
def opAdd [Add T] [FormatFromTemplate T] (img other : BaseImage T) (inv : T)
    (fresh : Nat → T) : Except Error (BaseImage T) :=
  if other.m_width ≠ img.m_width ∨ other.m_height ≠ img.m_height then
    .error (Error.exception "Invalid image dimensions")
  else
    forRange (zipBody (fun x y => x + y) img.m_data other.m_data)
      (umul img.m_width img.m_height) 0 (sized img.m_width img.m_height inv fresh)

/-! ### Copying a region -/

/-- The statement `(*this)(x, y) = source(x - startX, y - startY)`. -/
def copyPixel (source : BaseImage T) (startX startY y x : Nat) (img : BaseImage T) :
    Except Error (BaseImage T) :=
  match source.getPixel (usub x startX) (usub y startY) with
  | .error e => .error e
  | .ok v => img.setPixel x y v

/-- The member `copyIntoImage(source, startX, startY)`; the sums of the check and of the two
loop bounds are `unsigned int` sums. -/
def copyIntoImage (img source : BaseImage T) (startX startY : Nat) :
    Except Error (BaseImage T) :=
  match MLIB_ASSERT (decide (uadd source.getWidth startX ≤ img.getWidth ∧
      uadd source.getHeight startY ≤ img.getHeight)) with
  | .error e => .error e
  | .ok _ =>
    forRange (fun y im =>
        forRange (copyPixel source startX startY y)
          (uadd startX source.getWidth - startX) startX im)
      (uadd startY source.getHeight - startY) startY img

/-! ### Validity of pixels -/

/-- The member `isValidValue(value)`. -/
def isValidValue [DecidableEq T] (img : BaseImage T) (value : T) : Bool :=
  decide (value ≠ img.m_InvalidValue)

/-- The member `isValid(x, y)` at `unsigned int` coordinates. -/
def isValid [DecidableEq T] (img : BaseImage T) (x y : Nat) : Except Error Bool :=
  match img.getPixel x y with
  | .error e => .error e
  | .ok v => .ok (decide (v ≠ img.m_InvalidValue))

/-- The member `isValidCoordinate(x, y)`. -/
def isValidCoordinate (img : BaseImage T) (x y : Nat) : Bool :=
  decide (x < img.m_width ∧ y < img.m_height)

/-- The arithmetic of the pixel type `T` that the image algorithms use.  The template
parameter is not fixed by the class, so each expression of the source is a field. -/
structure PixelOps (T : Type) where
  /-- The value-initialised pixel `T()`. -/
  zero : T
  /-- The pixel left by `result(x, y) = a + b + c + d; result(x, y) /= 4;`. -/
  boxAverage : T → T → T → T → T
  /-- The update `value += p`. -/
  accumulate : T → T → T
  /-- The pixel `value / (float)valid`. -/
  divideByCount : T → Nat → T
  /-- The pixel `((float)valid*p + value) / (2 * (float)valid)`. -/
  laplace : Nat → T → T → T

/-- The assignment `img(x, y) = v` where computing `v` may itself fail. -/
def assignPixel (img : BaseImage T) (x y : Nat) (v : Except Error T) :
    Except Error (BaseImage T) :=
  match v with
  | .error e => .error e
  | .ok w => img.setPixel x y w

/-- The statement `if (isValid(x, y)) { valid++; value += getPixel(x, y); }` on the pair
`(valid, value)`. -/
def addIfValid [DecidableEq T] (ops : PixelOps T) (img : BaseImage T) (x y : Nat)
    (acc : Nat × T) : Except Error (Nat × T) :=
  match img.isValid x y with
  | .error e => .error e
  | .ok false => .ok acc
  | .ok true =>
    match img.getPixel x y with
    | .error e => .error e
    | .ok v => .ok (uadd acc.1 1, ops.accumulate acc.2 v)

/-- The statement
`if (isValidCoordinate(x, y) && isValid(x, y)) { valid++; value += getPixel(x, y); }`. -/
def addIfValidCoordinate [DecidableEq T] (ops : PixelOps T) (img : BaseImage T) (x y : Nat)
    (acc : Nat × T) : Except Error (Nat × T) :=
  if img.isValidCoordinate x y then addIfValid ops img x y acc else .ok acc

/-! ### Mip-mapping -/

/-- The pixel value of the branch `!ignoreInvalidPixels` of `mipMap`. -/
def mipMapBox (ops : PixelOps T) (img : BaseImage T) (x y : Nat) : Except Error T := do
  let a ← img.getPixel (uadd (umul 2 x) 0) (uadd (umul 2 y) 0)
  let b ← img.getPixel (uadd (umul 2 x) 1) (uadd (umul 2 y) 0)
  let c ← img.getPixel (uadd (umul 2 x) 0) (uadd (umul 2 y) 1)
  let d ← img.getPixel (uadd (umul 2 x) 1) (uadd (umul 2 y) 1)
  pure (ops.boxAverage a b c d)

/-- The pixel value of the branch `ignoreInvalidPixels` of `mipMap`; `resultInvalid` is
`result.getInvalidValue()`. -/
def mipMapValid [DecidableEq T] (ops : PixelOps T) (img : BaseImage T) (resultInvalid : T)
    (x y : Nat) : Except Error T := do
  let acc0 : Nat × T := (0, ops.zero)
  let acc1 ← addIfValid ops img (uadd (umul 2 x) 0) (uadd (umul 2 y) 0) acc0
  let acc2 ← addIfValid ops img (uadd (umul 2 x) 1) (uadd (umul 2 y) 0) acc1
  let acc3 ← addIfValid ops img (uadd (umul 2 x) 0) (uadd (umul 2 y) 1) acc2
  let acc4 ← addIfValid ops img (uadd (umul 2 x) 1) (uadd (umul 2 y) 1) acc3
  if acc4.1 = 0 then pure resultInvalid else pure (ops.divideByCount acc4.2 acc4.1)

/-- The member `mipMap(result, ignoreInvalidPixels)`; the outcome is `result` afterwards. -/
def mipMap [DecidableEq T] (ops : PixelOps T) (img result : BaseImage T)
    (ignoreInvalidPixels : Bool) (fresh : Nat → T) : Except Error (BaseImage T) :=
  let r0 := (result.allocate (img.m_width / 2) (img.m_height / 2) fresh).setInvalidValue
    img.m_InvalidValue
  if !ignoreInvalidPixels then
    forRange (fun y r => forRange (fun x r1 => r1.assignPixel x y (mipMapBox ops img x y))
      r.m_width 0 r) r0.m_height 0 r0
  else
    forRange (fun y r => forRange (fun x r1 =>
        r1.assignPixel x y (mipMapValid ops img r1.getInvalidValue x y))
      r.m_width 0 r) r0.m_height 0 r0

/-! ### Resampling -/

/-- The member `reSample(newWidth, newHeight)`.  The floating-point part is a parameter:
`normIndex j newDim dim` is the `unsigned int` that the source obtains as
`(unsigned int)round(((float)j / (newDim - 1)) * (dim - 1))`. -/
def reSample [FormatFromTemplate T] (normIndex : Nat → Nat → Nat → Nat) (img : BaseImage T)
    (newWidth newHeight : Nat) (inv : T) (fresh : Nat → T) : Except Error (BaseImage T) :=
  if img.m_width ≠ newWidth ∨ img.m_height ≠ newHeight then
    let res := (sized newWidth newHeight inv fresh).setInvalidValue img.m_InvalidValue
    match forRange (fun i r => forRange (fun j r1 =>
        r1.assignPixel j i
          (img.getPixel (normIndex j newWidth img.m_width) (normIndex i newHeight img.m_height)))
        newWidth 0 r) newHeight 0 res with
    | .error e => .error e
    | .ok res1 => .ok (swap img res1).1
  else .ok img

/-! ### Smoothing -/

/-- The body of the inner loop of `smooth` for the pixel `(x, y)`, acting on `other`. -/
def smoothPixel [DecidableEq T] (ops : PixelOps T) (img : BaseImage T) (y x : Nat)
    (other : BaseImage T) : Except Error (BaseImage T) := do
  let acc0 : Nat × T := (0, ops.zero)
  let acc1 ← addIfValidCoordinate ops img (usub x 1) (uadd y 0) acc0
  let acc2 ← addIfValidCoordinate ops img (uadd x 1) (uadd y 0) acc1
  let acc3 ← addIfValidCoordinate ops img (uadd x 0) (uadd y 1) acc2
  let acc4 ← addIfValidCoordinate ops img (uadd x 0) (usub y 1) acc3
  let valid ← img.isValid x y
  if valid then
    other.assignPixel x y
      (match img.getPixel x y with
       | .error e => .error e
       | .ok p => .ok (ops.laplace acc4.1 p acc4.2))
  else pure other

/-- One iteration of the outer loop of `smooth`: a new image `other` of the same size gets
the smoothed pixels and is then copy-assigned to `*this`. -/
def smoothStep [DecidableEq T] [FormatFromTemplate T] (ops : PixelOps T) (inv : T)
    (fresh : Nat → T) (img : BaseImage T) : Except Error (BaseImage T) :=
  let other := (sized img.m_width img.m_height inv fresh).setInvalidValue img.m_InvalidValue
  match forRange (fun y o => forRange (smoothPixel ops img y) img.m_width 0 o)
      img.m_height 0 other with
  | .error e => .error e
  | .ok other1 => img.copyAssign other1 fresh

/-- The member `smooth(steps)`; `inv i` and `fresh i` are the uninitialised contents of the
image allocated in iteration `i`. -/
def smooth [DecidableEq T] [FormatFromTemplate T] (ops : PixelOps T) (inv : Nat → T)
    (fresh : Nat → Nat → T) (img : BaseImage T) (steps : Nat) : Except Error (BaseImage T) :=
  forRange (fun i im => smoothStep ops (inv i) (fresh i) im) steps 0 img

/-! ### Stream input -/

/-- The stream operator `s >> image`: the stream delivers `width`, `height`,
`invalidValue` and then the pixels `payload`, which are read into the array of the image
(`sizeof(T)*width*height` bytes, a `size_t` product). -/
def streamRead (image : BaseImage T) (width height : Nat) (invalidValue : T)
    (payload : List T) (fresh : Nat → T) : Except Error (BaseImage T) :=
  let im := (image.allocate width height fresh).setInvalidValue invalidValue
  match memcpy im.m_data (some payload) (width * height) with
  | .error e => .error e
  | .ok m => .ok { im with m_data := m }

/-! ### Reachable states -/

/-- The buffers that the public operations of `BaseImage<T>` produce: every constructor
gives one, and every operation that returns normally takes reachable buffers to reachable
buffers. -/
inductive Reachable [DecidableEq T] [Add T] [Sub T] [FormatFromTemplate T] :
    BaseImage T → Prop where
  | mkDefault (inv : T) : Reachable (mkDefault inv)
  | ofDimensions (x y : Int) (inv : T) (fresh : Nat → T) :
      Reachable (ofDimensions x y inv fresh)
  | sizedFrom (width height : Nat) (data : Option (List T)) (inv : T) (fresh : Nat → T)
      (r : BaseImage T) : sizedFrom width height data inv fresh = .ok r → Reachable r
  | copy (other : BaseImage T) (fresh : Nat → T) (r : BaseImage T) :
      Reachable other → copy other fresh = .ok r → Reachable r
  | moveConstruct_fst (other : BaseImage T) (inv : T) :
      Reachable other → Reachable (moveConstruct other inv).1
  | moveConstruct_snd (other : BaseImage T) (inv : T) :
      Reachable other → Reachable (moveConstruct other inv).2
  | free (img : BaseImage T) : Reachable img → Reachable img.free
  | swap_fst (a b : BaseImage T) : Reachable a → Reachable b → Reachable (swap a b).1
  | swap_snd (a b : BaseImage T) : Reachable a → Reachable b → Reachable (swap a b).2
  | initData (img : BaseImage T) (data : Option (List T)) (r : BaseImage T) :
      Reachable img → img.initData data = .ok r → Reachable r
  | copyAssign (img other : BaseImage T) (fresh : Nat → T) (r : BaseImage T) :
      Reachable img → Reachable other → img.copyAssign other fresh = .ok r → Reachable r
  | moveAssign_fst (img other : BaseImage T) :
      Reachable img → Reachable other → Reachable (img.moveAssign other).1
  | moveAssign_snd (img other : BaseImage T) :
      Reachable img → Reachable other → Reachable (img.moveAssign other).2
  | allocateSameSize (img other : BaseImage T) (fresh : Nat → T) :
      Reachable img → Reachable other → Reachable (img.allocateSameSize other fresh)
  | allocate (img : BaseImage T) (width height : Nat) (fresh : Nat → T) :
      Reachable img → width < UINT_RANGE → height < UINT_RANGE →
      Reachable (img.allocate width height fresh)
  | setInvalidValue (img : BaseImage T) (v : T) :
      Reachable img → Reachable (img.setInvalidValue v)
  | setPixel (img : BaseImage T) (x y : Nat) (v : T) (r : BaseImage T) :
      Reachable img → img.setPixel x y v = .ok r → Reachable r
  | setPixelSize (img : BaseImage T) (x y : Nat) (v : T) (r : BaseImage T) :
      Reachable img → img.setPixelSize x y v = .ok r → Reachable r
  | copyIntoImage (img source : BaseImage T) (startX startY : Nat) (r : BaseImage T) :
      Reachable img → Reachable source → img.copyIntoImage source startX startY = .ok r →
      Reachable r
  | opAdd (img other : BaseImage T) (inv : T) (fresh : Nat → T) (r : BaseImage T) :
      Reachable img → Reachable other → img.opAdd other inv fresh = .ok r → Reachable r
  | opSub (img other : BaseImage T) (inv : T) (fresh : Nat → T) (r : BaseImage T) :
      Reachable img → Reachable other → img.opSub other inv fresh = .ok r → Reachable r
  | mipMap (ops : PixelOps T) (img result : BaseImage T) (ignoreInvalidPixels : Bool)
      (fresh : Nat → T) (r : BaseImage T) :
      Reachable img → Reachable result →
      img.mipMap ops result ignoreInvalidPixels fresh = .ok r → Reachable r
  | reSample (normIndex : Nat → Nat → Nat → Nat) (img : BaseImage T)
      (newWidth newHeight : Nat) (inv : T) (fresh : Nat → T) (r : BaseImage T) :
      Reachable img → newWidth < UINT_RANGE → newHeight < UINT_RANGE →
      img.reSample normIndex newWidth newHeight inv fresh = .ok r → Reachable r
  | smooth (ops : PixelOps T) (inv : Nat → T) (fresh : Nat → Nat → T) (img : BaseImage T)
      (steps : Nat) (r : BaseImage T) :
      Reachable img → img.smooth ops inv fresh steps = .ok r → Reachable r
  | streamRead (image : BaseImage T) (width height : Nat) (invalidValue : T)
      (payload : List T) (fresh : Nat → T) (r : BaseImage T) :
      Reachable image → width < UINT_RANGE → height < UINT_RANGE →
      image.streamRead width height invalidValue payload fresh = .ok r → Reachable r

/-! ### Filling and flipping -/

/-- The statement `(*this)(x, y) = fillFunction(x, y)` of `fill`, at `size_t` coordinates.
The state is the image together with the list of the arguments `fillFunction` has been
called with so far. -/
def fillPixel (fillFunction : Nat → Nat → T) (y x : Nat)
    (s : BaseImage T × List (Nat × Nat)) : Except Error (BaseImage T × List (Nat × Nat)) :=
  match s.1.setPixelSize x y (fillFunction x y) with
  | .error e => .error e
  | .ok r => .ok (r, s.2 ++ [(x, y)])

/-- The member `fill(fillFunction)`: the image afterwards and the calls of `fillFunction`
in the order they were made. -/
def fill (img : BaseImage T) (fillFunction : Nat → Nat → T) :
    Except Error (BaseImage T × List (Nat × Nat)) :=
  forRange (fun y s => forRange (fillPixel fillFunction y) s.1.m_width 0 s)
    img.m_height 0 (img, [])

/-- The three statements
`T tmp = (*this)(x, y); (*this)(x, y) = (*this)(x2, y2); (*this)(x2, y2) = tmp;`. -/
def swapPixels (img : BaseImage T) (x y x2 y2 : Nat) : Except Error (BaseImage T) :=
  match img.getPixel x y with
  | .error e => .error e
  | .ok tmp =>
    match img.getPixel x2 y2 with
    | .error e => .error e
    | .ok v =>
      match img.setPixel x y v with
      | .error e => .error e
      | .ok img1 => img1.setPixel x2 y2 tmp

/-- The member `flipY()`: rows `y` and `m_height - y - 1` change places. -/
def flipY (img : BaseImage T) : Except Error (BaseImage T) :=
  forRange (fun y im =>
      forRange (fun x im1 => im1.swapPixels x y x (usub (usub im1.m_height y) 1))
        im.m_width 0 im)
    (img.m_height / 2) 0 img

/-- The member `flipX()`: columns `x` and `m_width - x - 1` change places. -/
def flipX (img : BaseImage T) : Except Error (BaseImage T) :=
  forRange (fun y im =>
      forRange (fun x im1 => im1.swapPixels x y (usub (usub im1.m_width x) 1) y)
        (im.m_width / 2) 0 im)
    img.m_height 0 img

/-! ### Fractional coordinates

Floating-point coordinates (`float`, `double`) are exact rational numbers here; the
rounding of floating-point arithmetic is outside the model. -/

/-- Modelled from the spec: `math::lerp` is not part of the sources at hand; the
specification gives `lerp(a, b, t) = a + (b - a)*t`. -/
def lerp (a b t : ℚ) : ℚ := a + (b - a) * t

/-- Modelled from the spec: `math::floor` is not part of the sources at hand;
`unsigned int xl = math::floor(x)` is the largest integer not above `x`, as `unsigned int`. -/
def floorUInt (x : ℚ) : Nat := (Int.floor x).toNat % UINT_RANGE

/-- Modelled from the spec: `math::ceil` is not part of the sources at hand;
`unsigned int xh = math::ceil(x)` is the least integer not below `x`, as `unsigned int`. -/
def ceilUInt (x : ℚ) : Nat := (Int.ceil x).toNat % UINT_RANGE

/-- Modelled from the spec: `math::round` is not part of the sources at hand;
`(unsigned int)math::round(x)` is the integer nearest to `x`, as `unsigned int`. -/
def roundUInt (x : ℚ) : Nat := (round x).toNat % UINT_RANGE

/-- The member `getInterpolated(x, y)` on a buffer of exact scalars. -/
def getInterpolated (img : BaseImage ℚ) (x y : ℚ) : Except Error ℚ :=
  let xl := floorUInt x
  let xh := ceilUInt x
  let yl := floorUInt y
  let yh := ceilUInt y
  let t := x - (xl : ℚ)
  let s := y - (yl : ℚ)
  match img.getPixel xl yl with
  | .error e => .error e
  | .ok p00 =>
    match img.getPixel xh yl with
    | .error e => .error e
    | .ok p10 =>
      match img.getPixel xl yh with
      | .error e => .error e
      | .ok p01 =>
        match img.getPixel xh yh with
        | .error e => .error e
        | .ok p11 => .ok (lerp (lerp p00 p10 s) (lerp p01 p11 s) t)

/-- The index `(unsigned int)math::round(x*(m_width - 1))` that the normalized-coordinate
operators compute from a coordinate `u` and a dimension. -/
def normToIndex (u : ℚ) (dim : Nat) : Nat :=
  roundUInt (u * ((usub dim 1 : Nat) : ℚ))

/-- The index that `reSample` reads for the new coordinate `j`: with
`x = (float)j / (newDim - 1)` the call `getPixel(x, y)` looks at
`(unsigned int)round(x*(dim - 1))`. -/
def normIndexExact (j newDim dim : Nat) : Nat :=
  normToIndex ((j : ℚ) / ((usub newDim 1 : Nat) : ℚ)) dim

/-! ### Exact pixel arithmetic -/

/-- Division in an exact pixel type.  A division by zero has no exact value: `divZero`
stands for whatever it leaves behind. -/
def pixelDiv {F : Type} [Field F] [DecidableEq F] (divZero a b : F) : F :=
  if b = 0 then divZero else a / b

/-- The arithmetic of an exact scalar pixel type (a field such as the rationals), read off
the expressions of `mipMap` and `smooth`. -/
def exactOps {F : Type} [Field F] [DecidableEq F] (divZero : F) : PixelOps F where
  zero := 0
  boxAverage a b c d := pixelDiv divZero (a + b + c + d) 4
  accumulate value p := value + p
  divideByCount value valid := pixelDiv divZero value (valid : F)
  laplace valid p value := pixelDiv divZero ((valid : F) * p + value) (2 * (valid : F))

/-! ### Row-major order -/

/-- The coordinates of row `y` of an image of width `w`, from left to right. -/
def rowCoordinates (w y : Nat) : List (Nat × Nat) :=
  (List.range w).map (fun x => (x, y))

/-- The in-bounds coordinates `(x, y)` of a `w` x `h` image in row-major order: `y` is
the outer index, `x` the inner one. -/
def rowMajorCoordinates (w : Nat) : Nat → List (Nat × Nat)
  | 0 => []
  | h + 1 => rowMajorCoordinates w h ++ rowCoordinates w h

/-! ### Invariants -/

/-- The shape of a buffer: its dimensions, the number of pixels stored and whether storage
exists at all. -/
def SameShape (a b : BaseImage T) : Prop :=
  a.m_width = b.m_width ∧ a.m_height = b.m_height ∧ a.storageLen = b.storageLen ∧
    (a.m_data = none ↔ b.m_data = none)

/-- The invariant that every public operation maintains: the dimensions are `unsigned int`
values, the array holds `size()` pixels, and the null pointer goes with the size 0 x 0. -/
def Inv (img : BaseImage T) : Prop :=
  img.m_width < UINT_RANGE ∧ img.m_height < UINT_RANGE ∧ img.storageLen = img.size ∧
    (img.m_data = none → img.m_width = 0 ∧ img.m_height = 0)

/-- Two buffers agree in everything but the pixels: width, height, sentinel and format. -/
def SameFrame (a b : BaseImage T) : Prop :=
  a.m_width = b.m_width ∧ a.m_height = b.m_height ∧ a.m_InvalidValue = b.m_InvalidValue ∧
    a.m_format = b.m_format

/-- The empty buffer: width 0, height 0 and no backing storage. -/
def IsEmpty (img : BaseImage T) : Prop :=
  img.m_width = 0 ∧ img.m_height = 0 ∧ img.m_data = none

instance (img : BaseImage Nat) : Decidable (IsEmpty img) := by
  unfold IsEmpty; infer_instance

/-! ### Concrete buffers used to exercise the theorems -/

/-- A 2x2 buffer of natural numbers with pixels `10 20 / 30 40` and sentinel `0`. -/
def exampleImage : BaseImage Nat :=
  { m_data := some [10, 20, 30, 40], m_height := 2, m_width := 2, m_InvalidValue := 0,
    m_format := Format.FORMAT_Unknown }

/-- A 1x1 buffer of natural numbers with pixel `7` and sentinel `1`. -/
def exampleSmall : BaseImage Nat :=
  { m_data := some [7], m_height := 1, m_width := 1, m_InvalidValue := 1,
    m_format := Format.FORMAT_Unknown }

/-- The pixel type `unsigned short` (`USHORT`) of `DepthImage16`.  A sum or difference of
two such pixels is computed in `int` and reduced modulo `2 ^ 16` when it is stored back, so
the stored results are those of the integers modulo `2 ^ 16`. -/
abbrev USHORT : Type := ZMod 65536

instance instFormatUShort : FormatFromTemplate USHORT :=
  ⟨Format.FORMAT_DepthImage16⟩

/-- A 2x1 buffer of 16-bit pixels `65535 2`. -/
def exampleDepthA : BaseImage USHORT :=
  { m_data := some [65535, 2], m_height := 1, m_width := 2, m_InvalidValue := 0,
    m_format := Format.FORMAT_DepthImage16 }

/-- A 2x1 buffer of 16-bit pixels `3 65535`. -/
def exampleDepthB : BaseImage USHORT :=
  { m_data := some [3, 65535], m_height := 1, m_width := 2, m_InvalidValue := 0,
    m_format := Format.FORMAT_DepthImage16 }

/-- Bilinear interpolation as the specification words it: with `tx = x - floor(x)` and
`ty = y - floor(y)`, the `x` fraction blends the columns `xl`, `xh` and the `y` fraction
blends the rows `yl`, `yh`. -/
def bilinearSpec (img : BaseImage ℚ) (x y : ℚ) : Except Error ℚ :=
  let xl := floorUInt x
  let xh := ceilUInt x
  let yl := floorUInt y
  let yh := ceilUInt y
  let tx := x - (xl : ℚ)
  let ty := y - (yl : ℚ)
  match img.getPixel xl yl, img.getPixel xh yl, img.getPixel xl yh, img.getPixel xh yh with
  | .ok p00, .ok p10, .ok p01, .ok p11 => .ok (lerp (lerp p00 p10 tx) (lerp p01 p11 tx) ty)
  | _, _, _, _ => .error Error.undefined

/-- A 2x2 buffer of exact scalars whose pixel at `(x, y)` is `x`: rows `0 1` and `0 1`. -/
def exampleRamp : BaseImage ℚ :=
  { m_data := some [0, 1, 0, 1], m_height := 2, m_width := 2, m_InvalidValue := -1,
    m_format := Format.FORMAT_Unknown }

/-- A buffer of exact scalars of width 1 and height 4 with pixels `1 2 3 4`. -/
def exampleColumn : BaseImage ℚ :=
  { m_data := some [1, 2, 3, 4], m_height := 4, m_width := 1, m_InvalidValue := -1,
    m_format := Format.FORMAT_Unknown }

/-- A 2x2 buffer of exact scalars with pixels `1 2 / 3 -1` and sentinel `-1`: exactly one
pixel of its single 2x2 block is invalid. -/
def exampleBlock : BaseImage ℚ :=
  { m_data := some [1, 2, 3, -1], m_height := 2, m_width := 2, m_InvalidValue := -1,
    m_format := Format.FORMAT_Unknown }

/-- The average the specification asks of `mipMap` with `ignoreInvalidPixels`: the sentinel
when no pixel of the block differs from it, otherwise the sum of the pixels that differ
from the sentinel divided by their number. -/
def validAverage {F : Type} [Field F] [DecidableEq F] (sentinel : F) (block : List F) : F :=
  if block.filter (fun p => decide (p ≠ sentinel)) = [] then sentinel
  else ((block.filter (fun p => decide (p ≠ sentinel))).sum) /
    (((block.filter (fun p => decide (p ≠ sentinel))).length : Nat) : F)

/-- The pixel at `(x, y)` if that position lies inside the image and the pixel differs from
the sentinel. -/
def validPixel [DecidableEq T] (img : BaseImage T) (x y : Nat) : Option T :=
  if x < img.m_width ∧ y < img.m_height then
    match img.getPixel x y with
    | .ok v => if v ≠ img.m_InvalidValue then some v else none
    | .error _ => none
  else none

/-- The pair `(valid, value)` of `smooth` after a neighbour has been looked at: a neighbour
that is present is counted and added, an absent one changes nothing. -/
def accumulateStep (ops : PixelOps T) (acc : Nat × T) (o : Option T) : Nat × T :=
  o.elim acc (fun v => (uadd acc.1 1, ops.accumulate acc.2 v))

/-- The valid in-bounds 4-neighbours of `(x, y)` as the specification describes them: the
pixels at `(x-1, y)`, `(x+1, y)`, `(x, y+1)` and `(x, y-1)` that lie inside the image and
differ from the sentinel. -/
def validNeighbours [DecidableEq T] (img : BaseImage T) (x y : Nat) : List T :=
  [if 1 ≤ x then validPixel img (x - 1) y else none, validPixel img (x + 1) y,
    validPixel img x (y + 1), if 1 ≤ y then validPixel img x (y - 1) else none].reduceOption

/-- The value one pass of `smooth` stores for the pixel `(x, y)` over an exact pixel type:
nothing for a pixel that equals the sentinel, and for a valid pixel `p` with `n` valid
neighbours of sum `S` the quotient `(n*p + S) / (2*n)`. -/
def smoothValue {F : Type} [Field F] [DecidableEq F] (divZero : F) (img : BaseImage F)
    (x y : Nat) : Option F :=
  match img.getPixel x y with
  | .ok p =>
    if p ≠ img.m_InvalidValue then
      some (pixelDiv divZero
        ((((validNeighbours img x y).length : Nat) : F) * p + (validNeighbours img x y).sum)
        (2 * (((validNeighbours img x y).length : Nat) : F)))
    else none
  | .error _ => none

/-- The effect of `smooth(k)` as the specification describes it: `k` successive
applications of `smooth(1)`, the `i`-th of them working in the memory of iteration `i`. -/
def smoothRepeat [DecidableEq T] [FormatFromTemplate T] (ops : PixelOps T) :
    (Nat → T) → (Nat → Nat → T) → Nat → BaseImage T → Except Error (BaseImage T)
  | _, _, 0, img => .ok img
  | inv, fresh, k + 1, img =>
    match smooth ops inv fresh img 1 with
    | .error e => .error e
    | .ok r => smoothRepeat ops (fun i => inv (i + 1)) (fun i => fresh (i + 1)) k r

/-- A 2x1 buffer of exact scalars with pixels `1 3` and sentinel `-1`. -/
def exampleRow : BaseImage ℚ :=
  { m_data := some [1, 3], m_height := 1, m_width := 2, m_InvalidValue := -1,
    m_format := Format.FORMAT_Unknown }

/-- The first four statements of the loop body of `smooth` for the pixel `(x, y)`: the
counter `valid` and the sum `value` after the positions `(x-1, y+0)`, `(x+1, y+0)`,
`(x+0, y+1)` and `(x+0, y-1)`, computed in `unsigned int`, have been looked at. -/
def smoothNeighbours [DecidableEq T] (ops : PixelOps T) (img : BaseImage T) (x y : Nat) :
    Except Error (Nat × T) := do
  let acc0 : Nat × T := (0, ops.zero)
  let acc1 ← addIfValidCoordinate ops img (usub x 1) (uadd y 0) acc0
  let acc2 ← addIfValidCoordinate ops img (uadd x 1) (uadd y 0) acc1
  let acc3 ← addIfValidCoordinate ops img (uadd x 0) (uadd y 1) acc2
  addIfValidCoordinate ops img (uadd x 0) (usub y 1) acc3

/-- A 1x1 buffer of exact scalars whose only pixel equals the sentinel `-1`. -/
def exampleInvalid : BaseImage ℚ :=
  { m_data := some [-1], m_height := 1, m_width := 1, m_InvalidValue := -1,
    m_format := Format.FORMAT_Unknown }

/-- A 1x1 buffer of exact scalars whose only pixel `7` differs from the sentinel `-1`. -/
def exampleLonely : BaseImage ℚ :=
  { m_data := some [7], m_height := 1, m_width := 1, m_InvalidValue := -1,
    m_format := Format.FORMAT_Unknown }

/-- The pixel arithmetic of `mipMap` and `smooth` at `T = unsigned short`, the pixel type
of `DepthImage16`.  The operands of `+` are promoted to `int`, so
`result(x, y) = a + b + c + d` stores the `int` sum reduced modulo `2^16` and
`result(x, y) /= 4` divides what was stored; `value += p` stores the sum modulo `2^16`.
The quotients by `(float)valid` are exact in `float` for these magnitudes and are truncated
when stored; `divZero` is what the conversion of a quotient by zero leaves. -/
def ushortOps (divZero : USHORT) : PixelOps USHORT where
  zero := 0
  boxAverage a b c d := (((a.val + b.val + c.val + d.val) % 65536 / 4 : Nat) : USHORT)
  accumulate value p := (((value.val + p.val) % 65536 : Nat) : USHORT)
  divideByCount value valid :=
    if valid = 0 then divZero else ((value.val / valid : Nat) : USHORT)
  laplace valid p value :=
    if valid = 0 then divZero
    else (((valid * p.val + value.val) / (2 * valid) : Nat) : USHORT)

/-- A 2x2 `DepthImage16` whose four pixels are all `65535`; the sentinel is `0`. -/
def exampleDepthFull : BaseImage USHORT :=
  { m_data := some [65535, 65535, 65535, 65535], m_height := 2, m_width := 2,
    m_InvalidValue := 0, m_format := Format.FORMAT_DepthImage16 }

/-! ### The converting constructor -/

/-- One iteration of the loop of the converting constructor:
`convertBaseImagePixel<T, U>(m_data[i], other.getDataPointer()[i])`.  The conversion, which
lives in the helper header, is the parameter `convert`; `src` is the pixel array of the
other image. -/
def convertBody {U : Type} (convert : U → T) (src : Option (List U)) (i : Nat)
    (im : BaseImage T) : Except Error (BaseImage T) :=
  match readAt src i with
  | .error e => .error e
  | .ok u =>
    match writeAt im.m_data i (convert u) with
    | .error e => .error e
    | .ok d => .ok { im with m_data := d }

/-- The converting constructor `BaseImage(const BaseImage<U>& other)`:
`create(other.m_width, other.m_height)`, the conversion of the `m_height*m_width` pixels
and the conversion of the sentinel. -/
def convertFrom {U : Type} [FormatFromTemplate T] (convert : U → T) (other : BaseImage U)
    (inv : T) (fresh : Nat → T) : Except Error (BaseImage T) :=
  let img := (mkDefault inv).create other.m_width other.m_height fresh
  match forRange (convertBody convert other.m_data) (umul img.m_height img.m_width) 0 img with
  | .error e => .error e
  | .ok r => .ok { r with m_InvalidValue := convert other.getInvalidValue }

/-- A 2x1 buffer of natural numbers with pixels `300 7` and sentinel `65536`. -/
def exampleWide : BaseImage Nat :=
  { m_data := some [300, 7], m_height := 1, m_width := 2, m_InvalidValue := 65536,
    m_format := Format.FORMAT_Unknown }

/-! ### Colour images from depth images

The depth values are `float`s in the source; here they are the elements of a linear order
`D` and `fltMax` stands for `std::numeric_limits<float>::max()`.  The colour type (`vec3f`
or `vec4f`), its all-`-infinity` sentinel `minusInfinity` and the conversions
`convertDepthToRGB` / `convertDepthToRGBA` of the helper header are parameters. -/

/-- The pixels of a buffer in storage order (none behind the null pointer). -/
def pixelList (img : BaseImage T) : List T :=
  match img.m_data with
  | none => []
  | some l => l

/-- The struct `iteratorEntry` (and `constIteratorEntry`): a position and the pixel
there. -/
structure iteratorEntry (T : Type) where
  x : Nat
  y : Nat
  value : T

/-- The struct `iterator` (and `constIterator`): the `size_t` position and the pointer to
the image. -/
structure iterator where
  x : Nat
  y : Nat
  image : Bool
  deriving DecidableEq, Repr

/-- The member `begin()`: `iterator(this)`, the constructor setting `x = 0`, `y = 0`. -/
def begin (_img : BaseImage T) : iterator := { x := 0, y := 0, image := true }

/-- The member `end()` in the source: `iterator(NULL)`. -/
def iteratorEnd : iterator := { x := 0, y := 0, image := false }

/-- The member `operator++` of the iterator over `img`:
`x++; if (x == image->getWidth()) { x = 0; y++; if (y == image->getHeight()) image = NULL; }`
with `x`, `y` of type `size_t`. -/
def iterator.next (img : BaseImage T) (it : iterator) : Except Error iterator :=
  if !it.image then .error Error.undefined
  else
    if (it.x + 1) % SIZE_RANGE = img.getWidth then
      if (it.y + 1) % SIZE_RANGE = img.getHeight then
        .ok { x := 0, y := (it.y + 1) % SIZE_RANGE, image := false }
      else .ok { x := 0, y := (it.y + 1) % SIZE_RANGE, image := true }
    else .ok { x := (it.x + 1) % SIZE_RANGE, y := it.y, image := true }

/-- The member `operator*` of the iterator over `img`:
`iteratorEntry(x, y, (*image)(x, y))`. -/
def iterator.deref (img : BaseImage T) (it : iterator) : Except Error (iteratorEntry T) :=
  if !it.image then .error Error.undefined
  else
    match img.getPixelSize it.x it.y with
    | .error e => .error e
    | .ok v => .ok { x := it.x, y := it.y, value := v }

/-- The member `operator!=`: `i.image != image`. -/
def iterator.ne (it i : iterator) : Bool := i.image != it.image

/-- The traversal `for (it = begin(); it != end(); ++it) visit(*it)` of at most `fuel`
steps, started at `it`; `visited` collects the entries.  The outcome is `none` when the
steps do not suffice. -/
def traverse (img : BaseImage T) :
    Nat → iterator → List (iteratorEntry T) → Option (Except Error (List (iteratorEntry T)))
  | 0, it, visited => if it.ne iteratorEnd then none else some (.ok visited)
  | fuel + 1, it, visited =>
    if it.ne iteratorEnd then
      match it.deref img with
      | .error e => some (.error e)
      | .ok entry =>
        match it.next img with
        | .error e => some (.error e)
        | .ok it' => traverse img fuel it' (visited ++ [entry])
    else some (.ok visited)

/-- The entries the specification asks of a traversal: the `k`-th is the position
`(k mod w, k div w)` with the `k`-th pixel in storage order. -/
def rowMajorEntries (img : BaseImage T) : List (iteratorEntry T) :=
  (pixelList img).enum.map
    (fun p => { x := p.1 % img.m_width, y := p.1 / img.m_width, value := p.2 })

/-- The iterator over a `w` x `h` image after `k` steps from `begin()`. -/
def iteratorAt (w h k : Nat) : iterator :=
  if k < w * h then { x := k % w, y := k / w, image := true }
  else { x := 0, y := h, image := false }

/-! ### The binary container

A file is the list of its bytes (numbers below 256).  `file.write((char*)&n, 4)` writes the
object representation of the `unsigned int` `n`, which on the little-endian hosts the format
is defined for is `u32Bytes n`.  The object representation of a pixel is a parameter
(`PixelLayout`).  The extension of the file name (`util::getFileExtension(filename)`) is
the parameter `ext`. -/

/-- The object representation of the pixel type `T`: `sizeOf` is `sizeof(T)`, `toBytes` the
bytes of a pixel in memory and `ofBytes` the pixel that `sizeof(T)` bytes of memory hold. -/
structure PixelLayout (T : Type) where
  sizeOf : Nat
  toBytes : T → List Nat
  ofBytes : List Nat → T

/-- What is true of the object representation of every pixel type: a positive size that is
an `unsigned int`, `sizeof(T)` bytes per pixel, and the bytes of a pixel hold that pixel. -/
def PixelLayout.Lawful (L : PixelLayout T) : Prop :=
  0 < L.sizeOf ∧ L.sizeOf < UINT_RANGE ∧ (∀ p, (L.toBytes p).length = L.sizeOf) ∧
    ∀ p, L.ofBytes (L.toBytes p) = p

/-- The four bytes of an `unsigned int` in memory, least significant byte first. -/
def u32Bytes (n : Nat) : List Nat :=
  [n % 256, n / 256 % 256, n / 65536 % 256, n / 16777216 % 256]

/-- The call `file.read((char*)&n, sizeof(unsigned int))`: the value and the rest of the
stream, or nothing when fewer than four bytes are left. -/
def readU32 : List Nat → Option (Nat × List Nat)
  | b0 :: b1 :: b2 :: b3 :: rest => some (b0 + 256 * b1 + 65536 * b2 + 16777216 * b3, rest)
  | _ => none

/-- The pixels behind a pointer (none behind the null pointer). -/
def arrayPixels (p : Option (List T)) : List T :=
  match p with
  | none => []
  | some l => l

/-- The bytes of an array of pixels in memory. -/
def rawBytes (L : PixelLayout T) (l : List T) : List Nat :=
  (l.map L.toBytes).flatten

/-- The pixels that the bytes `bs` hold when read as an array of `count` pixels. -/
def decodePixels (L : PixelLayout T) (count : Nat) (bs : List Nat) : List T :=
  (List.range count).map (fun j => L.ofBytes ((bs.drop (j * L.sizeOf)).take L.sizeOf))

/-- The call `file.write((char*)p, n)`: the first `n` bytes of the array behind `p`.
Writing nothing needs no array; reading past the array is undefined. -/
def writeBlock (L : PixelLayout T) (p : Option (List T)) (n : Nat) :
    Except Error (List Nat) :=
  if n = 0 then .ok []
  else if n ≤ (rawBytes L (arrayPixels p)).length then
    .ok ((rawBytes L (arrayPixels p)).take n)
  else .error Error.undefined

/-- The static member
`saveBinaryMImageArray(filename, const void** data, width, height, numImages)`; `opens`
tells whether the file could be opened, the outcome is the content of the file written. -/
def saveBinaryMImageArray (L : PixelLayout T) (ext : String) (opens : Bool)
    (data : List (Option (List T))) (width height numImages : Nat) :
    Except Error (List Nat) :=
  if ext ≠ "mbindepth" ∧ ext ≠ "mbinRGB" then
    .error (Error.exception ("invalid file extension" ++ ext))
  else if !opens then .error (Error.exception "could not open file")
  else
    let bytesPerPixel := L.sizeOf % UINT_RANGE
    forRange (fun i out =>
        match data[i]? with
        | none => .error Error.undefined
        | some p =>
          match writeBlock L p (umul (umul width height) bytesPerPixel) with
          | .error e => .error e
          | .ok block => .ok (out ++ block))
      numImages 0
      (u32Bytes numImages ++ u32Bytes width ++ u32Bytes height ++ u32Bytes bytesPerPixel)

/-- The static member `saveBinaryMImage(filename, data, width, height)`. -/
def saveBinaryMImage (L : PixelLayout T) (ext : String) (opens : Bool)
    (data : Option (List T)) (width height : Nat) : Except Error (List Nat) :=
  saveBinaryMImageArray L ext opens [data] width height 1

/-- The member `saveAsBinaryMImage(filename)`. -/
def saveAsBinaryMImage (L : PixelLayout T) (ext : String) (opens : Bool)
    (img : BaseImage T) : Except Error (List Nat) :=
  saveBinaryMImage L ext opens img.m_data img.m_width img.m_height

/-- What a static loader leaves behind: what it returned or how it failed, and the values
of its reference parameters `width` and `height` at that moment. -/
structure Loaded (α : Type) where
  outcome : Except Error α
  width : Nat
  height : Nat

/-- The statements `void* currData = new T[width*height];
file.read((char*)currData, width * height * bytesPerPixel); data.push_back(currData);`
on the rest `bytes` of the stream.  A read that does not fill the whole array (the byte
count wrapped around, or the stream is too short) leaves pixels uninitialised, which is
undefined here. -/
def readBlock (L : PixelLayout T) (width height bytesPerPixel : Nat)
    (s : List Nat × List (List T)) : Except Error (List Nat × List (List T)) :=
  if umul (umul width height) bytesPerPixel = umul width height * L.sizeOf ∧
      umul (umul width height) bytesPerPixel ≤ s.1.length then
    .ok (s.1.drop (umul (umul width height) bytesPerPixel),
      s.2 ++ [decodePixels L (umul width height)
        (s.1.take (umul (umul width height) bytesPerPixel))])
  else .error Error.undefined

/-- The static member `loadBinaryMImageArray(filename, data, width, height)`; `file` is the
content of the file, `none` when it cannot be opened, and `width`, `height` are the values
the reference parameters have at the call.  The header fields `width` and `height` are
read straight into the reference parameters, before `assert(sizeof(T) == bytesPerPixel)`.
A stream without a complete header leaves the fields indeterminate (undefined). -/
def loadBinaryMImageArray (L : PixelLayout T) (ext : String) (file : Option (List Nat))
    (width height : Nat) : Loaded (List (List T)) :=
  if ext ≠ "mbindepth" ∧ ext ≠ "mbinRGB" then
    ⟨.error (Error.exception ("invalid file extension" ++ ext)), width, height⟩
  else
    match file with
    | none => ⟨.error (Error.exception "could not open file"), width, height⟩
    | some bytes =>
      match readU32 bytes with
      | none => ⟨.error Error.undefined, width, height⟩
      | some (numImages, rest1) =>
        match readU32 rest1 with
        | none => ⟨.error Error.undefined, width, height⟩
        | some (width1, rest2) =>
          match readU32 rest2 with
          | none => ⟨.error Error.undefined, width1, height⟩
          | some (height1, rest3) =>
            match readU32 rest3 with
            | none => ⟨.error Error.undefined, width1, height1⟩
            | some (bytesPerPixel, rest4) =>
              if L.sizeOf ≠ bytesPerPixel then ⟨.error Error.assertion, width1, height1⟩
              else
                match forRange (fun _ s => readBlock L width1 height1 bytesPerPixel s)
                    numImages 0 (rest4, []) with
                | .error e => ⟨.error e, width1, height1⟩
                | .ok s => ⟨.ok s.2, width1, height1⟩

/-- What `loadBinaryMImage` leaves behind: how it ended, the pointer `*data` and the
reference parameters `width` and `height`. -/
structure LoadedPointer (T : Type) where
  outcome : Except Error Unit
  data : Option (List T)
  width : Nat
  height : Nat

/-- The static member `loadBinaryMImage(filename, void** data, width, height)`; the
argument `data` is the value of `*data` at the call.  After the array loader and
`MLIB_ASSERT(dataArray.size() == 1)` the source runs `SAFE_DELETE_ARRAY(data)` on the
pointer to the pointer itself, not on `*data`: it releases an address that is not an
array from `new[]` and then stores through the pointer it has just set to null, which is
undefined. -/
def loadBinaryMImage (L : PixelLayout T) (ext : String) (file : Option (List Nat))
    (data : Option (List T)) (width height : Nat) : LoadedPointer T :=
  match (loadBinaryMImageArray L ext file width height : Loaded (List (List T))) with
  | ⟨.error e, width1, height1⟩ => ⟨.error e, data, width1, height1⟩
  | ⟨.ok dataArray, width1, height1⟩ =>
    match MLIB_ASSERT (decide (dataArray.length = 1)) with
    | .error e => ⟨.error e, data, width1, height1⟩
    | .ok _ => ⟨.error Error.undefined, data, width1, height1⟩

/-- The member `loadFromBinaryMImage(filename)`:
`loadBinaryMImage(filename, (void**)&m_data, m_width, m_height)`.  The outcome is how the
call ended together with the object as the call left it. -/
def loadFromBinaryMImage (L : PixelLayout T) (ext : String) (file : Option (List Nat))
    (img : BaseImage T) : Except Error Unit × BaseImage T :=
  match loadBinaryMImage L ext file img.m_data img.m_width img.m_height with
  | ⟨outcome, data, width, height⟩ =>
    (outcome, { img with m_data := data, m_width := width, m_height := height })

/-- The object representation of `unsigned short` on a little-endian host. -/
def ushortLayout : PixelLayout USHORT where
  sizeOf := 2
  toBytes p := [p.val % 256, p.val / 256]
  ofBytes bs :=
    match bs with
    | [b0, b1] => ((b0 + 256 * b1 : Nat) : USHORT)
    | _ => 0

/-- The 2x3 buffer of 16-bit values `1 2 / 3 4 / 5 6` with sentinel `0`. -/
def exampleSix : BaseImage USHORT :=
  { m_data := some [1, 2, 3, 4, 5, 6], m_height := 3, m_width := 2, m_InvalidValue := 0,
    m_format := Format.FORMAT_DepthImage16 }

/-- A stream whose header announces one 5x7 image of 4 bytes per pixel, followed by its
140 bytes. -/
def exampleMismatchStream : List Nat :=
  u32Bytes 1 ++ (u32Bytes 5 ++ (u32Bytes 7 ++ (u32Bytes 4 ++ List.replicate 140 0)))

/-- The object representation of `unsigned int` pixels (numbers below `2^32`) on a
little-endian host. -/
def uintLayout : PixelLayout Nat where
  sizeOf := 4
  toBytes := u32Bytes
  ofBytes bs :=
    match readU32 bs with
    | some (n, _) => n
    | none => 0

/-- The copy constructor `iterator(const iterator &i)`, and the constructor
`constIterator(const iterator &i)`, which reads the same:
`x = i.x; y = i.x; image = i.image;`. -/
def iterator.copy (i : iterator) : iterator := { x := i.x, y := i.x, image := i.image }

/-- The member `operator=(const iterator &i)` of both iterators:
`x = i.x; y = i.y; image = i.image;`; the outcome is the iterator assigned to. -/
def iterator.assign (_it i : iterator) : iterator := { x := i.x, y := i.y, image := i.image }

/-- The sample coordinate `(float)j / (newDim - 1)` of `reSample`, the divisor being the
`unsigned int` difference `newDim - 1`: there is no quotient when the divisor is zero. -/
def sampleCoordinate (j newDim : Nat) : Option ℚ :=
  if usub newDim 1 = 0 then none else some ((j : ℚ) / ((usub newDim 1 : Nat) : ℚ))

/-- The index that `reSample` reads for the new coordinate `j`, the division by zero made
explicit: `nanIndex` is the `unsigned int` that the conversion
`(unsigned int)round(x*(dim - 1))` leaves when `x` comes from a division by zero (the
conversion of a NaN is undefined). -/
def normIndexChecked (nanIndex j newDim dim : Nat) : Nat :=
  (sampleCoordinate j newDim).elim nanIndex (fun u => normToIndex u dim)

/-! ### The PPM text of a `DepthImage`

The `float` pixels of a `DepthImage` are exact rationals here.  The text of the file is
kept as the loader takes it apart: the first two lines, the numbers on the third line, the
fourth line and the numbers that follow, in their order in the file. -/

/-- The text of a PPM file. -/
structure PPMText where
  format : String
  comment : String
  size : List Nat
  maxValue : String
  body : List Nat

/-- The static member `convertValueToExternalPPMFormat(x)`: `0` below zero, `255` above
one (the warnings are only printed) and otherwise
`(unsigned char)(x*255.0 + 0.49999)`, the truncation of a value between `0.49999` and
`255.49999`. -/
def convertValueToExternalPPMFormat (x : ℚ) : Nat :=
  if x < 0 then 0
  else if x > 1 then 255
  else (Int.floor (x * 255 + 49999 / 100000)).toNat % 256

/-- The static member `convertValueFromExternalPPMFormat(x)`: `(float)x / 255.0f`. -/
def convertValueFromExternalPPMFormat (x : Nat) : ℚ := (x : ℚ) / 255

/-- The body of the inner loop of `saveAsPPM`: the three numbers of the pixel `(x, y)`
are appended to the text. -/
def savePPMPixel (img : BaseImage ℚ) (y x : Nat) (out : List Nat) :
    Except Error (List Nat) :=
  match img.getPixel x y with
  | .error e => .error e
  | .ok res =>
    .ok (out ++ [convertValueToExternalPPMFormat res, convertValueToExternalPPMFormat res,
      convertValueToExternalPPMFormat res])

/-- The member `saveAsPPM(filename)` of `DepthImage`; `opens` tells whether the file could
be opened (the program exits otherwise), the outcome is the text written.  The third line
is `m_height << " " << m_width`. -/
def saveAsPPM (img : BaseImage ℚ) (filename : String) (opens : Bool) :
    Except Error PPMText :=
  if !opens then .error (Error.exception "Can not open file")
  else
    match forRange (fun y out => forRange (savePPMPixel img y) img.m_width 0 out)
        img.m_height 0 [] with
    | .error e => .error e
    | .ok body =>
      .ok { format := "P3", comment := "#" ++ filename, size := [img.m_height, img.m_width],
            maxValue := "255", body := body }

/-- The body of the inner loop of `loadFromPPM` on the image and the numbers not yet read:
three numbers `c` are read, each converted through `(unsigned char)c`; then
`MLIB_ASSERT(c <= 255)` on the last of them, `MLIB_ASSERT(color.x == color.y &&
color.y == color.z)` and the assignment `(*this)(x, y) = color.x`.  A text that ends early
leaves the numbers indeterminate (undefined). -/
def loadPPMPixel (y x : Nat) (s : BaseImage ℚ × List Nat) :
    Except Error (BaseImage ℚ × List Nat) :=
  match s.2 with
  | c1 :: c2 :: c3 :: rest =>
    match MLIB_ASSERT (decide (c3 ≤ 255)) with
    | .error e => .error e
    | .ok _ =>
      match MLIB_ASSERT (decide
          (convertValueFromExternalPPMFormat (c1 % 256) =
              convertValueFromExternalPPMFormat (c2 % 256) ∧
            convertValueFromExternalPPMFormat (c2 % 256) =
              convertValueFromExternalPPMFormat (c3 % 256))) with
      | .error e => .error e
      | .ok _ =>
        match s.1.setPixel x y (convertValueFromExternalPPMFormat (c1 % 256)) with
        | .error e => .error e
        | .ok im => .ok (im, rest)
  | _ => .error Error.undefined

/-- The member `loadFromPPM(filename)` of `DepthImage`; `file` is the text of the file,
`none` when it cannot be opened.  The first number of the third line goes to `width`, the
second to `height` (`wh >> width; wh >> height;`), then `allocate(width, height)`. -/
def loadFromPPM (img : BaseImage ℚ) (file : Option PPMText) (fresh : Nat → ℚ) :
    Except Error (BaseImage ℚ) :=
  match file with
  | none => .error (Error.exception "Could not open file!")
  | some text =>
    match text.size with
    | width :: height :: _ =>
      if width < UINT_RANGE ∧ height < UINT_RANGE then
        match forRange (fun y s => forRange (loadPPMPixel y)
            (img.allocate width height fresh).m_width 0 s)
            (img.allocate width height fresh).m_height 0
            (img.allocate width height fresh, text.body) with
        | .error e => .error e
        | .ok s => .ok s.1
      else .error Error.undefined
    | _ => .error Error.undefined

/-- A 2x1 depth image with the pixels `0 1`; `-1` stands for its sentinel. -/
def exampleDepthRow : BaseImage ℚ :=
  { m_data := some [0, 1], m_height := 1, m_width := 2, m_InvalidValue := -1,
    m_format := Format.FORMAT_DepthImage }

/-- The text `saveAsPPM` writes for the 2x1 depth image `0 1`: the third line is `1 2`. -/
def exampleDepthRowText : PPMText :=
  { format := "P3", comment := "#depth.ppm", size := [1, 2], maxValue := "255",
    body := [0, 0, 0, 255, 255, 255] }

/-! ## Theorems -/

theorem offset_lt {w h x y : Nat} (hx : x < w) (hy : y < h) : y * w + x < w * h := by
  have h1 : (y + 1) * w ≤ h * w := Nat.mul_le_mul_right w hy
  have h2 : (y + 1) * w = y * w + w := by ring
  have h3 : h * w = w * h := Nat.mul_comm h w
  omega

theorem pixelOffset_eq (img : BaseImage T) (x y : Nat) :
    img.pixelOffset x y =
      if x < img.m_width ∧ y < img.m_height then .ok ((y * img.m_width + x) % UINT_RANGE)
      else .error Error.assertion := by
  unfold pixelOffset MLIB_ASSERT
  by_cases hb : x < img.m_width ∧ y < img.m_height <;> simp [hb]

theorem pixelOffsetSize_eq (img : BaseImage T) (x y : Nat) :
    img.pixelOffsetSize x y =
      if x < img.m_width ∧ y < img.m_height then .ok ((y * img.m_width + x) % SIZE_RANGE)
      else .error Error.assertion := by
  unfold pixelOffsetSize MLIB_ASSERT
  by_cases hb : x < img.m_width ∧ y < img.m_height <;> simp [hb]

theorem readAt_ne_assertion (p : Option (List T)) (i : Nat) :
    readAt p i ≠ .error Error.assertion := by
  unfold readAt
  cases p with
  | none => simp
  | some l =>
    show (match l[i]? with
      | some v => Except.ok v
      | none => Except.error Error.undefined) ≠ _
    split <;> simp

theorem writeAt_ne_assertion (p : Option (List T)) (i : Nat) (v : T) :
    writeAt p i v ≠ .error Error.assertion := by
  unfold writeAt
  cases p with
  | none => simp
  | some l => by_cases hl : i < l.length <;> simp [hl]

theorem getPixel_assertion_iff (img : BaseImage T) (x y : Nat) :
    img.getPixel x y = .error Error.assertion ↔ (img.m_width ≤ x ∨ img.m_height ≤ y) := by
  unfold getPixel
  rw [pixelOffset_eq]
  by_cases hb : x < img.m_width ∧ y < img.m_height
  · simp only [hb, and_self, if_true]
    constructor
    · intro h; exact absurd h (readAt_ne_assertion _ _)
    · intro h; omega
  · simp only [hb, if_false, true_iff]
    omega

theorem setPixel_assertion_iff (img : BaseImage T) (x y : Nat) (v : T) :
    img.setPixel x y v = .error Error.assertion ↔ (img.m_width ≤ x ∨ img.m_height ≤ y) := by
  unfold setPixel
  rw [pixelOffset_eq]
  by_cases hb : x < img.m_width ∧ y < img.m_height
  · simp only [hb, and_self, if_true]
    constructor
    · intro h
      have := writeAt_ne_assertion img.m_data ((y * img.m_width + x) % UINT_RANGE) v
      cases hw : writeAt img.m_data ((y * img.m_width + x) % UINT_RANGE) v with
      | error e => rw [hw] at h this; simp at h; exact absurd (by rw [h]) this
      | ok d => rw [hw] at h; simp at h
    · intro h; omega
  · simp only [hb, if_false, true_iff]
    omega

theorem WellFormed.data_eq {img : BaseImage T} (hwf : img.WellFormed) {x y : Nat}
    (hx : x < img.m_width) (hy : y < img.m_height) :
    ∃ l, img.m_data = some l ∧ l.length = img.m_width * img.m_height ∧
      y * img.m_width + x < l.length ∧ y * img.m_width + x < UINT_RANGE := by
  obtain ⟨_, _, hlt, hlen⟩ := hwf
  have hoff := offset_lt hx hy
  unfold storageLen at hlt hlen
  cases hd : img.m_data with
  | none => rw [hd] at hlen; simp at hlen; omega
  | some l =>
    rw [hd] at hlen hlt
    simp at hlen hlt
    exact ⟨l, rfl, hlen, by omega, by omega⟩

theorem getPixel_eq_of_data {img : BaseImage T} {l : List T} {x y : Nat}
    (hd : img.m_data = some l) (hx : x < img.m_width) (hy : y < img.m_height)
    (hlen : y * img.m_width + x < l.length) (hu : y * img.m_width + x < UINT_RANGE) :
    img.getPixel x y = .ok (l.get ⟨y * img.m_width + x, hlen⟩) := by
  unfold getPixel
  rw [pixelOffset_eq, if_pos ⟨hx, hy⟩, Nat.mod_eq_of_lt hu]
  simp [readAt, hd, List.getElem?_eq_getElem hlen]

theorem setPixel_eq_of_data {img : BaseImage T} {l : List T} {x y : Nat} (v : T)
    (hd : img.m_data = some l) (hx : x < img.m_width) (hy : y < img.m_height)
    (hlen : y * img.m_width + x < l.length) (hu : y * img.m_width + x < UINT_RANGE) :
    img.setPixel x y v =
      .ok { img with m_data := some (l.set (y * img.m_width + x) v) } := by
  unfold setPixel
  rw [pixelOffset_eq, if_pos ⟨hx, hy⟩, Nat.mod_eq_of_lt hu]
  simp [writeAt, hd, hlen]

theorem getPixelSize_eq_of_data {img : BaseImage T} {l : List T} {x y : Nat}
    (hd : img.m_data = some l) (hx : x < img.m_width) (hy : y < img.m_height)
    (hlen : y * img.m_width + x < l.length) (hu : y * img.m_width + x < UINT_RANGE) :
    img.getPixelSize x y = .ok (l.get ⟨y * img.m_width + x, hlen⟩) := by
  have hs : y * img.m_width + x < SIZE_RANGE := by
    unfold UINT_RANGE at hu; unfold SIZE_RANGE; omega
  unfold getPixelSize
  rw [pixelOffsetSize_eq, if_pos ⟨hx, hy⟩, Nat.mod_eq_of_lt hs]
  simp [readAt, hd, List.getElem?_eq_getElem hlen]

theorem setPixelSize_eq_of_data {img : BaseImage T} {l : List T} {x y : Nat} (v : T)
    (hd : img.m_data = some l) (hx : x < img.m_width) (hy : y < img.m_height)
    (hlen : y * img.m_width + x < l.length) (hu : y * img.m_width + x < UINT_RANGE) :
    img.setPixelSize x y v =
      .ok { img with m_data := some (l.set (y * img.m_width + x) v) } := by
  have hs : y * img.m_width + x < SIZE_RANGE := by
    unfold UINT_RANGE at hu; unfold SIZE_RANGE; omega
  unfold setPixelSize
  rw [pixelOffsetSize_eq, if_pos ⟨hx, hy⟩, Nat.mod_eq_of_lt hs]
  simp [writeAt, hd, hlen]

theorem getPixelSize_assertion_iff (img : BaseImage T) (x y : Nat) :
    img.getPixelSize x y = .error Error.assertion ↔
      (img.m_width ≤ x ∨ img.m_height ≤ y) := by
  unfold getPixelSize
  rw [pixelOffsetSize_eq]
  by_cases hb : x < img.m_width ∧ y < img.m_height
  · simp only [hb, and_self, if_true]
    constructor
    · intro h; exact absurd h (readAt_ne_assertion _ _)
    · intro h; omega
  · simp only [hb, if_false, true_iff]
    omega

theorem setPixelSize_assertion_iff (img : BaseImage T) (x y : Nat) (v : T) :
    img.setPixelSize x y v = .error Error.assertion ↔
      (img.m_width ≤ x ∨ img.m_height ≤ y) := by
  unfold setPixelSize
  rw [pixelOffsetSize_eq]
  by_cases hb : x < img.m_width ∧ y < img.m_height
  · simp only [hb, and_self, if_true]
    constructor
    · intro h
      have := writeAt_ne_assertion img.m_data ((y * img.m_width + x) % SIZE_RANGE) v
      cases hw : writeAt img.m_data ((y * img.m_width + x) % SIZE_RANGE) v with
      | error e => rw [hw] at h this; simp at h; exact absurd (by rw [h]) this
      | ok d => rw [hw] at h; simp at h
    · intro h; omega
  · simp only [hb, if_false, true_iff]
    omega

/-- C1: on a buffer that holds its `width * height` pixels, the pixel access at unsigned
coordinates `(x, y)` (the `unsigned int` and the `size_t` overloads of `operator()`, reached
through `getPixel` and `setPixel`) fails with the bounds assertion exactly when `x >= width`
or `y >= height`, and otherwise reads, respectively overwrites, exactly the element at offset
`y * width + x` of the pixel array, leaving every other member as it was. -/
theorem pixel_access_checked_row_major (img : BaseImage T) (hwf : img.WellFormed)
    (x y : Nat) (v : T) :
    (img.getPixel x y = .error Error.assertion ↔ (img.m_width ≤ x ∨ img.m_height ≤ y)) ∧
    (img.setPixel x y v = .error Error.assertion ↔ (img.m_width ≤ x ∨ img.m_height ≤ y)) ∧
    (img.getPixelSize x y = .error Error.assertion ↔
      (img.m_width ≤ x ∨ img.m_height ≤ y)) ∧
    (img.setPixelSize x y v = .error Error.assertion ↔
      (img.m_width ≤ x ∨ img.m_height ≤ y)) ∧
    (x < img.m_width → y < img.m_height →
      ∃ (l : List T) (hlen : y * img.m_width + x < l.length),
        img.m_data = some l ∧ l.length = img.m_width * img.m_height ∧
        img.getPixel x y = .ok (l.get ⟨y * img.m_width + x, hlen⟩) ∧
        img.getPixelSize x y = .ok (l.get ⟨y * img.m_width + x, hlen⟩) ∧
        img.setPixel x y v =
          .ok { img with m_data := some (l.set (y * img.m_width + x) v) } ∧
        img.setPixelSize x y v =
          .ok { img with m_data := some (l.set (y * img.m_width + x) v) }) := by
  refine ⟨getPixel_assertion_iff img x y, setPixel_assertion_iff img x y v,
    getPixelSize_assertion_iff img x y, setPixelSize_assertion_iff img x y v, ?_⟩
  intro hx hy
  obtain ⟨l, hd, hl, hlen, hu⟩ := hwf.data_eq hx hy
  exact ⟨l, hlen, hd, hl, getPixel_eq_of_data hd hx hy hlen hu,
    getPixelSize_eq_of_data hd hx hy hlen hu, setPixel_eq_of_data v hd hx hy hlen hu,
    setPixelSize_eq_of_data v hd hx hy hlen hu⟩

/-- Witness of C1 on the 2x2 example buffer: `(1, 1)` is in bounds and reads offset 3. -/
theorem pixel_access_checked_row_major_witness :
    exampleImage.WellFormed ∧ exampleImage.getPixel 1 1 = .ok 40 ∧
      (exampleImage.getPixel 2 0 = .error Error.assertion ↔
        (exampleImage.m_width ≤ 2 ∨ exampleImage.m_height ≤ 0)) :=
  ⟨by decide,
   by
    obtain ⟨l, hlen, hd, _, hg, _⟩ :=
      (pixel_access_checked_row_major exampleImage (by decide) 1 1 0).2.2.2.2
        (by decide) (by decide)
    have hl : l = [10, 20, 30, 40] := by
      have : exampleImage.m_data = some [10, 20, 30, 40] := rfl
      rw [this] at hd; exact (Option.some.inj hd).symm
    subst hl
    exact hg,
   (pixel_access_checked_row_major exampleImage (by decide) 2 0 0).1⟩

/-- C3: whatever the buffer held before, `allocate(0, h)` and `allocate(w, 0)` leave it
empty: width 0, height 0 and the null pointer as pixel storage. -/
theorem allocate_zero_dimension_empty (img : BaseImage T) (w h : Nat) (fresh : Nat → T) :
    ((img.allocate 0 h fresh).m_width = 0 ∧ (img.allocate 0 h fresh).m_height = 0 ∧
      (img.allocate 0 h fresh).m_data = none) ∧
    ((img.allocate w 0 fresh).m_width = 0 ∧ (img.allocate w 0 fresh).m_height = 0 ∧
      (img.allocate w 0 fresh).m_data = none) := by
  simp [allocate, free, SAFE_DELETE_ARRAY]

/-- Counterexample to C5 as stated: move-assigning the 1x1 example buffer onto the non-empty
2x2 example buffer leaves the source holding the 2x2 pixels, not empty. -/
theorem move_assign_source_not_emptied :
    ¬ IsEmpty (exampleImage.moveAssign exampleSmall).2 ∧
      (exampleImage.moveAssign exampleSmall).2 = exampleImage := by
  constructor
  · decide
  · rfl

/-- C5 (amended): move construction gives the new buffer the former width, height, pixels,
sentinel (and format) of the source and leaves the source empty; move assignment gives the
destination the former members of the source and leaves the source with the former members
of the destination, so the source ends up empty exactly when the destination was empty. -/
theorem move_transfers_by_swap [FormatFromTemplate T] (dst src : BaseImage T) (inv : T) :
    ((moveConstruct src inv).1 = src ∧ IsEmpty (moveConstruct src inv).2) ∧
    ((dst.moveAssign src).1 = src ∧ (dst.moveAssign src).2 = dst ∧
      (IsEmpty (dst.moveAssign src).2 ↔ IsEmpty dst)) := by
  refine ⟨⟨rfl, rfl, rfl, rfl⟩, rfl, rfl, ?_⟩
  rfl

end BaseImage

/-! ### Loops -/

theorem forRange_invariant {σ : Type} (P : σ → Prop) (body : Nat → σ → Except Error σ)
    (hbody : ∀ i s s', P s → body i s = .ok s' → P s') :
    ∀ (k i : Nat) (s s' : σ), P s → forRange body k i s = .ok s' → P s' := by
  intro k
  induction k with
  | zero =>
    intro i s s' hs h
    simp [forRange] at h
    exact h ▸ hs
  | succ k ih =>
    intro i s s' hs h
    unfold forRange at h
    cases hb : body i s with
    | error e => rw [hb] at h; simp at h
    | ok s1 =>
      rw [hb] at h
      exact ih (i + 1) s1 s' (hbody i s s1 hs hb) h

namespace BaseImage

variable {T : Type}

/-! ### The shape of a buffer under the operations -/

theorem sameShape_refl (a : BaseImage T) : SameShape a a :=
  ⟨rfl, rfl, rfl, Iff.rfl⟩

theorem sameShape_trans {a b c : BaseImage T} (h1 : SameShape a b) (h2 : SameShape b c) :
    SameShape a c :=
  ⟨h1.1.trans h2.1, h1.2.1.trans h2.2.1, h1.2.2.1.trans h2.2.2.1, h1.2.2.2.trans h2.2.2.2⟩

theorem Inv.of_sameShape {a b : BaseImage T} (h : SameShape a b) (ha : Inv a) : Inv b := by
  obtain ⟨hw, hh, hl, hn⟩ := h
  obtain ⟨h1, h2, h3, h4⟩ := ha
  refine ⟨hw ▸ h1, hh ▸ h2, ?_, ?_⟩
  · unfold size at h3 ⊢
    rw [← hl, ← hw, ← hh]; exact h3
  · intro hb
    have := h4 (hn.mpr hb)
    rw [← hw, ← hh]; exact this

theorem writeAt_shape {p q : Option (List T)} {i : Nat} {v : T}
    (h : writeAt p i v = .ok q) :
    ∃ l, p = some l ∧ i < l.length ∧ q = some (l.set i v) := by
  unfold writeAt at h
  cases p with
  | none => simp at h
  | some l =>
    by_cases hl : i < l.length
    · simp [hl] at h
      exact ⟨l, rfl, hl, h.symm⟩
    · simp [hl] at h

theorem sameShape_of_writeAt {img : BaseImage T} {q : Option (List T)} {i : Nat} {v : T}
    (h : writeAt img.m_data i v = .ok q) : SameShape img { img with m_data := q } := by
  obtain ⟨l, hp, _, hq⟩ := writeAt_shape h
  refine ⟨rfl, rfl, ?_, ?_⟩
  · simp [storageLen, hp, hq]
  · simp [hp, hq]

theorem setPixel_sameShape {img r : BaseImage T} {x y : Nat} {v : T}
    (h : img.setPixel x y v = .ok r) : SameShape img r := by
  unfold setPixel at h
  cases ho : img.pixelOffset x y with
  | error e => rw [ho] at h; simp at h
  | ok i =>
    rw [ho] at h
    dsimp only at h
    cases hw : writeAt img.m_data i v with
    | error e => rw [hw] at h; simp at h
    | ok d =>
      rw [hw] at h
      dsimp only at h
      simp at h
      subst h
      exact sameShape_of_writeAt hw

theorem setPixelSize_sameShape {img r : BaseImage T} {x y : Nat} {v : T}
    (h : img.setPixelSize x y v = .ok r) : SameShape img r := by
  unfold setPixelSize at h
  cases ho : img.pixelOffsetSize x y with
  | error e => rw [ho] at h; simp at h
  | ok i =>
    rw [ho] at h
    dsimp only at h
    cases hw : writeAt img.m_data i v with
    | error e => rw [hw] at h; simp at h
    | ok d =>
      rw [hw] at h
      dsimp only at h
      simp at h
      subst h
      exact sameShape_of_writeAt hw

theorem assignPixel_sameShape {img r : BaseImage T} {x y : Nat} {v : Except Error T}
    (h : img.assignPixel x y v = .ok r) : SameShape img r := by
  unfold assignPixel at h
  cases v with
  | error e => simp at h
  | ok w => exact setPixel_sameShape h

theorem zipBody_sameShape {f : T → T → T} {a b : Option (List T)} {i : Nat}
    {im r : BaseImage T} (h : zipBody f a b i im = .ok r) : SameShape im r := by
  unfold zipBody at h
  cases ha : readAt a i with
  | error e => rw [ha] at h; simp at h
  | ok x =>
    rw [ha] at h
    dsimp only at h
    cases hb : readAt b i with
    | error e => rw [hb] at h; simp at h
    | ok y =>
      rw [hb] at h
      dsimp only at h
      cases hw : writeAt im.m_data i (f x y) with
      | error e => rw [hw] at h; simp at h
      | ok d =>
        rw [hw] at h
        dsimp only at h
        simp at h
        subst h
        exact sameShape_of_writeAt hw

theorem copyPixel_sameShape {source img r : BaseImage T} {startX startY y x : Nat}
    (h : copyPixel source startX startY y x img = .ok r) : SameShape img r := by
  unfold copyPixel at h
  cases hg : source.getPixel (usub x startX) (usub y startY) with
  | error e => rw [hg] at h; simp at h
  | ok v => rw [hg] at h; exact setPixel_sameShape h

/-- A loop whose body keeps the shape keeps the shape. -/
theorem forRange_sameShape (body : Nat → BaseImage T → Except Error (BaseImage T))
    (hbody : ∀ i s s', body i s = .ok s' → SameShape s s') (k i : Nat)
    (s s' : BaseImage T) (h : forRange body k i s = .ok s') : SameShape s s' :=
  forRange_invariant (fun t => SameShape s t) body
    (fun j t t' ht hb => sameShape_trans ht (hbody j t t' hb)) k i s s' (sameShape_refl s) h

/-- Two nested loops whose inner body keeps the shape keep the shape. -/
theorem forRange2_sameShape (body : Nat → Nat → BaseImage T → Except Error (BaseImage T))
    (hbody : ∀ i j s s', body i j s = .ok s' → SameShape s s')
    (kin : Nat → BaseImage T → Nat) (lo : Nat → Nat) (k i : Nat) (s s' : BaseImage T)
    (h : forRange (fun y r => forRange (body y) (kin y r) (lo y) r) k i s = .ok s') :
    SameShape s s' :=
  forRange_sameShape _
    (fun y r r' hr => forRange_sameShape (body y) (hbody y) (kin y r) (lo y) r r' hr)
    k i s s' h

/-! ### The invariant under the operations -/

theorem memcpy_shape {dst src m : Option (List T)} {n : Nat}
    (h : memcpy dst src n = .ok m) (a b : BaseImage T) (ha : a.m_data = dst)
    (hb : b.m_data = m) : a.storageLen = b.storageLen ∧ (a.m_data = none ↔ b.m_data = none) := by
  unfold memcpy at h
  by_cases hn : n = 0
  · simp [hn] at h
    subst h
    simp [storageLen, ha, hb]
  · simp only [hn, if_false] at h
    cases dst with
    | none => simp at h
    | some d =>
      cases src with
      | none => simp at h
      | some s0 =>
        by_cases hc : n ≤ d.length ∧ n ≤ s0.length
        · simp only [hc, and_self, if_true] at h
          have hm : m = some (List.take n s0 ++ List.drop n d) := by
            injection h with h; exact h.symm
          subst hm
          simp [storageLen, ha, hb, List.length_take]
          omega
        · simp [hc] at h

theorem inv_of_memcpy {a : BaseImage T} {src m : Option (List T)} {n : Nat} (ha : Inv a)
    (hm : memcpy a.m_data src n = .ok m) (b : BaseImage T) (hw : a.m_width = b.m_width)
    (hh : a.m_height = b.m_height) (hd : b.m_data = m) : Inv b :=
  have hs := memcpy_shape hm a b rfl hd
  Inv.of_sameShape (a := a) ⟨hw, hh, hs.1, hs.2⟩ ha

theorem inv_create (img : BaseImage T) {width height : Nat} (fresh : Nat → T)
    (hw : width < UINT_RANGE) (hh : height < UINT_RANGE) :
    Inv (img.create width height fresh) := by
  refine ⟨hw, hh, ?_, ?_⟩
  · simp [storageLen, create, newArray, size, Nat.mul_comm]
  · simp [create, newArray]

theorem inv_mkDefault [FormatFromTemplate T] (inv : T) : Inv (mkDefault inv) := by
  refine ⟨?_, ?_, ?_, ?_⟩ <;> simp [mkDefault, UINT_RANGE, storageLen, size]

theorem inv_free (img : BaseImage T) : Inv img.free := by
  refine ⟨?_, ?_, ?_, ?_⟩ <;>
    simp [free, SAFE_DELETE_ARRAY, UINT_RANGE, storageLen, size]

theorem inv_sized [FormatFromTemplate T] (width height : Nat) (inv : T) (fresh : Nat → T) :
    Inv (sized width height inv fresh) :=
  inv_create _ fresh (Nat.mod_lt _ (by decide)) (Nat.mod_lt _ (by decide))

theorem inv_setInvalidValue {img : BaseImage T} (h : Inv img) (v : T) :
    Inv (img.setInvalidValue v) :=
  Inv.of_sameShape (a := img) ⟨rfl, rfl, rfl, Iff.rfl⟩ h

theorem inv_allocate {img : BaseImage T} (h : Inv img) {width height : Nat}
    (fresh : Nat → T) (hw : width < UINT_RANGE) (hh : height < UINT_RANGE) :
    Inv (img.allocate width height fresh) := by
  unfold allocate
  split
  · exact inv_free img
  · split
    · exact inv_create _ fresh hw hh
    · exact h

theorem inv_allocateSameSize {img other : BaseImage T} (h : Inv img) (ho : Inv other)
    (fresh : Nat → T) : Inv (img.allocateSameSize other fresh) := by
  unfold allocateSameSize
  split
  · exact inv_create _ fresh ho.1 ho.2.1
  · exact h

theorem inv_sizedFrom [FormatFromTemplate T] {width height : Nat} {data : Option (List T)}
    {inv : T} {fresh : Nat → T} {r : BaseImage T}
    (h : sizedFrom width height data inv fresh = .ok r) : Inv r := by
  unfold sizedFrom at h
  cases data with
  | none =>
    simp at h
    exact h ▸ inv_sized width height inv fresh
  | some d =>
    dsimp only at h
    split at h
    · simp at h
    · rename_i m hm
      simp at h
      subst h
      exact inv_of_memcpy (inv_sized width height inv fresh) hm _ rfl rfl rfl

theorem inv_ofDimensions (x y : Int) (inv : T) (fresh : Nat → T) :
    Inv (ofDimensions x y inv fresh) := by
  have hpos : (0 : Int) < (UINT_RANGE : Int) := by unfold UINT_RANGE; norm_num
  have hb : ∀ z : Int, (z % (UINT_RANGE : Int)).toNat < UINT_RANGE := by
    intro z
    have h1 := Int.emod_lt_of_pos z hpos
    have h2 := Int.emod_nonneg z (ne_of_gt hpos)
    omega
  exact inv_create _ fresh (hb x) (hb y)

theorem inv_initData {img r : BaseImage T} {data : Option (List T)} (hi : Inv img)
    (h : img.initData data = .ok r) : Inv r := by
  unfold initData at h
  cases data with
  | none => simp at h; exact h ▸ hi
  | some d =>
    dsimp only at h
    split at h
    · simp at h
    · rename_i m hm
      simp at h
      subst h
      exact inv_of_memcpy hi hm _ rfl rfl rfl

theorem inv_copy {other r : BaseImage T} {fresh : Nat → T} (ho : Inv other)
    (h : copy other fresh = .ok r) : Inv r := by
  unfold copy at h
  dsimp only at h
  split at h
  · simp at h
  · rename_i m hm
    simp at h
    subst h
    exact inv_of_memcpy (inv_create _ fresh ho.1 ho.2.1) hm _ rfl rfl rfl

theorem inv_copyAssign {img other r : BaseImage T} {fresh : Nat → T} (hi : Inv img)
    (ho : Inv other) (h : img.copyAssign other fresh = .ok r) : Inv r := by
  unfold copyAssign at h
  dsimp only at h
  have h1 : Inv (if other.m_width ≠ img.m_width ∨ other.m_height ≠ img.m_height then
      (SAFE_DELETE_ARRAY img).create other.m_width other.m_height fresh else img) := by
    split
    · exact inv_create _ fresh ho.1 ho.2.1
    · exact hi
  generalize (if other.m_width ≠ img.m_width ∨ other.m_height ≠ img.m_height then
      (SAFE_DELETE_ARRAY img).create other.m_width other.m_height fresh else img) = img1
    at h h1
  split at h
  · simp at h
  · rename_i m hm
    simp at h
    subst h
    exact inv_of_memcpy h1 hm _ rfl rfl rfl

theorem inv_streamRead {image r : BaseImage T} {width height : Nat} {invalidValue : T}
    {payload : List T} {fresh : Nat → T} (hi : Inv image) (hw : width < UINT_RANGE)
    (hh : height < UINT_RANGE)
    (h : image.streamRead width height invalidValue payload fresh = .ok r) : Inv r := by
  unfold streamRead at h
  dsimp only at h
  have h1 : Inv ((image.allocate width height fresh).setInvalidValue invalidValue) :=
    inv_setInvalidValue (inv_allocate hi fresh hw hh) invalidValue
  generalize (image.allocate width height fresh).setInvalidValue invalidValue = im at h h1
  split at h
  · simp at h
  · rename_i m hm
    simp at h
    subst h
    exact inv_of_memcpy h1 hm _ rfl rfl rfl

theorem copyIntoImage_sameShape {img source r : BaseImage T} {startX startY : Nat}
    (h : img.copyIntoImage source startX startY = .ok r) : SameShape img r := by
  unfold copyIntoImage at h
  split at h
  · simp at h
  · exact forRange2_sameShape (copyPixel source startX startY)
      (fun _ _ _ _ hb => copyPixel_sameShape hb) _ _ _ _ _ _ h

theorem inv_opAdd [Add T] [FormatFromTemplate T] {img other r : BaseImage T} {inv : T}
    {fresh : Nat → T} (h : img.opAdd other inv fresh = .ok r) : Inv r := by
  unfold opAdd at h
  split at h
  · simp at h
  · exact Inv.of_sameShape
      (forRange_sameShape _ (fun _ _ _ hb => zipBody_sameShape hb) _ _ _ _ h)
      (inv_sized _ _ inv fresh)

theorem inv_opSub [Sub T] [FormatFromTemplate T] {img other r : BaseImage T} {inv : T}
    {fresh : Nat → T} (h : img.opSub other inv fresh = .ok r) : Inv r := by
  unfold opSub at h
  split at h
  · simp at h
  · exact Inv.of_sameShape
      (forRange_sameShape _ (fun _ _ _ hb => zipBody_sameShape hb) _ _ _ _ h)
      (inv_sized _ _ inv fresh)

theorem mipMap_sameShape [DecidableEq T] {ops : PixelOps T} {img result r : BaseImage T}
    {ignoreInvalidPixels : Bool} {fresh : Nat → T}
    (h : img.mipMap ops result ignoreInvalidPixels fresh = .ok r) :
    SameShape ((result.allocate (img.m_width / 2) (img.m_height / 2) fresh).setInvalidValue
      img.m_InvalidValue) r := by
  unfold mipMap at h
  dsimp only at h
  split at h
  · exact forRange2_sameShape (fun y x r1 => r1.assignPixel x y (mipMapBox ops img x y))
      (fun _ _ _ _ hb => assignPixel_sameShape hb) (fun _ r => r.m_width) (fun _ => 0)
      _ _ _ _ h
  · exact forRange2_sameShape
      (fun y x r1 => r1.assignPixel x y (mipMapValid ops img r1.getInvalidValue x y))
      (fun _ _ _ _ hb => assignPixel_sameShape hb) (fun _ r => r.m_width) (fun _ => 0)
      _ _ _ _ h

theorem inv_mipMap [DecidableEq T] {ops : PixelOps T} {img result r : BaseImage T}
    {ignoreInvalidPixels : Bool} {fresh : Nat → T} (hi : Inv img) (hr : Inv result)
    (h : img.mipMap ops result ignoreInvalidPixels fresh = .ok r) : Inv r := by
  have hw : img.m_width / 2 < UINT_RANGE :=
    Nat.lt_of_le_of_lt (Nat.div_le_self _ _) hi.1
  have hh : img.m_height / 2 < UINT_RANGE :=
    Nat.lt_of_le_of_lt (Nat.div_le_self _ _) hi.2.1
  exact Inv.of_sameShape (mipMap_sameShape h)
    (inv_setInvalidValue (inv_allocate hr fresh hw hh) _)

theorem reSample_shape [FormatFromTemplate T] {normIndex : Nat → Nat → Nat → Nat}
    {img r : BaseImage T} {newWidth newHeight : Nat} {inv : T} {fresh : Nat → T}
    (h : img.reSample normIndex newWidth newHeight inv fresh = .ok r) :
    r = img ∨ SameShape (sized newWidth newHeight inv fresh) r := by
  unfold reSample at h
  split at h
  · dsimp only at h
    split at h
    · simp at h
    · rename_i res1 hres
      right
      have hs := forRange2_sameShape
        (fun i j r1 => r1.assignPixel j i
          (img.getPixel (normIndex j newWidth img.m_width)
            (normIndex i newHeight img.m_height)))
        (fun _ _ _ _ hb => assignPixel_sameShape hb) (fun _ _ => newWidth) (fun _ => 0)
        _ _ _ _ hres
      simp at h
      subst h
      have h0 : SameShape (sized newWidth newHeight inv fresh)
          ((sized newWidth newHeight inv fresh).setInvalidValue img.m_InvalidValue) :=
        ⟨rfl, rfl, rfl, Iff.rfl⟩
      exact sameShape_trans h0 hs
  · left
    simp at h
    exact h.symm

theorem inv_reSample [FormatFromTemplate T] {normIndex : Nat → Nat → Nat → Nat}
    {img r : BaseImage T} {newWidth newHeight : Nat} {inv : T} {fresh : Nat → T}
    (hi : Inv img) (h : img.reSample normIndex newWidth newHeight inv fresh = .ok r) :
    Inv r := by
  rcases reSample_shape h with h1 | h1
  · exact h1 ▸ hi
  · exact Inv.of_sameShape h1 (inv_sized _ _ inv fresh)

theorem smoothPixel_sameShape [DecidableEq T] {ops : PixelOps T} {img other r : BaseImage T}
    {y x : Nat} (h : smoothPixel ops img y x other = .ok r) : SameShape other r := by
  unfold smoothPixel at h
  simp only [bind, Except.bind, pure, Except.pure] at h
  repeat' split at h
  all_goals first
    | (simp at h; done)
    | exact assignPixel_sameShape h
    | (simp at h; subst h; exact sameShape_refl _)

theorem inv_smoothStep [DecidableEq T] [FormatFromTemplate T] {ops : PixelOps T} {inv : T}
    {fresh : Nat → T} {img r : BaseImage T} (hi : Inv img)
    (h : smoothStep ops inv fresh img = .ok r) : Inv r := by
  unfold smoothStep at h
  dsimp only at h
  split at h
  · simp at h
  · rename_i other1 ho
    have hs := forRange2_sameShape (fun y x o => smoothPixel ops img y x o)
      (fun _ _ _ _ hb => smoothPixel_sameShape hb) (fun _ _ => img.m_width) (fun _ => 0)
      _ _ _ _ ho
    have h1 : Inv other1 :=
      Inv.of_sameShape hs (inv_setInvalidValue (inv_sized _ _ inv fresh) _)
    exact inv_copyAssign hi h1 h

theorem inv_smooth [DecidableEq T] [FormatFromTemplate T] {ops : PixelOps T} {inv : Nat → T}
    {fresh : Nat → Nat → T} {img r : BaseImage T} {steps : Nat} (hi : Inv img)
    (h : img.smooth ops inv fresh steps = .ok r) : Inv r :=
  forRange_invariant Inv _ (fun _ _ _ hs hb => inv_smoothStep hs hb) steps 0 img r hi h

/-- Every reachable buffer satisfies the invariant. -/
theorem Reachable.inv [DecidableEq T] [Add T] [Sub T] [FormatFromTemplate T]
    {img : BaseImage T} (h : Reachable img) : Inv img := by
  induction h with
  | mkDefault inv => exact inv_mkDefault inv
  | ofDimensions x y inv fresh => exact inv_ofDimensions x y inv fresh
  | sizedFrom width height data inv fresh r h => exact inv_sizedFrom h
  | copy other fresh r _ h ih => exact inv_copy ih h
  | moveConstruct_fst other inv _ ih => exact ih
  | moveConstruct_snd other inv _ ih => exact inv_mkDefault inv
  | free img _ _ => exact inv_free img
  | swap_fst a b _ _ _ ihb => exact ihb
  | swap_snd a b _ _ iha _ => exact iha
  | initData img data r _ h ih => exact inv_initData ih h
  | copyAssign img other fresh r _ _ h ih1 ih2 => exact inv_copyAssign ih1 ih2 h
  | moveAssign_fst img other _ _ _ ih2 => exact ih2
  | moveAssign_snd img other _ _ ih1 _ => exact ih1
  | allocateSameSize img other fresh _ _ ih1 ih2 => exact inv_allocateSameSize ih1 ih2 fresh
  | allocate img width height fresh _ hw hh ih => exact inv_allocate ih fresh hw hh
  | setInvalidValue img v _ ih => exact inv_setInvalidValue ih v
  | setPixel img x y v r _ h ih => exact Inv.of_sameShape (setPixel_sameShape h) ih
  | setPixelSize img x y v r _ h ih => exact Inv.of_sameShape (setPixelSize_sameShape h) ih
  | copyIntoImage img source startX startY r _ _ h ih _ =>
    exact Inv.of_sameShape (copyIntoImage_sameShape h) ih
  | opAdd img other inv fresh r _ _ h _ _ => exact inv_opAdd h
  | opSub img other inv fresh r _ _ h _ _ => exact inv_opSub h
  | mipMap ops img result ig fresh r _ _ h ih1 ih2 => exact inv_mipMap ih1 ih2 h
  | reSample normIndex img newWidth newHeight inv fresh r _ _ _ h ih => exact inv_reSample ih h
  | smooth ops inv fresh img steps r _ h ih => exact inv_smooth ih h
  | streamRead image width height invalidValue payload fresh r _ hw hh h ih =>
    exact inv_streamRead ih hw hh h

/-- The storage invariant of the reachable states: in every state reachable through the
public operations (constructors, `allocate`, `allocateSameSize`, `free`, copy and move
assignment, `reSample`, the result of `mipMap`, `smooth`, stream input, and the
pixel-writing operations) the pixel storage holds exactly `size()` pixels, the
`unsigned int` product `m_width*m_height` that `create` allocates; that is the product of
the two natural numbers whenever it fits into an `unsigned int`. -/
theorem reachable_storage_is_width_times_height [DecidableEq T] [Add T] [Sub T]
    [FormatFromTemplate T] (img : BaseImage T) (h : Reachable img) :
    img.storageLen = img.size ∧
      (img.m_width * img.m_height < UINT_RANGE →
        img.storageLen = img.m_width * img.m_height) := by
  have hi := h.inv
  refine ⟨hi.2.2.1, fun hlt => ?_⟩
  rw [hi.2.2.1]
  exact Nat.mod_eq_of_lt hlt

/-- The 2x3 buffer built by the sized constructor is reachable and stores six pixels. -/
theorem reachable_storage_is_width_times_height_witness :
    Reachable (sized 2 3 (0 : Nat) (fun _ => 0)) ∧
      (sized 2 3 (0 : Nat) (fun _ => 0)).storageLen = 6 := by
  have hr : Reachable (sized 2 3 (0 : Nat) (fun _ => 0)) :=
    Reachable.sizedFrom 2 3 none 0 (fun _ => 0) _ rfl
  refine ⟨hr, ?_⟩
  have h := (reachable_storage_is_width_times_height _ hr).2 (by decide)
  rw [h]
  rfl

/-- C4 (failing input): the sized constructor `BaseImage(0, 5)` yields a reachable buffer of
width 0 whose height is 5 and whose storage is an allocated array of no elements, not the
null pointer; `allocate(0, 5)` on the same object would have emptied it. -/
theorem sized_zero_width_not_empty :
    Reachable (sized 0 5 (0 : Nat) (fun _ => 0)) ∧
      (sized 0 5 (0 : Nat) (fun _ => 0)).m_width = 0 ∧
      (sized 0 5 (0 : Nat) (fun _ => 0)).m_height = 5 ∧
      (sized 0 5 (0 : Nat) (fun _ => 0)).m_data = some [] ∧
      ¬ IsEmpty (sized 0 5 (0 : Nat) (fun _ => 0)) ∧
      IsEmpty ((sized 0 5 (0 : Nat) (fun _ => 0)).allocate 0 5 (fun _ => 0)) := by
  refine ⟨Reachable.sizedFrom 0 5 none 0 (fun _ => 0) _ rfl, rfl, rfl, rfl, ?_, ?_⟩
  · decide
  · decide

/-! ### Comparison -/

theorem getPixel_eq_readAt (img : BaseImage T) {x y : Nat} (hx : x < img.m_width)
    (hy : y < img.m_height) (hu : y * img.m_width + x < UINT_RANGE) :
    img.getPixel x y = readAt img.m_data (y * img.m_width + x) := by
  unfold getPixel
  rw [pixelOffset_eq, if_pos ⟨hx, hy⟩, Nat.mod_eq_of_lt hu]

theorem WellFormed.count_lt {img : BaseImage T} (hwf : img.WellFormed) :
    img.m_width * img.m_height < UINT_RANGE := by
  obtain ⟨_, _, hlt, hlen⟩ := hwf
  omega

theorem WellFormed.umul_eq {img : BaseImage T} (hwf : img.WellFormed) :
    umul img.m_width img.m_height = img.m_width * img.m_height :=
  Nat.mod_eq_of_lt hwf.count_lt

theorem WellFormed.readAt_ok {img : BaseImage T} (hwf : img.WellFormed) {j : Nat}
    (hj : j < img.m_width * img.m_height) : ∃ v, readAt img.m_data j = .ok v := by
  obtain ⟨_, _, _, hlen⟩ := hwf
  unfold storageLen at hlen
  cases hd : img.m_data with
  | none => rw [hd] at hlen; dsimp only at hlen; omega
  | some l =>
    rw [hd] at hlen
    dsimp only at hlen
    have hjl : j < l.length := by omega
    exact ⟨l[j], by simp [readAt, List.getElem?_eq_getElem hjl]⟩

/-- The index of a pixel array splits into a row and a column. -/
theorem index_split {w h j : Nat} (hj : j < w * h) :
    j % w < w ∧ j / w < h ∧ (j / w) * w + j % w = j := by
  have hw : 0 < w := by
    rcases Nat.eq_zero_or_pos w with h0 | h0
    · subst h0; simp at hj
    · exact h0
  refine ⟨Nat.mod_lt _ hw, ?_, ?_⟩
  · exact Nat.div_lt_of_lt_mul hj
  · rw [Nat.mul_comm]; exact Nat.div_add_mod j w

theorem opEqLoop_spec [DecidableEq T] (a b : Option (List T)) :
    ∀ (k i : Nat), (∀ j, i ≤ j → j < i + k → ∃ v, readAt a j = .ok v) →
      (∀ j, i ≤ j → j < i + k → ∃ v, readAt b j = .ok v) →
      ∃ r, opEqLoop a b k i = .ok r ∧
        (r = true ↔ ∀ j, i ≤ j → j < i + k → readAt a j = readAt b j) := by
  intro k
  induction k with
  | zero =>
    intro i _ _
    refine ⟨true, rfl, ?_⟩
    simp only [true_iff]
    intro j h1 h2
    omega
  | succ k ih =>
    intro i ha hb
    obtain ⟨x, hx⟩ := ha i (Nat.le_refl i) (by omega)
    obtain ⟨y, hy⟩ := hb i (Nat.le_refl i) (by omega)
    unfold opEqLoop
    rw [hx, hy]
    dsimp only
    by_cases hxy : x = y
    · obtain ⟨r, hr, hiff⟩ := ih (i + 1)
        (fun j h1 h2 => ha j (by omega) (by omega))
        (fun j h1 h2 => hb j (by omega) (by omega))
      refine ⟨r, by simp [hxy, hr], ?_⟩
      rw [hiff]
      constructor
      · intro h j h1 h2
        by_cases hji : j = i
        · subst hji; rw [hx, hy, hxy]
        · exact h j (by omega) (by omega)
      · intro h j h1 h2
        exact h j (by omega) (by omega)
    · refine ⟨false, by simp [hxy], ?_⟩
      simp only [Bool.false_eq_true, false_iff]
      intro h
      have := h i (Nat.le_refl i) (by omega)
      rw [hx, hy] at this
      injection this with h'
      exact hxy h'

/-- C6: for two buffers that hold their pixels, `A == B` returns a result, and the result
is `true` exactly when the widths agree, the heights agree and the pixels at every
position agree; the sentinels of the two buffers play no part. -/
theorem opEq_iff_same_size_and_pixels [DecidableEq T] (A B : BaseImage T)
    (hA : A.WellFormed) (hB : B.WellFormed) :
    (∃ r, A.opEq B = .ok r) ∧
    (A.opEq B = .ok true ↔
      (A.m_width = B.m_width ∧ A.m_height = B.m_height ∧
        ∀ x y, x < A.m_width → y < A.m_height → A.getPixel x y = B.getPixel x y)) ∧
    (∀ s t : T, (A.setInvalidValue s).opEq (B.setInvalidValue t) = A.opEq B) := by
  by_cases hd : B.m_width ≠ A.m_width ∨ B.m_height ≠ A.m_height
  · have he : A.opEq B = .ok false := by simp [opEq, hd]
    refine ⟨⟨false, he⟩, ?_, fun _ _ => rfl⟩
    rw [he]
    constructor
    · intro h; simp at h
    · rintro ⟨h1, h2, _⟩
      rcases hd with hd | hd
      · exact absurd h1.symm hd
      · exact absurd h2.symm hd
  · have hw : B.m_width = A.m_width := by
      by_contra hne; exact hd (Or.inl hne)
    have hh : B.m_height = A.m_height := by
      by_contra hne; exact hd (Or.inr hne)
    have he : A.opEq B =
        opEqLoop A.m_data B.m_data (A.m_width * A.m_height) 0 := by
      simp [opEq, hw, hh, hA.umul_eq]
    obtain ⟨r, hr, hiff⟩ := opEqLoop_spec A.m_data B.m_data (A.m_width * A.m_height) 0
      (fun j _ h2 => hA.readAt_ok (by omega))
      (fun j _ h2 => hB.readAt_ok (by rw [hw, hh]; omega))
    refine ⟨⟨r, he ▸ hr⟩, ?_, fun _ _ => rfl⟩
    rw [he, hr]
    have hcnt := hA.count_lt
    constructor
    · intro h
      have hrt : r = true := by injection h
      refine ⟨hw.symm, hh.symm, fun x y hx hy => ?_⟩
      have hoff := offset_lt hx hy
      rw [getPixel_eq_readAt A hx hy (by omega),
        getPixel_eq_readAt B (hw ▸ hx) (hh ▸ hy) (by rw [hw]; omega), hw]
      exact (hiff.mp hrt) _ (Nat.zero_le _) (by omega)
    · rintro ⟨_, _, hpix⟩
      have hrt : r = true := by
        rw [hiff]
        intro j _ h2
        have hj : j < A.m_width * A.m_height := by omega
        obtain ⟨hx, hy, hsplit⟩ := index_split hj
        have := hpix (j % A.m_width) (j / A.m_width) hx hy
        rw [getPixel_eq_readAt A hx hy (by omega),
          getPixel_eq_readAt B (hw ▸ hx) (hh ▸ hy) (by rw [hw]; omega), hw, hsplit] at this
        exact this
      rw [hrt]

/-- Witness of C6: the 2x2 example buffer equals itself. -/
theorem opEq_iff_same_size_and_pixels_witness :
    exampleImage.WellFormed ∧ exampleImage.opEq exampleImage = .ok true :=
  ⟨by decide,
   ((opEq_iff_same_size_and_pixels exampleImage exampleImage (by decide)
      (by decide)).2.1).mpr ⟨rfl, rfl, fun _ _ _ _ => rfl⟩⟩

/-! ### Arithmetic -/

theorem forRange_zipBody_spec (f : T → T → T) (a b : Option (List T)) :
    ∀ (k i : Nat) (im : BaseImage T) (l : List T), im.m_data = some l → i + k ≤ l.length →
      (∀ j, i ≤ j → j < i + k → ∃ v, readAt a j = .ok v) →
      (∀ j, i ≤ j → j < i + k → ∃ v, readAt b j = .ok v) →
      ∃ l', forRange (zipBody f a b) k i im = .ok { im with m_data := some l' } ∧
        l'.length = l.length ∧
        (∀ j, i ≤ j → j < i + k →
          ∃ x y, readAt a j = .ok x ∧ readAt b j = .ok y ∧ l'[j]? = some (f x y)) ∧
        (∀ j, ¬ (i ≤ j ∧ j < i + k) → l'[j]? = l[j]?) := by
  intro k
  induction k with
  | zero =>
    intro i im l hd _ _ _
    refine ⟨l, ?_, rfl, ?_, fun _ _ => rfl⟩
    · simp only [forRange]
      congr 1
      cases im
      simp only at hd
      subst hd
      rfl
    · intro j h1 h2; omega
  | succ k ih =>
    intro i im l hd hlen ha hb
    obtain ⟨x, hx⟩ := ha i (Nat.le_refl i) (by omega)
    obtain ⟨y, hy⟩ := hb i (Nat.le_refl i) (by omega)
    have hil : i < l.length := by omega
    have hbody : zipBody f a b i im = .ok { im with m_data := some (l.set i (f x y)) } := by
      simp [zipBody, hx, hy, writeAt, hd, hil]
    obtain ⟨l', hrun, hlen', hin, hout⟩ := ih (i + 1)
      { im with m_data := some (l.set i (f x y)) } (l.set i (f x y)) rfl
      (by rw [List.length_set]; omega)
      (fun j h1 h2 => ha j (by omega) (by omega))
      (fun j h1 h2 => hb j (by omega) (by omega))
    refine ⟨l', ?_, ?_, ?_, ?_⟩
    · unfold forRange
      rw [hbody]
      exact hrun
    · rw [hlen', List.length_set]
    · intro j h1 h2
      by_cases hji : j = i
      · subst hji
        refine ⟨x, y, hx, hy, ?_⟩
        rw [hout j (by omega)]
        simp [hil]
      · exact hin j (by omega) (by omega)
    · intro j hj
      rw [hout j (by omega)]
      have hne : i ≠ j := by omega
      simp [List.getElem?_set, hne]

theorem sized_wellFormed [FormatFromTemplate T] {width height : Nat} (inv : T)
    (fresh : Nat → T) (hw : width < UINT_RANGE) (hh : height < UINT_RANGE)
    (hc : width * height < UINT_RANGE) :
    (sized width height inv fresh).m_width = width ∧
      (sized width height inv fresh).m_height = height ∧
      ∃ l, (sized width height inv fresh).m_data = some l ∧ l.length = width * height := by
  refine ⟨Nat.mod_eq_of_lt hw, Nat.mod_eq_of_lt hh, _, rfl, ?_⟩
  simp only [List.length_map, List.length_range]
  rw [Nat.mod_eq_of_lt hw, Nat.mod_eq_of_lt hh, Nat.mul_comm, Nat.mod_eq_of_lt hc]

/-- The loop shared by `operator+` and `operator-` on two buffers of equal size. -/
theorem zip_run [FormatFromTemplate T] (f : T → T → T) (A B : BaseImage T)
    (hA : A.WellFormed) (hB : B.WellFormed) (hw : B.m_width = A.m_width)
    (hh : B.m_height = A.m_height) (inv : T) (fresh : Nat → T) :
    ∃ r, forRange (zipBody f A.m_data B.m_data) (umul A.m_width A.m_height) 0
        (sized A.m_width A.m_height inv fresh) = .ok r ∧
      r.WellFormed ∧ r.m_width = A.m_width ∧ r.m_height = A.m_height ∧
      ∀ i, i < A.m_width * A.m_height →
        ∃ x y, readAt A.m_data i = .ok x ∧ readAt B.m_data i = .ok y ∧
          readAt r.m_data i = .ok (f x y) := by
  obtain ⟨hsw, hsh, l, hsd, hsl⟩ := sized_wellFormed inv fresh hA.1 hA.2.1 hA.count_lt
  obtain ⟨l', hrun, hlen', hin, _⟩ := forRange_zipBody_spec f A.m_data B.m_data
    (A.m_width * A.m_height) 0 (sized A.m_width A.m_height inv fresh) l hsd
    (by omega) (fun j _ h2 => hA.readAt_ok (by omega))
    (fun j _ h2 => hB.readAt_ok (by rw [hw, hh]; omega))
  refine ⟨{ sized A.m_width A.m_height inv fresh with m_data := some l' },
    by rw [hA.umul_eq]; exact hrun, ?_, hsw, hsh, ?_⟩
  · refine ⟨?_, ?_, ?_, ?_⟩
    · show (sized A.m_width A.m_height inv fresh).m_width < UINT_RANGE
      rw [hsw]; exact hA.1
    · show (sized A.m_width A.m_height inv fresh).m_height < UINT_RANGE
      rw [hsh]; exact hA.2.1
    · show l'.length < UINT_RANGE
      rw [hlen', hsl]; exact hA.count_lt
    · show l'.length = (sized A.m_width A.m_height inv fresh).m_width *
        (sized A.m_width A.m_height inv fresh).m_height
      rw [hlen', hsl, hsw, hsh]
  · intro i hi
    obtain ⟨x, y, hx, hy, hl⟩ := hin i (Nat.zero_le _) (by omega)
    refine ⟨x, y, hx, hy, ?_⟩
    show readAt (some l') i = .ok (f x y)
    simp [readAt, hl]

/-- C7: for two buffers that hold their pixels, `A + B` and `A - B` throw the exception
"Invalid image dimensions" exactly when the widths or the heights differ; otherwise each
returns a new buffer of the width and height of `A` whose pixel at every index `i` is
`A[i] + B[i]`, respectively `A[i] - B[i]`.  Both operators are `const` and take `B` by
constant reference: the operands are values here and only the new buffer is produced. -/
theorem opAdd_opSub_checked_elementwise [Add T] [Sub T] [FormatFromTemplate T]
    (A B : BaseImage T) (hA : A.WellFormed) (hB : B.WellFormed) (inv : T)
    (fresh : Nat → T) :
    (A.opAdd B inv fresh = .error (Error.exception "Invalid image dimensions") ↔
      (A.m_width ≠ B.m_width ∨ A.m_height ≠ B.m_height)) ∧
    (A.opSub B inv fresh = .error (Error.exception "Invalid image dimensions") ↔
      (A.m_width ≠ B.m_width ∨ A.m_height ≠ B.m_height)) ∧
    (A.m_width = B.m_width → A.m_height = B.m_height →
      ∃ s d, A.opAdd B inv fresh = .ok s ∧ A.opSub B inv fresh = .ok d ∧
        s.WellFormed ∧ d.WellFormed ∧
        s.m_width = A.m_width ∧ s.m_height = A.m_height ∧
        d.m_width = A.m_width ∧ d.m_height = A.m_height ∧
        ∀ i, i < A.m_width * A.m_height →
          ∃ a b, readAt A.m_data i = .ok a ∧ readAt B.m_data i = .ok b ∧
            readAt s.m_data i = .ok (a + b) ∧ readAt d.m_data i = .ok (a - b)) := by
  by_cases hd : B.m_width ≠ A.m_width ∨ B.m_height ≠ A.m_height
  · have hd' : A.m_width ≠ B.m_width ∨ A.m_height ≠ B.m_height :=
      hd.imp (fun h => Ne.symm h) (fun h => Ne.symm h)
    refine ⟨?_, ?_, ?_⟩
    · simp only [opAdd, if_pos hd, true_iff]; exact hd'
    · simp only [opSub, if_pos hd, true_iff]; exact hd'
    · intro h1 h2
      rcases hd with hd | hd
      · exact absurd h1.symm hd
      · exact absurd h2.symm hd
  · have hw : B.m_width = A.m_width := by
      by_contra hne; exact hd (Or.inl hne)
    have hh : B.m_height = A.m_height := by
      by_contra hne; exact hd (Or.inr hne)
    obtain ⟨s, hs, hswf, hsw, hsh, hsp⟩ :=
      zip_run (fun x y => x + y) A B hA hB hw hh inv fresh
    obtain ⟨d, hdr, hdwf, hdw, hdh, hdp⟩ :=
      zip_run (fun x y => x - y) A B hA hB hw hh inv fresh
    have hadd : A.opAdd B inv fresh = .ok s := by
      simp only [opAdd, if_neg hd]; exact hs
    have hsub : A.opSub B inv fresh = .ok d := by
      simp only [opSub, if_neg hd]; exact hdr
    refine ⟨?_, ?_, ?_⟩
    · rw [hadd]
      constructor
      · intro h; simp at h
      · intro h
        rcases h with h | h
        · exact absurd hw.symm h
        · exact absurd hh.symm h
    · rw [hsub]
      constructor
      · intro h; simp at h
      · intro h
        rcases h with h | h
        · exact absurd hw.symm h
        · exact absurd hh.symm h
    · intro _ _
      refine ⟨s, d, hadd, hsub, hswf, hdwf, hsw, hsh, hdw, hdh, ?_⟩
      intro i hi
      obtain ⟨a, b, ha, hb, hsi⟩ := hsp i hi
      obtain ⟨a', b', ha', hb', hdi⟩ := hdp i hi
      rw [ha] at ha'
      rw [hb] at hb'
      injection ha' with ha'
      injection hb' with hb'
      subst ha' hb'
      exact ⟨a, b, ha, hb, hsi, hdi⟩

/-- Witness of C7: the 2x2 example buffer added to and subtracted from itself. -/
theorem opAdd_opSub_checked_elementwise_witness :
    exampleImage.WellFormed ∧
      ∃ s d, exampleImage.opAdd exampleImage 0 (fun _ => 0) = .ok s ∧
        exampleImage.opSub exampleImage 0 (fun _ => 0) = .ok d ∧
        s.m_width = 2 ∧ s.m_height = 2 := by
  refine ⟨by decide, ?_⟩
  obtain ⟨s, d, h1, h2, _, _, h3, h4, _⟩ :=
    (opAdd_opSub_checked_elementwise exampleImage exampleImage (by decide) (by decide) 0
      (fun _ => 0)).2.2 rfl rfl
  exact ⟨s, d, h1, h2, h3, h4⟩

theorem opEq_true_of_readAt [DecidableEq T] (A B : BaseImage T) (hA : A.WellFormed)
    (hB : B.WellFormed) (hw : B.m_width = A.m_width) (hh : B.m_height = A.m_height)
    (hp : ∀ j, j < A.m_width * A.m_height → readAt A.m_data j = readAt B.m_data j) :
    A.opEq B = .ok true := by
  have he : A.opEq B = opEqLoop A.m_data B.m_data (A.m_width * A.m_height) 0 := by
    simp [opEq, hw, hh, hA.umul_eq]
  obtain ⟨r, hr, hiff⟩ := opEqLoop_spec A.m_data B.m_data (A.m_width * A.m_height) 0
    (fun j _ h2 => hA.readAt_ok (by omega))
    (fun j _ h2 => hB.readAt_ok (by rw [hw, hh]; omega))
  have hrt : r = true := hiff.mpr (fun j _ h2 => hp j (by omega))
  rw [he, hr, hrt]

/-- C8: over a pixel type with exact arithmetic, that is an additive group such as the
rationals or the integers modulo `2 ^ 16` of 16-bit unsigned pixels, and for two buffers of
equal width and height that hold their pixels, `A + B` and then `- B` succeed and the outcome
compares equal to `A` under `operator==`. -/
theorem add_then_sub_equals_original [AddGroup T] [DecidableEq T] [FormatFromTemplate T]
    (A B : BaseImage T) (hA : A.WellFormed) (hB : B.WellFormed)
    (hw : A.m_width = B.m_width) (hh : A.m_height = B.m_height) (inv inv' : T)
    (fresh fresh' : Nat → T) :
    ∃ s d, A.opAdd B inv fresh = .ok s ∧ s.opSub B inv' fresh' = .ok d ∧
      d.opEq A = .ok true := by
  have hd : ¬ (B.m_width ≠ A.m_width ∨ B.m_height ≠ A.m_height) := by
    rw [hw, hh]; simp
  obtain ⟨s, hs, hswf, hsw, hsh, hsp⟩ :=
    zip_run (fun x y => x + y) A B hA hB hw.symm hh.symm inv fresh
  have hw2 : B.m_width = s.m_width := by rw [hsw, hw]
  have hh2 : B.m_height = s.m_height := by rw [hsh, hh]
  obtain ⟨d, hdr, hdwf, hdw, hdh, hdp⟩ :=
    zip_run (fun x y => x - y) s B hswf hB hw2 hh2 inv' fresh'
  have hd2 : ¬ (B.m_width ≠ s.m_width ∨ B.m_height ≠ s.m_height) := by
    rw [hw2, hh2]; simp
  refine ⟨s, d, ?_, ?_, ?_⟩
  · simp only [opAdd, if_neg hd]; exact hs
  · simp only [opSub, if_neg hd2]; exact hdr
  · apply opEq_true_of_readAt d A hdwf hA (by rw [hdw, hsw]) (by rw [hdh, hsh])
    intro j hj
    rw [hdw, hdh, hsw, hsh] at hj
    obtain ⟨a, b, ha, hb, hsj⟩ := hsp j hj
    obtain ⟨x, y, hx, hy, hdj⟩ := hdp j (by rw [hsw, hsh]; exact hj)
    rw [hsj] at hx
    rw [hb] at hy
    injection hx with hx
    injection hy with hy
    subst hx hy
    rw [hdj, ha]
    simp

/-- Witness of C8 on two 2x1 buffers of 16-bit pixels whose sums wrap around. -/
theorem add_then_sub_equals_original_witness :
    (exampleDepthA.WellFormed ∧ exampleDepthB.WellFormed) ∧
    ∃ s d, exampleDepthA.opAdd exampleDepthB 0 (fun _ => 0) = .ok s ∧
      s.opSub exampleDepthB 0 (fun _ => 0) = .ok d ∧ d.opEq exampleDepthA = .ok true :=
  ⟨⟨by decide, by decide⟩,
   add_then_sub_equals_original exampleDepthA exampleDepthB (by decide) (by decide) rfl rfl
    0 0 (fun _ => 0) (fun _ => 0)⟩

end BaseImage

theorem forRange_const {σ : Type} (body : Nat → σ → Except Error σ)
    (hbody : ∀ i s, body i s = .ok s) : ∀ (k i : Nat) (s : σ), forRange body k i s = .ok s := by
  intro k
  induction k with
  | zero => intro i s; rfl
  | succ k ih =>
    intro i s
    unfold forRange
    rw [hbody i s]
    exact ih (i + 1) s

/-- A loop whose body succeeds and moves an indexed invariant from `i` to `i + 1` succeeds
and moves it from the first index to the bound. -/
theorem forRange_induct {σ : Type} (P : Nat → σ → Prop) (body : Nat → σ → Except Error σ) :
    ∀ (k lo : Nat) (s : σ),
      (∀ i t, lo ≤ i → i < lo + k → P i t → ∃ t', body i t = .ok t' ∧ P (i + 1) t') →
      P lo s → ∃ s', forRange body k lo s = .ok s' ∧ P (lo + k) s' := by
  intro k
  induction k with
  | zero =>
    intro lo s _ h0
    exact ⟨s, rfl, h0⟩
  | succ k ih =>
    intro lo s hbody h0
    obtain ⟨t, ht, hP⟩ := hbody lo s (Nat.le_refl lo) (by omega) h0
    obtain ⟨s', hs', hP'⟩ := ih (lo + 1) t
      (fun i u h1 h2 hu => hbody i u (by omega) (by omega) hu) hP
    refine ⟨s', ?_, ?_⟩
    · unfold forRange
      rw [ht]
      exact hs'
    · have : lo + (k + 1) = lo + 1 + k := by omega
      rw [this]
      exact hP'

theorem usub_eq_sub {a b : Nat} (hba : b ≤ a) (ha : a < UINT_RANGE) : usub a b = a - b := by
  unfold usub
  have hb : b % UINT_RANGE = b := Nat.mod_eq_of_lt (by omega)
  rw [hb]
  have h1 : a + UINT_RANGE - b = (a - b) + UINT_RANGE := by omega
  rw [h1, Nat.add_mod_right]
  exact Nat.mod_eq_of_lt (by omega)

theorem uadd_eq_add {a b : Nat} (h : a + b < UINT_RANGE) : uadd a b = a + b :=
  Nat.mod_eq_of_lt h

namespace BaseImage

variable {T : Type}

/-! ### Pixels as a two-dimensional array -/

theorem offset_injective {w x y x' y' : Nat} (hx : x < w) (hx' : x' < w)
    (h : y' * w + x' = y * w + x) : x' = x ∧ y' = y := by
  have h1 : (y' * w + x') % w = x' := by
    rw [Nat.add_comm, Nat.add_mul_mod_self_right]; exact Nat.mod_eq_of_lt hx'
  have h2 : (y * w + x) % w = x := by
    rw [Nat.add_comm, Nat.add_mul_mod_self_right]; exact Nat.mod_eq_of_lt hx
  have hxx : x' = x := by rw [← h1, ← h2, h]
  subst hxx
  have hw : 0 < w := by omega
  have h3 : y' * w = y * w := by omega
  exact ⟨rfl, Nat.eq_of_mul_eq_mul_right hw h3⟩

theorem WellFormed.getPixel_ok {img : BaseImage T} (hwf : img.WellFormed) {x y : Nat}
    (hx : x < img.m_width) (hy : y < img.m_height) : ∃ v, img.getPixel x y = .ok v := by
  obtain ⟨l, hd, _, hlen, hu⟩ := hwf.data_eq hx hy
  exact ⟨_, getPixel_eq_of_data hd hx hy hlen hu⟩

/-- Writing the pixel `(x, y)` of a buffer that holds its pixels succeeds, changes that
pixel and no other, and keeps width, height, sentinel and format. -/
theorem WellFormed.setPixel_spec {img : BaseImage T} (hwf : img.WellFormed) {x y : Nat}
    (hx : x < img.m_width) (hy : y < img.m_height) (v : T) :
    ∃ r, img.setPixel x y v = .ok r ∧ r.WellFormed ∧ SameFrame r img ∧
      ∀ x' y', x' < img.m_width → y' < img.m_height →
        r.getPixel x' y' = if x' = x ∧ y' = y then .ok v else img.getPixel x' y' := by
  obtain ⟨l, hd, hl, hlen, hu⟩ := hwf.data_eq hx hy
  have hcnt := hwf.count_lt
  refine ⟨{ img with m_data := some (l.set (y * img.m_width + x) v) },
    setPixel_eq_of_data v hd hx hy hlen hu, ?_, ⟨rfl, rfl, rfl, rfl⟩, ?_⟩
  · refine ⟨hwf.1, hwf.2.1, ?_, ?_⟩
    · show (l.set (y * img.m_width + x) v).length < UINT_RANGE
      rw [List.length_set, hl]; exact hcnt
    · show (l.set (y * img.m_width + x) v).length = img.m_width * img.m_height
      rw [List.length_set, hl]
  · intro x' y' hx' hy'
    have hoff := offset_lt hx' hy'
    have hlen' : y' * img.m_width + x' < l.length := by omega
    have hu' : y' * img.m_width + x' < UINT_RANGE := by omega
    have hlen2 : y' * img.m_width + x' < (l.set (y * img.m_width + x) v).length := by
      rw [List.length_set]; exact hlen'
    have hnew : ({ img with m_data := some (l.set (y * img.m_width + x) v) } :
        BaseImage T).getPixel x' y' =
          .ok ((l.set (y * img.m_width + x) v).get ⟨y' * img.m_width + x', hlen2⟩) :=
      @getPixel_eq_of_data T { img with m_data := some (l.set (y * img.m_width + x) v) }
        _ _ _ rfl hx' hy' hlen2 hu'
    rw [hnew, getPixel_eq_of_data hd hx' hy' hlen' hu']
    by_cases hxy : x' = x ∧ y' = y
    · obtain ⟨h1, h2⟩ := hxy
      subst h1 h2
      simp
    · have hne : y * img.m_width + x ≠ y' * img.m_width + x' := by
        intro he
        exact hxy (offset_injective hx hx' he.symm)
      simp only [hxy, if_false, List.get_eq_getElem]
      rw [List.getElem_set_ne hne]

/-! ### Copying a region -/

theorem sameFrame_trans {a b c : BaseImage T} (h1 : SameFrame a b) (h2 : SameFrame b c) :
    SameFrame a c :=
  ⟨h1.1.trans h2.1, h1.2.1.trans h2.2.1, h1.2.2.1.trans h2.2.2.1, h1.2.2.2.trans h2.2.2.2⟩

/-- The inner loop of `copyIntoImage` for the row `y` of the destination. -/
theorem copyRow_spec (dst src : BaseImage T) (hs : src.WellFormed) (startX startY y : Nat)
    (hxr : startX + src.m_width ≤ dst.m_width) (hy1 : startY ≤ y)
    (hy2 : y < startY + src.m_height) (hyh : y < dst.m_height)
    (s : BaseImage T) (hswf : s.WellFormed) (hsf : SameFrame s dst) :
    ∃ r, forRange (copyPixel src startX startY y) src.m_width startX s = .ok r ∧
      r.WellFormed ∧ SameFrame r dst ∧
      ∀ x' y', x' < dst.m_width → y' < dst.m_height →
        r.getPixel x' y' =
          if y' = y ∧ startX ≤ x' ∧ x' < startX + src.m_width then
            src.getPixel (x' - startX) (y' - startY)
          else s.getPixel x' y' := by
  have hwR : dst.m_width < UINT_RANGE := hsf.1 ▸ hswf.1
  have hhR : dst.m_height < UINT_RANGE := hsf.2.1 ▸ hswf.2.1
  apply forRange_induct
    (fun x t => t.WellFormed ∧ SameFrame t dst ∧
      ∀ x' y', x' < dst.m_width → y' < dst.m_height →
        t.getPixel x' y' =
          if y' = y ∧ startX ≤ x' ∧ x' < x then src.getPixel (x' - startX) (y' - startY)
          else s.getPixel x' y')
  · intro i t hi1 hi2 ⟨htwf, htf, htp⟩
    have hsub1 : usub i startX = i - startX := usub_eq_sub hi1 (by omega)
    have hsub2 : usub y startY = y - startY := usub_eq_sub hy1 (by omega)
    obtain ⟨v, hv⟩ := hs.getPixel_ok (x := i - startX) (y := y - startY) (by omega)
      (by omega)
    have hit : i < t.m_width := by rw [htf.1]; omega
    have hyt : y < t.m_height := by rw [htf.2.1]; exact hyh
    obtain ⟨r, hr, hrwf, hrf, hrp⟩ := htwf.setPixel_spec hit hyt v
    refine ⟨r, ?_, hrwf, sameFrame_trans hrf htf, ?_⟩
    · simp only [copyPixel, hsub1, hsub2, hv]
      exact hr
    · intro x' y' hx' hy'
      rw [hrp x' y' (by rw [htf.1]; exact hx') (by rw [htf.2.1]; exact hy'), htp x' y' hx' hy']
      by_cases hc : x' = i ∧ y' = y
      · obtain ⟨h1, h2⟩ := hc
        subst h1 h2
        have : y' = y' ∧ startX ≤ x' ∧ x' < x' + 1 := ⟨rfl, hi1, by omega⟩
        simp only [and_self, if_true, this]
        exact hv.symm
      · simp only [hc, if_false]
        by_cases hc2 : y' = y ∧ startX ≤ x' ∧ x' < i
        · have hc3 : y' = y ∧ startX ≤ x' ∧ x' < i + 1 := ⟨hc2.1, hc2.2.1, by omega⟩
          rw [if_pos hc2, if_pos hc3]
        · have hc3 : ¬ (y' = y ∧ startX ≤ x' ∧ x' < i + 1) := by
            rintro ⟨h1, h2, h3⟩
            by_cases hxi : x' = i
            · exact hc ⟨hxi, h1⟩
            · exact hc2 ⟨h1, h2, by omega⟩
          rw [if_neg hc2, if_neg hc3]
  · refine ⟨hswf, hsf, ?_⟩
    intro x' y' _ _
    have : ¬ (y' = y ∧ startX ≤ x' ∧ x' < startX) := by
      rintro ⟨_, h2, h3⟩; omega
    rw [if_neg this]

/-- The two loops of `copyIntoImage` when the region lies inside the destination. -/
theorem copyRows_spec (dst src : BaseImage T) (hd : dst.WellFormed) (hs : src.WellFormed)
    (startX startY : Nat) (hxr : startX + src.m_width ≤ dst.m_width)
    (hyr : startY + src.m_height ≤ dst.m_height) :
    ∃ r, forRange (fun y im =>
          forRange (copyPixel src startX startY y) src.m_width startX im)
        src.m_height startY dst = .ok r ∧
      r.WellFormed ∧ SameFrame r dst ∧
      ∀ x' y', x' < dst.m_width → y' < dst.m_height →
        r.getPixel x' y' =
          if startX ≤ x' ∧ x' < startX + src.m_width ∧ startY ≤ y' ∧
              y' < startY + src.m_height then
            src.getPixel (x' - startX) (y' - startY)
          else dst.getPixel x' y' := by
  apply forRange_induct
    (fun y t => t.WellFormed ∧ SameFrame t dst ∧
      ∀ x' y', x' < dst.m_width → y' < dst.m_height →
        t.getPixel x' y' =
          if startX ≤ x' ∧ x' < startX + src.m_width ∧ startY ≤ y' ∧ y' < y then
            src.getPixel (x' - startX) (y' - startY)
          else dst.getPixel x' y')
  · intro y t hy1 hy2 ⟨htwf, htf, htp⟩
    obtain ⟨r, hr, hrwf, hrf, hrp⟩ :=
      copyRow_spec dst src hs startX startY y hxr hy1 hy2 (by omega) t htwf htf
    refine ⟨r, hr, hrwf, hrf, ?_⟩
    intro x' y' hx' hy'
    rw [hrp x' y' hx' hy', htp x' y' hx' hy']
    by_cases hrow : y' = y
    · subst hrow
      by_cases hcol : startX ≤ x' ∧ x' < startX + src.m_width
      · have h1 : y' = y' ∧ startX ≤ x' ∧ x' < startX + src.m_width := ⟨rfl, hcol⟩
        have h2 : startX ≤ x' ∧ x' < startX + src.m_width ∧ startY ≤ y' ∧ y' < y' + 1 :=
          ⟨hcol.1, hcol.2, hy1, by omega⟩
        rw [if_pos h1, if_pos h2]
      · have h1 : ¬ (y' = y' ∧ startX ≤ x' ∧ x' < startX + src.m_width) :=
          fun h => hcol h.2
        have h2 : ¬ (startX ≤ x' ∧ x' < startX + src.m_width ∧ startY ≤ y' ∧ y' < y') :=
          fun h => hcol ⟨h.1, h.2.1⟩
        have h3 : ¬ (startX ≤ x' ∧ x' < startX + src.m_width ∧ startY ≤ y' ∧
            y' < y' + 1) := fun h => hcol ⟨h.1, h.2.1⟩
        rw [if_neg h1, if_neg h2, if_neg h3]
    · have h1 : ¬ (y' = y ∧ startX ≤ x' ∧ x' < startX + src.m_width) :=
        fun h => hrow h.1
      rw [if_neg h1]
      by_cases hc : startX ≤ x' ∧ x' < startX + src.m_width ∧ startY ≤ y' ∧ y' < y
      · have hc2 : startX ≤ x' ∧ x' < startX + src.m_width ∧ startY ≤ y' ∧ y' < y + 1 :=
          ⟨hc.1, hc.2.1, hc.2.2.1, by omega⟩
        rw [if_pos hc, if_pos hc2]
      · have hc2 : ¬ (startX ≤ x' ∧ x' < startX + src.m_width ∧ startY ≤ y' ∧
            y' < y + 1) := by
          rintro ⟨h1, h2, h3, h4⟩
          exact hc ⟨h1, h2, h3, by omega⟩
        rw [if_neg hc, if_neg hc2]
  · refine ⟨hd, ⟨rfl, rfl, rfl, rfl⟩, ?_⟩
    intro x' y' _ _
    have : ¬ (startX ≤ x' ∧ x' < startX + src.m_width ∧ startY ≤ y' ∧ y' < startY) := by
      rintro ⟨_, _, h3, h4⟩; omega
    rw [if_neg this]

/-- C10: when the region fits (`startX + source.width <= width` and
`startY + source.height <= height`) and both buffers hold their pixels, `copyIntoImage`
succeeds; afterwards every destination pixel `(x, y)` of the region equals
`source(x - startX, y - startY)`, every other destination pixel is what it was, and width,
height, sentinel and format of the destination are unchanged. -/
theorem copyIntoImage_region_and_frame (dst src : BaseImage T) (hd : dst.WellFormed)
    (hs : src.WellFormed) (startX startY : Nat)
    (hxr : startX + src.m_width ≤ dst.m_width)
    (hyr : startY + src.m_height ≤ dst.m_height) :
    ∃ r, dst.copyIntoImage src startX startY = .ok r ∧
      r.m_width = dst.m_width ∧ r.m_height = dst.m_height ∧
      r.m_InvalidValue = dst.m_InvalidValue ∧ r.m_format = dst.m_format ∧ r.WellFormed ∧
      ∀ x y, x < dst.m_width → y < dst.m_height →
        (∃ v, r.getPixel x y = .ok v) ∧
        r.getPixel x y =
          if startX ≤ x ∧ x < startX + src.m_width ∧ startY ≤ y ∧
              y < startY + src.m_height then
            src.getPixel (x - startX) (y - startY)
          else dst.getPixel x y := by
  obtain ⟨r, hr, hrwf, hrf, hrp⟩ := copyRows_spec dst src hd hs startX startY hxr hyr
  have hwR := hd.1
  have hhR := hd.2.1
  have hax : uadd src.m_width startX = src.m_width + startX := uadd_eq_add (by omega)
  have hay : uadd src.m_height startY = src.m_height + startY := uadd_eq_add (by omega)
  have hbx : uadd startX src.m_width = startX + src.m_width := uadd_eq_add (by omega)
  have hby : uadd startY src.m_height = startY + src.m_height := uadd_eq_add (by omega)
  have hassert : MLIB_ASSERT (decide (uadd src.getWidth startX ≤ dst.getWidth ∧
      uadd src.getHeight startY ≤ dst.getHeight)) = .ok () := by
    have : uadd src.getWidth startX ≤ dst.getWidth ∧
        uadd src.getHeight startY ≤ dst.getHeight := by
      simp only [getWidth, getHeight, hax, hay]; omega
    simp [MLIB_ASSERT, this]
  refine ⟨r, ?_, hrf.1, hrf.2.1, hrf.2.2.1, hrf.2.2.2, hrwf, ?_⟩
  · unfold copyIntoImage
    rw [hassert]
    simp only [getWidth, getHeight, hbx, hby, Nat.add_sub_cancel_left]
    exact hr
  · intro x y hx hy
    exact ⟨hrwf.getPixel_ok (by rw [hrf.1]; exact hx) (by rw [hrf.2.1]; exact hy),
      hrp x y hx hy⟩

/-- Witness of C10: the 1x1 example buffer copied to position `(1, 1)` of the 2x2 example
buffer. -/
theorem copyIntoImage_region_and_frame_witness :
    (exampleImage.WellFormed ∧ exampleSmall.WellFormed ∧
      1 + exampleSmall.m_width ≤ exampleImage.m_width ∧
      1 + exampleSmall.m_height ≤ exampleImage.m_height) ∧
    ∃ r, exampleImage.copyIntoImage exampleSmall 1 1 = .ok r ∧
      r.getPixel 1 1 = exampleSmall.getPixel 0 0 ∧
      r.getPixel 0 1 = exampleImage.getPixel 0 1 := by
  refine ⟨⟨by decide, by decide, by decide, by decide⟩, ?_⟩
  obtain ⟨r, hr, _, _, _, _, _, hp⟩ :=
    copyIntoImage_region_and_frame exampleImage exampleSmall (by decide) (by decide) 1 1
      (by decide) (by decide)
  refine ⟨r, hr, ?_, ?_⟩
  · have := (hp 1 1 (by decide) (by decide)).2
    rw [this]
    rfl
  · have := (hp 0 1 (by decide) (by decide)).2
    rw [this]
    rfl

/-- C9 (failing input): with `startX = 2 ^ 32 - 1` the sum `source.width + startX` of the
check wraps around to 0, so the check passes although `startX + source.width` exceeds the
width of the destination; the call returns normally, here with the destination unchanged,
instead of failing. -/
theorem copyIntoImage_wrapped_check_passes :
    exampleImage.m_width < 4294967295 + exampleSmall.m_width ∧
      uadd exampleSmall.getWidth 4294967295 = 0 ∧
      exampleImage.copyIntoImage exampleSmall 4294967295 0 = .ok exampleImage := by
  refine ⟨by decide, by decide, ?_⟩
  rfl

/-- Whenever the region does not fit into the destination, `copyIntoImage` either fails
the check or, if a sum of the check wrapped around, runs no loop body at all: in both cases
no pixel, dimension or sentinel of the destination changes. -/
theorem copyIntoImage_outside_region (dst src : BaseImage T) (startX startY : Nat)
    (hsw : src.m_width < UINT_RANGE) (hsh : src.m_height < UINT_RANGE)
    (hv : dst.m_width < startX + src.m_width ∨ dst.m_height < startY + src.m_height) :
    dst.copyIntoImage src startX startY = .error Error.assertion ∨
      dst.copyIntoImage src startX startY = .ok dst := by
  unfold copyIntoImage
  by_cases hc : uadd src.getWidth startX ≤ dst.getWidth ∧
      uadd src.getHeight startY ≤ dst.getHeight
  · right
    have hassert : MLIB_ASSERT (decide (uadd src.getWidth startX ≤ dst.getWidth ∧
        uadd src.getHeight startY ≤ dst.getHeight)) = .ok () := by
      simp [MLIB_ASSERT, hc]
    rw [hassert]
    dsimp only
    simp only [getWidth, getHeight, uadd, UINT_RANGE] at hc ⊢
    simp only [UINT_RANGE] at hsw hsh
    rcases hv with hv | hv
    · have h0 : (startX + src.m_width) % 2 ^ 32 - startX = 0 := by omega
      rw [h0]
      exact forRange_const _ (fun _ _ => rfl) _ _ _
    · have h0 : (startY + src.m_height) % 2 ^ 32 - startY = 0 := by omega
      rw [h0]
      rfl
  · left
    simp [MLIB_ASSERT, hc]

/-- The other paths through `create` behave like the sized constructor on a zero dimension:
`allocateSameSize`, copy assignment and `reSample(0, 5)` all leave the 2x2 example buffer
with width 0, height 5 and an allocated array of no elements. -/
theorem create_paths_zero_width_not_empty :
    (exampleImage.allocateSameSize (sized 0 5 (0 : Nat) (fun _ => 0)) (fun _ => 0)).m_height
        = 5 ∧
      (exampleImage.allocateSameSize (sized 0 5 (0 : Nat) (fun _ => 0)) (fun _ => 0)).m_data
        = some [] ∧
      exampleImage.copyAssign (sized 0 5 (0 : Nat) (fun _ => 0)) (fun _ => 0) =
        .ok (sized 0 5 (0 : Nat) (fun _ => 0)) ∧
      exampleImage.reSample (fun _ _ _ => 0) 0 5 0 (fun _ => 0) =
        .ok (sized 0 5 (0 : Nat) (fun _ => 0)) := by
  refine ⟨rfl, rfl, rfl, rfl⟩

/-! ### Resampling to the same size -/

/-- C18: `reSample(newWidth, newHeight)` with `newWidth` the current width and `newHeight`
the current height returns at once: the buffer, with its width, height, pixels and
sentinel, is exactly what it was. -/
theorem reSample_same_size_unchanged [FormatFromTemplate T]
    (normIndex : Nat → Nat → Nat → Nat) (img : BaseImage T) (inv : T) (fresh : Nat → T) :
    img.reSample normIndex img.m_width img.m_height inv fresh = .ok img := by
  simp [reSample]

/-! ### Loops that assign pixels -/

/-- A row loop whose body either assigns the pixel `(x, y)` the value `g x y` or leaves the
image alone. -/
theorem assignRow_spec (r0 : BaseImage T) (body : Nat → BaseImage T → Except Error (BaseImage T))
    (g : Nat → Nat → Option T) (y : Nat) (hy : y < r0.m_height)
    (hbody : ∀ x r, x < r0.m_width → r.WellFormed → SameFrame r r0 →
      body x r = (g x y).elim (.ok r) (fun v => r.setPixel x y v))
    (s : BaseImage T) (hs : s.WellFormed) (hsf : SameFrame s r0) :
    ∃ r, forRange body r0.m_width 0 s = .ok r ∧ r.WellFormed ∧ SameFrame r r0 ∧
      ∀ x' y', x' < r0.m_width → y' < r0.m_height →
        r.getPixel x' y' =
          if y' = y then (g x' y').elim (s.getPixel x' y') Except.ok
          else s.getPixel x' y' := by
  have key := forRange_induct
    (fun x t => t.WellFormed ∧ SameFrame t r0 ∧
      ∀ x' y', x' < r0.m_width → y' < r0.m_height →
        t.getPixel x' y' =
          if y' = y ∧ x' < x then (g x' y').elim (s.getPixel x' y') Except.ok
          else s.getPixel x' y')
    body r0.m_width 0 s
    (by
      intro i t _ hi ⟨htwf, htf, htp⟩
      have hi' : i < r0.m_width := by omega
      rw [hbody i t hi' htwf htf]
      cases hg : g i y with
      | none =>
        refine ⟨t, rfl, htwf, htf, ?_⟩
        intro x' y' hx' hy'
        rw [htp x' y' hx' hy']
        by_cases hc : y' = y ∧ x' < i
        · have hc2 : y' = y ∧ x' < i + 1 := ⟨hc.1, by omega⟩
          rw [if_pos hc, if_pos hc2]
        · by_cases hxi : y' = y ∧ x' = i
          · obtain ⟨h1, h2⟩ := hxi
            subst h1 h2
            have hc2 : y' = y' ∧ x' < x' + 1 := ⟨rfl, by omega⟩
            rw [if_neg hc, if_pos hc2, hg]
            rfl
          · have hc2 : ¬ (y' = y ∧ x' < i + 1) := by
              rintro ⟨h1, h2⟩
              by_cases h3 : x' = i
              · exact hxi ⟨h1, h3⟩
              · exact hc ⟨h1, by omega⟩
            rw [if_neg hc, if_neg hc2]
      | some v =>
        have hit : i < t.m_width := by rw [htf.1]; exact hi'
        have hyt : y < t.m_height := by rw [htf.2.1]; exact hy
        obtain ⟨r, hr, hrwf, hrf, hrp⟩ := htwf.setPixel_spec hit hyt v
        refine ⟨r, hr, hrwf, sameFrame_trans hrf htf, ?_⟩
        intro x' y' hx' hy'
        rw [hrp x' y' (by rw [htf.1]; exact hx') (by rw [htf.2.1]; exact hy'),
          htp x' y' hx' hy']
        by_cases hxi : x' = i ∧ y' = y
        · obtain ⟨h1, h2⟩ := hxi
          subst h1 h2
          have hc2 : y' = y' ∧ x' < x' + 1 := ⟨rfl, by omega⟩
          simp only [and_self, if_true, hc2, hg]
          rfl
        · simp only [hxi, if_false]
          by_cases hc : y' = y ∧ x' < i
          · have hc2 : y' = y ∧ x' < i + 1 := ⟨hc.1, by omega⟩
            rw [if_pos hc, if_pos hc2]
          · have hc2 : ¬ (y' = y ∧ x' < i + 1) := by
              rintro ⟨h1, h2⟩
              by_cases h3 : x' = i
              · exact hxi ⟨h3, h1⟩
              · exact hc ⟨h1, by omega⟩
            rw [if_neg hc, if_neg hc2])
    (by
      refine ⟨hs, hsf, ?_⟩
      intro x' y' _ _
      have : ¬ (y' = y ∧ x' < 0) := by rintro ⟨_, h⟩; omega
      rw [if_neg this])
  obtain ⟨r, hr, hrwf, hrf, hrp⟩ := key
  refine ⟨r, hr, hrwf, hrf, ?_⟩
  intro x' y' hx' hy'
  rw [hrp x' y' hx' hy']
  by_cases hc : y' = y
  · have hc2 : y' = y ∧ x' < 0 + r0.m_width := ⟨hc, by omega⟩
    rw [if_pos hc, if_pos hc2]
  · have hc2 : ¬ (y' = y ∧ x' < 0 + r0.m_width) := fun h => hc h.1
    rw [if_neg hc, if_neg hc2]

/-- Two nested loops over the rows and columns of an image whose body either assigns the
pixel `(x, y)` the value `g x y` or leaves the image alone: the loops succeed, assigned
pixels hold their value, all others and the frame are unchanged. -/
theorem assignLoop_spec (r0 : BaseImage T) (h0 : r0.WellFormed)
    (body : Nat → Nat → BaseImage T → Except Error (BaseImage T))
    (kin : Nat → BaseImage T → Nat) (g : Nat → Nat → Option T)
    (hkin : ∀ y r, SameFrame r r0 → kin y r = r0.m_width)
    (hbody : ∀ y x r, y < r0.m_height → x < r0.m_width → r.WellFormed → SameFrame r r0 →
      body y x r = (g x y).elim (.ok r) (fun v => r.setPixel x y v)) :
    ∃ r, forRange (fun y r => forRange (body y) (kin y r) 0 r) r0.m_height 0 r0 = .ok r ∧
      r.WellFormed ∧ SameFrame r r0 ∧
      ∀ x y, x < r0.m_width → y < r0.m_height →
        r.getPixel x y = (g x y).elim (r0.getPixel x y) Except.ok := by
  have key := forRange_induct
    (fun y t => t.WellFormed ∧ SameFrame t r0 ∧
      ∀ x' y', x' < r0.m_width → y' < r0.m_height →
        t.getPixel x' y' =
          if y' < y then (g x' y').elim (r0.getPixel x' y') Except.ok
          else r0.getPixel x' y')
    (fun y r => forRange (body y) (kin y r) 0 r) r0.m_height 0 r0
    (by
      intro y t _ hy ⟨htwf, htf, htp⟩
      have hy' : y < r0.m_height := by omega
      obtain ⟨r, hr, hrwf, hrf, hrp⟩ := assignRow_spec r0 (body y) g y hy'
        (fun x r hx hr hf => hbody y x r hy' hx hr hf) t htwf htf
      refine ⟨r, ?_, hrwf, hrf, ?_⟩
      · show forRange (body y) (kin y t) 0 t = .ok r
        rw [hkin y t htf]; exact hr
      · intro x' y' hx' hy2
        rw [hrp x' y' hx' hy2, htp x' y' hx' hy2]
        by_cases hrow : y' = y
        · subst hrow
          have h1 : ¬ y' < y' := by omega
          have h2 : y' < y' + 1 := by omega
          rw [if_pos rfl, if_neg h1, if_pos h2]
        · rw [if_neg hrow]
          by_cases hc : y' < y
          · have hc2 : y' < y + 1 := by omega
            rw [if_pos hc, if_pos hc2]
          · have hc2 : ¬ y' < y + 1 := by omega
            rw [if_neg hc, if_neg hc2])
    (by
      refine ⟨h0, ⟨rfl, rfl, rfl, rfl⟩, ?_⟩
      intro x' y' _ _
      have : ¬ y' < 0 := by omega
      rw [if_neg this])
  obtain ⟨r, hr, hrwf, hrf, hrp⟩ := key
  refine ⟨r, hr, hrwf, hrf, ?_⟩
  intro x y hx hy
  rw [hrp x y hx hy]
  have hc : y < 0 + r0.m_height := by omega
  rw [if_pos hc]

/-! ### Filling -/

theorem WellFormed.setPixelSize_eq_setPixel {img : BaseImage T} (hwf : img.WellFormed)
    {x y : Nat} (hx : x < img.m_width) (hy : y < img.m_height) (v : T) :
    img.setPixelSize x y v = img.setPixel x y v := by
  obtain ⟨l, hd, _, hlen, hu⟩ := hwf.data_eq hx hy
  rw [setPixelSize_eq_of_data v hd hx hy hlen hu, setPixel_eq_of_data v hd hx hy hlen hu]

/-- The inner loop of `fill` does to the image what the loop without the call log does,
and appends the coordinates of the row in increasing `x`. -/
theorem fillRow_log (f : Nat → Nat → T) (y : Nat) :
    ∀ (k i : Nat) (t r : BaseImage T) (log : List (Nat × Nat)),
      forRange (fun x r => r.setPixelSize x y (f x y)) k i t = .ok r →
      forRange (fillPixel f y) k i (t, log) =
        .ok (r, log ++ (List.range' i k).map (fun x => (x, y))) := by
  intro k
  induction k with
  | zero =>
    intro i t r log h
    simp only [forRange] at h
    injection h with h
    subst h
    simp [forRange]
  | succ k ih =>
    intro i t r log h
    unfold forRange at h ⊢
    cases hb : t.setPixelSize i y (f i y) with
    | error e => rw [hb] at h; simp at h
    | ok t1 =>
      rw [hb] at h
      dsimp only at h
      have hstep : fillPixel f y i (t, log) = .ok (t1, log ++ [(i, y)]) := by
        simp [fillPixel, hb]
      rw [hstep]
      dsimp only
      rw [ih (i + 1) t1 r (log ++ [(i, y)]) h]
      simp [List.range'_succ]

theorem rowMajorCoordinates_length (w h : Nat) :
    (rowMajorCoordinates w h).length = w * h := by
  induction h with
  | zero => rfl
  | succ h ih =>
    simp only [rowMajorCoordinates, rowCoordinates, List.length_append, ih,
      List.length_map, List.length_range]
    ring

/-- The two loops of `fill` on a buffer that holds its pixels: the image afterwards and the
calls of the fill function. -/
theorem fill_spec (img : BaseImage T) (hwf : img.WellFormed) (f : Nat → Nat → T) :
    ∃ r calls, img.fill f = .ok (r, calls) ∧ r.WellFormed ∧ SameFrame r img ∧
      (∀ x y, x < img.m_width → y < img.m_height → r.getPixel x y = .ok (f x y)) ∧
      calls = rowMajorCoordinates img.m_width img.m_height := by
  have key := forRange_induct
    (fun y (s : BaseImage T × List (Nat × Nat)) => s.1.WellFormed ∧ SameFrame s.1 img ∧
      (∀ x' y', x' < img.m_width → y' < img.m_height →
        s.1.getPixel x' y' = if y' < y then .ok (f x' y') else img.getPixel x' y') ∧
      s.2 = rowMajorCoordinates img.m_width y)
    (fun y s => forRange (fillPixel f y) s.1.m_width 0 s) img.m_height 0 (img, [])
    (by
      intro y s _ hy ⟨hswf, hsf, hsp, hlog⟩
      have hy' : y < img.m_height := by omega
      obtain ⟨r, hr, hrwf, hrf, hrp⟩ := assignRow_spec img
        (fun x r => r.setPixelSize x y (f x y)) (fun x y => some (f x y)) y hy'
        (fun x r hx hr hf => by
          show r.setPixelSize x y (f x y) = r.setPixel x y (f x y)
          exact hr.setPixelSize_eq_setPixel (by rw [hf.1]; exact hx)
            (by rw [hf.2.1]; exact hy') (f x y))
        s.1 hswf hsf
      refine ⟨(r, s.2 ++ (List.range' 0 img.m_width).map (fun x => (x, y))), ?_, hrwf, hrf,
        ?_, ?_⟩
      · show forRange (fillPixel f y) s.1.m_width 0 s = _
        rw [hsf.1]
        exact fillRow_log f y img.m_width 0 s.1 r s.2 hr
      · intro x' y' hx' hy2
        show r.getPixel x' y' = _
        rw [hrp x' y' hx' hy2, hsp x' y' hx' hy2]
        by_cases hrow : y' = y
        · subst hrow
          have h2 : y' < y' + 1 := by omega
          rw [if_pos rfl, if_pos h2]
          rfl
        · rw [if_neg hrow]
          by_cases hc : y' < y
          · have hc2 : y' < y + 1 := by omega
            rw [if_pos hc, if_pos hc2]
          · have hc2 : ¬ y' < y + 1 := by omega
            rw [if_neg hc, if_neg hc2]
      · show s.2 ++ (List.range' 0 img.m_width).map (fun x => (x, y)) = _
        rw [hlog, ← List.range_eq_range']
        rfl)
    (by
      refine ⟨hwf, ⟨rfl, rfl, rfl, rfl⟩, ?_, rfl⟩
      intro x' y' _ _
      have : ¬ y' < 0 := by omega
      rw [if_neg this])
  obtain ⟨s, hs, hswf, hsf, hsp, hlog⟩ := key
  refine ⟨s.1, s.2, hs, hswf, hsf, ?_, ?_⟩
  · intro x y hx hy
    rw [hsp x y hx hy]
    have : y < 0 + img.m_height := by omega
    rw [if_pos this]
  · rw [hlog, Nat.zero_add]

/-- C11: on a buffer that holds its pixels, `fill(f)` succeeds; afterwards the pixel at
every in-bounds `(x, y)` is `f(x, y)`, width, height and sentinel are unchanged, and `f` has
been called on exactly the `w*h` in-bounds coordinates, once each, in row-major order
(`y` outer, `x` inner). -/
theorem fill_row_major (img : BaseImage T) (hwf : img.WellFormed) (f : Nat → Nat → T) :
    ∃ r calls, img.fill f = .ok (r, calls) ∧
      r.m_width = img.m_width ∧ r.m_height = img.m_height ∧
      r.m_InvalidValue = img.m_InvalidValue ∧ r.WellFormed ∧
      (∀ x y, x < img.m_width → y < img.m_height → r.getPixel x y = .ok (f x y)) ∧
      calls = rowMajorCoordinates img.m_width img.m_height ∧
      calls.length = img.m_width * img.m_height := by
  obtain ⟨r, calls, h, hrwf, hrf, hp, hc⟩ := fill_spec img hwf f
  refine ⟨r, calls, h, hrf.1, hrf.2.1, hrf.2.2.1, hrwf, hp, hc, ?_⟩
  rw [hc]
  exact rowMajorCoordinates_length img.m_width img.m_height

/-- Witness of C11: filling the 2x2 example buffer with `x + y`. -/
theorem fill_row_major_witness :
    exampleImage.WellFormed ∧
      ∃ r calls, exampleImage.fill (fun x y => x + y) = .ok (r, calls) ∧
        r.getPixel 1 1 = .ok 2 ∧ calls = [(0, 0), (1, 0), (0, 1), (1, 1)] := by
  refine ⟨by decide, ?_⟩
  obtain ⟨r, calls, h, _, _, _, _, hp, hc, _⟩ :=
    fill_row_major exampleImage (by decide) (fun x y => x + y)
  exact ⟨r, calls, h, hp 1 1 (by decide) (by decide), hc.trans rfl⟩

/-! ### Flipping -/

/-- Exchanging two in-bounds pixels succeeds and changes nothing else. -/
theorem WellFormed.swapPixels_spec {img : BaseImage T} (hwf : img.WellFormed)
    {x y x2 y2 : Nat} (hx : x < img.m_width) (hy : y < img.m_height)
    (hx2 : x2 < img.m_width) (hy2 : y2 < img.m_height) :
    ∃ r, img.swapPixels x y x2 y2 = .ok r ∧ r.WellFormed ∧ SameFrame r img ∧
      ∀ x' y', x' < img.m_width → y' < img.m_height →
        r.getPixel x' y' =
          if x' = x2 ∧ y' = y2 then img.getPixel x y
          else if x' = x ∧ y' = y then img.getPixel x2 y2
          else img.getPixel x' y' := by
  obtain ⟨tmp, htmp⟩ := hwf.getPixel_ok hx hy
  obtain ⟨v, hv⟩ := hwf.getPixel_ok hx2 hy2
  obtain ⟨r1, hr1, hr1wf, hr1f, hr1p⟩ := hwf.setPixel_spec hx hy v
  have hx2' : x2 < r1.m_width := by rw [hr1f.1]; exact hx2
  have hy2' : y2 < r1.m_height := by rw [hr1f.2.1]; exact hy2
  obtain ⟨r2, hr2, hr2wf, hr2f, hr2p⟩ := hr1wf.setPixel_spec hx2' hy2' tmp
  refine ⟨r2, ?_, hr2wf, sameFrame_trans hr2f hr1f, ?_⟩
  · simp only [swapPixels, htmp, hv, hr1]
    exact hr2
  · intro x' y' hx' hy'
    rw [hr2p x' y' (by rw [hr1f.1]; exact hx') (by rw [hr1f.2.1]; exact hy'),
      hr1p x' y' hx' hy']
    by_cases h2 : x' = x2 ∧ y' = y2
    · rw [if_pos h2, if_pos h2, htmp]
    · rw [if_neg h2, if_neg h2]
      by_cases h1 : x' = x ∧ y' = y
      · rw [if_pos h1, if_pos h1, hv]
      · rw [if_neg h1, if_neg h1]

theorem getPixel_congr (img : BaseImage T) {a b c d : Nat} (h1 : a = c) (h2 : b = d) :
    img.getPixel a b = img.getPixel c d := by
  subst h1 h2
  rfl

/-- The inner loop of `flipY` for a row `y` of the upper half: rows `y` and `h - 1 - y`
change places. -/
theorem flipY_row (img : BaseImage T) (y : Nat) (hy : y < img.m_height / 2)
    (s : BaseImage T) (hs : s.WellFormed) (hsf : SameFrame s img) :
    ∃ r, forRange (fun x im1 => im1.swapPixels x y x (usub (usub im1.m_height y) 1))
        img.m_width 0 s = .ok r ∧ r.WellFormed ∧ SameFrame r img ∧
      ∀ x' y', x' < img.m_width → y' < img.m_height →
        r.getPixel x' y' =
          if y' = y ∨ y' = img.m_height - 1 - y then s.getPixel x' (img.m_height - 1 - y')
          else s.getPixel x' y' := by
  have hhR : img.m_height < UINT_RANGE := hsf.2.1 ▸ hs.2.1
  have hyh : y < img.m_height := by omega
  have key := forRange_induct
    (fun x t => t.WellFormed ∧ SameFrame t img ∧
      ∀ x' y', x' < img.m_width → y' < img.m_height →
        t.getPixel x' y' =
          if x' < x ∧ (y' = y ∨ y' = img.m_height - 1 - y) then
            s.getPixel x' (img.m_height - 1 - y')
          else s.getPixel x' y')
    (fun x im1 => im1.swapPixels x y x (usub (usub im1.m_height y) 1)) img.m_width 0 s
    (by
      intro i t _ hi ⟨htwf, htf, htp⟩
      have hi' : i < img.m_width := by omega
      have hidx : usub (usub t.m_height y) 1 = img.m_height - 1 - y := by
        rw [htf.2.1, usub_eq_sub (by omega) hhR, usub_eq_sub (by omega) (by omega)]
        omega
      have hy2 : img.m_height - 1 - y < img.m_height := by omega
      obtain ⟨r, hr, hrwf, hrf, hrp⟩ := htwf.swapPixels_spec
        (x := i) (y := y) (by rw [htf.1]; exact hi') (by rw [htf.2.1]; exact hyh)
        (by rw [htf.1]; exact hi') (by rw [htf.2.1]; exact hy2)
      refine ⟨r, by dsimp only; rw [hidx]; exact hr, hrwf, sameFrame_trans hrf htf, ?_⟩
      have e1 : t.getPixel i y = s.getPixel i y := by
        rw [htp i y hi' hyh]
        have : ¬ (i < i ∧ (y = y ∨ y = img.m_height - 1 - y)) := by omega
        rw [if_neg this]
      have e2 : t.getPixel i (img.m_height - 1 - y) = s.getPixel i (img.m_height - 1 - y) := by
        rw [htp i _ hi' hy2]
        have : ¬ (i < i ∧ (img.m_height - 1 - y = y ∨
            img.m_height - 1 - y = img.m_height - 1 - y)) := by omega
        rw [if_neg this]
      intro x' y' hx' hy'
      rw [hrp x' y' (by rw [htf.1]; exact hx') (by rw [htf.2.1]; exact hy'), e1, e2,
        htp x' y' hx' hy']
      split_ifs <;> first | (exfalso; omega) | exact getPixel_congr _ (by omega) (by omega))
    (by
      refine ⟨hs, hsf, ?_⟩
      intro x' y' _ _
      have : ¬ (x' < 0 ∧ (y' = y ∨ y' = img.m_height - 1 - y)) := by omega
      rw [if_neg this])
  obtain ⟨r, hr, hrwf, hrf, hrp⟩ := key
  refine ⟨r, hr, hrwf, hrf, ?_⟩
  intro x' y' hx' hy'
  rw [hrp x' y' hx' hy']
  split_ifs <;> first | (exfalso; omega) | exact getPixel_congr _ (by omega) (by omega)

/-- The member `flipY` on a buffer that holds its pixels. -/
theorem flipY_spec (img : BaseImage T) (hwf : img.WellFormed) :
    ∃ r, img.flipY = .ok r ∧ r.WellFormed ∧ SameFrame r img ∧
      ∀ x y, x < img.m_width → y < img.m_height →
        r.getPixel x y = img.getPixel x (img.m_height - 1 - y) := by
  have key := forRange_induct
    (fun y t => t.WellFormed ∧ SameFrame t img ∧
      ∀ x' y', x' < img.m_width → y' < img.m_height →
        t.getPixel x' y' =
          if y' < y ∨ img.m_height - 1 - y' < y then img.getPixel x' (img.m_height - 1 - y')
          else img.getPixel x' y')
    (fun y im =>
      forRange (fun x im1 => im1.swapPixels x y x (usub (usub im1.m_height y) 1))
        im.m_width 0 im)
    (img.m_height / 2) 0 img
    (by
      intro y t _ hy ⟨htwf, htf, htp⟩
      have hy' : y < img.m_height / 2 := by omega
      obtain ⟨r, hr, hrwf, hrf, hrp⟩ := flipY_row img y hy' t htwf htf
      refine ⟨r, by dsimp only; rw [htf.1]; exact hr, hrwf, hrf, ?_⟩
      intro x' y' hx' hy2
      have hy3 : img.m_height - 1 - y' < img.m_height := by omega
      rw [hrp x' y' hx' hy2, htp x' y' hx' hy2, htp x' _ hx' hy3]
      split_ifs <;> first | (exfalso; omega) | exact getPixel_congr _ (by omega) (by omega))
    (by
      refine ⟨hwf, ⟨rfl, rfl, rfl, rfl⟩, ?_⟩
      intro x' y' _ _
      have : ¬ (y' < 0 ∨ img.m_height - 1 - y' < 0) := by omega
      rw [if_neg this])
  obtain ⟨r, hr, hrwf, hrf, hrp⟩ := key
  refine ⟨r, hr, hrwf, hrf, ?_⟩
  intro x y hx hy
  rw [hrp x y hx hy]
  split_ifs <;> first | (exfalso; omega) | exact getPixel_congr _ (by omega) (by omega)

/-- The inner loop of `flipX` for the row `y`: the row is reversed. -/
theorem flipX_row (img : BaseImage T) (y : Nat) (hy : y < img.m_height)
    (s : BaseImage T) (hs : s.WellFormed) (hsf : SameFrame s img) :
    ∃ r, forRange (fun x im1 => im1.swapPixels x y (usub (usub im1.m_width x) 1) y)
        (img.m_width / 2) 0 s = .ok r ∧ r.WellFormed ∧ SameFrame r img ∧
      ∀ x' y', x' < img.m_width → y' < img.m_height →
        r.getPixel x' y' =
          if y' = y then s.getPixel (img.m_width - 1 - x') y' else s.getPixel x' y' := by
  have hwR : img.m_width < UINT_RANGE := hsf.1 ▸ hs.1
  have key := forRange_induct
    (fun x t => t.WellFormed ∧ SameFrame t img ∧
      ∀ x' y', x' < img.m_width → y' < img.m_height →
        t.getPixel x' y' =
          if y' = y ∧ (x' < x ∨ img.m_width - 1 - x' < x) then
            s.getPixel (img.m_width - 1 - x') y'
          else s.getPixel x' y')
    (fun x im1 => im1.swapPixels x y (usub (usub im1.m_width x) 1) y) (img.m_width / 2) 0 s
    (by
      intro i t _ hi ⟨htwf, htf, htp⟩
      have hi' : i < img.m_width := by omega
      have hidx : usub (usub t.m_width i) 1 = img.m_width - 1 - i := by
        rw [htf.1, usub_eq_sub (by omega) hwR, usub_eq_sub (by omega) (by omega)]
        omega
      have hx2 : img.m_width - 1 - i < img.m_width := by omega
      obtain ⟨r, hr, hrwf, hrf, hrp⟩ := htwf.swapPixels_spec
        (x := i) (y := y) (by rw [htf.1]; exact hi') (by rw [htf.2.1]; exact hy)
        (by rw [htf.1]; exact hx2) (by rw [htf.2.1]; exact hy)
      refine ⟨r, by dsimp only; rw [hidx]; exact hr, hrwf, sameFrame_trans hrf htf, ?_⟩
      have e1 : t.getPixel i y = s.getPixel i y := by
        rw [htp i y hi' hy]
        have : ¬ (y = y ∧ (i < i ∨ img.m_width - 1 - i < i)) := by omega
        rw [if_neg this]
      have e2 : t.getPixel (img.m_width - 1 - i) y = s.getPixel (img.m_width - 1 - i) y := by
        rw [htp _ y hx2 hy]
        have : ¬ (y = y ∧ (img.m_width - 1 - i < i ∨
            img.m_width - 1 - (img.m_width - 1 - i) < i)) := by omega
        rw [if_neg this]
      intro x' y' hx' hy'
      rw [hrp x' y' (by rw [htf.1]; exact hx') (by rw [htf.2.1]; exact hy'), e1, e2,
        htp x' y' hx' hy']
      split_ifs <;> first | (exfalso; omega) | exact getPixel_congr _ (by omega) (by omega))
    (by
      refine ⟨hs, hsf, ?_⟩
      intro x' y' _ _
      have : ¬ (y' = y ∧ (x' < 0 ∨ img.m_width - 1 - x' < 0)) := by omega
      rw [if_neg this])
  obtain ⟨r, hr, hrwf, hrf, hrp⟩ := key
  refine ⟨r, hr, hrwf, hrf, ?_⟩
  intro x' y' hx' hy'
  rw [hrp x' y' hx' hy']
  split_ifs <;> first | (exfalso; omega) | exact getPixel_congr _ (by omega) (by omega)

/-- The member `flipX` on a buffer that holds its pixels. -/
theorem flipX_spec (img : BaseImage T) (hwf : img.WellFormed) :
    ∃ r, img.flipX = .ok r ∧ r.WellFormed ∧ SameFrame r img ∧
      ∀ x y, x < img.m_width → y < img.m_height →
        r.getPixel x y = img.getPixel (img.m_width - 1 - x) y := by
  have key := forRange_induct
    (fun y t => t.WellFormed ∧ SameFrame t img ∧
      ∀ x' y', x' < img.m_width → y' < img.m_height →
        t.getPixel x' y' =
          if y' < y then img.getPixel (img.m_width - 1 - x') y' else img.getPixel x' y')
    (fun y im =>
      forRange (fun x im1 => im1.swapPixels x y (usub (usub im1.m_width x) 1) y)
        (im.m_width / 2) 0 im)
    img.m_height 0 img
    (by
      intro y t _ hy ⟨htwf, htf, htp⟩
      have hy' : y < img.m_height := by omega
      obtain ⟨r, hr, hrwf, hrf, hrp⟩ := flipX_row img y hy' t htwf htf
      refine ⟨r, by dsimp only; rw [htf.1]; exact hr, hrwf, hrf, ?_⟩
      intro x' y' hx' hy2
      have hx3 : img.m_width - 1 - x' < img.m_width := by omega
      rw [hrp x' y' hx' hy2, htp x' y' hx' hy2, htp _ y' hx3 hy2]
      split_ifs <;> first | (exfalso; omega) | exact getPixel_congr _ (by omega) (by omega))
    (by
      refine ⟨hwf, ⟨rfl, rfl, rfl, rfl⟩, ?_⟩
      intro x' y' _ _
      have : ¬ y' < 0 := by omega
      rw [if_neg this])
  obtain ⟨r, hr, hrwf, hrf, hrp⟩ := key
  refine ⟨r, hr, hrwf, hrf, ?_⟩
  intro x y hx hy
  rw [hrp x y hx hy]
  split_ifs <;> first | (exfalso; omega) | exact getPixel_congr _ (by omega) (by omega)

/-- C12: on a buffer that holds its pixels, of any width and height (odd ones and zero
included), `flipX` and `flipY` succeed; after `flipX` the pixel at every in-bounds `(x, y)`
is the former pixel at `(w - 1 - x, y)`, after `flipY` it is the former pixel at
`(x, h - 1 - y)`; width, height and sentinel are unchanged. -/
theorem flipX_flipY_reflect (img : BaseImage T) (hwf : img.WellFormed) :
    (∃ r, img.flipX = .ok r ∧ r.m_width = img.m_width ∧ r.m_height = img.m_height ∧
      r.m_InvalidValue = img.m_InvalidValue ∧
      ∀ x y, x < img.m_width → y < img.m_height →
        (∃ v, r.getPixel x y = .ok v) ∧
          r.getPixel x y = img.getPixel (img.m_width - 1 - x) y) ∧
    (∃ r, img.flipY = .ok r ∧ r.m_width = img.m_width ∧ r.m_height = img.m_height ∧
      r.m_InvalidValue = img.m_InvalidValue ∧
      ∀ x y, x < img.m_width → y < img.m_height →
        (∃ v, r.getPixel x y = .ok v) ∧
          r.getPixel x y = img.getPixel x (img.m_height - 1 - y)) := by
  obtain ⟨rx, hrx, hrxwf, hrxf, hrxp⟩ := flipX_spec img hwf
  obtain ⟨ry, hry, hrywf, hryf, hryp⟩ := flipY_spec img hwf
  refine ⟨⟨rx, hrx, hrxf.1, hrxf.2.1, hrxf.2.2.1, fun x y hx hy => ⟨?_, hrxp x y hx hy⟩⟩,
    ⟨ry, hry, hryf.1, hryf.2.1, hryf.2.2.1, fun x y hx hy => ⟨?_, hryp x y hx hy⟩⟩⟩
  · exact hrxwf.getPixel_ok (by rw [hrxf.1]; exact hx) (by rw [hrxf.2.1]; exact hy)
  · exact hrywf.getPixel_ok (by rw [hryf.1]; exact hx) (by rw [hryf.2.1]; exact hy)

/-- Witness of C12 on the 2x2 example buffer. -/
theorem flipX_flipY_reflect_witness :
    exampleImage.WellFormed ∧
      (∃ r, exampleImage.flipX = .ok r ∧ r.getPixel 0 0 = .ok 20) ∧
      (∃ r, exampleImage.flipY = .ok r ∧ r.getPixel 0 0 = .ok 30) := by
  refine ⟨by decide, ?_, ?_⟩
  · obtain ⟨r, hr, _, _, _, hp⟩ := (flipX_flipY_reflect exampleImage (by decide)).1
    exact ⟨r, hr, (hp 0 0 (by decide) (by decide)).2.trans rfl⟩
  · obtain ⟨r, hr, _, _, _, hp⟩ := (flipX_flipY_reflect exampleImage (by decide)).2
    exact ⟨r, hr, (hp 0 0 (by decide) (by decide)).2.trans rfl⟩

/-! ### Fractional coordinates -/

theorem floorUInt_eq {x : ℚ} {n : Nat} (h1 : (n : ℚ) ≤ x) (h2 : x < (n : ℚ) + 1)
    (hn : n < UINT_RANGE) : floorUInt x = n := by
  have : Int.floor x = (n : Int) := by
    rw [Int.floor_eq_iff]
    exact ⟨by exact_mod_cast h1, by exact_mod_cast h2⟩
  unfold floorUInt
  rw [this, Int.toNat_natCast, Nat.mod_eq_of_lt hn]

theorem ceilUInt_eq {x : ℚ} {n : Nat} (h1 : (n : ℚ) - 1 < x) (h2 : x ≤ (n : ℚ))
    (hn : n < UINT_RANGE) : ceilUInt x = n := by
  have : Int.ceil x = (n : Int) := by
    rw [Int.ceil_eq_iff]
    exact ⟨by exact_mod_cast h1, by exact_mod_cast h2⟩
  unfold ceilUInt
  rw [this, Int.toNat_natCast, Nat.mod_eq_of_lt hn]

/-! ### Interpolation -/

/-- C13 (failing input): on the 2x2 buffer with pixel `x` at `(x, y)`, a buffer of width
and height 2, `getInterpolated(1/4, 3/4)` returns `3/4`: the `y` fraction has been used to
blend the columns.  The bilinear interpolation of the four neighbours is `1/4`. -/
theorem getInterpolated_fractions_exchanged :
    exampleRamp.getInterpolated (1 / 4) (3 / 4) = .ok (3 / 4) ∧
      bilinearSpec exampleRamp (1 / 4) (3 / 4) = .ok (1 / 4) := by
  have hx0 : floorUInt (1 / 4) = 0 :=
    floorUInt_eq (n := 0) (by norm_num) (by norm_num) (by decide)
  have hx1 : ceilUInt (1 / 4) = 1 :=
    ceilUInt_eq (n := 1) (by norm_num) (by norm_num) (by decide)
  have hy0 : floorUInt (3 / 4) = 0 :=
    floorUInt_eq (n := 0) (by norm_num) (by norm_num) (by decide)
  have hy1 : ceilUInt (3 / 4) = 1 :=
    ceilUInt_eq (n := 1) (by norm_num) (by norm_num) (by decide)
  have p00 : exampleRamp.getPixel 0 0 = .ok 0 := rfl
  have p10 : exampleRamp.getPixel 1 0 = .ok 1 := rfl
  have p01 : exampleRamp.getPixel 0 1 = .ok 0 := rfl
  have p11 : exampleRamp.getPixel 1 1 = .ok 1 := rfl
  constructor
  · simp only [getInterpolated, hx0, hx1, hy0, hy1, p00, p10, p01, p11, lerp]
    norm_num
  · simp only [bilinearSpec, hx0, hx1, hy0, hy1, p00, p10, p01, p11, lerp]
    norm_num

/-- The value of `getInterpolated(3/2, 3/2)` on any buffer whose pixel at `(x, y)` is
`x + y` for `x, y < 4`. -/
theorem getInterpolated_midpoint (r : BaseImage ℚ)
    (hp : ∀ x y, x < 4 → y < 4 → r.getPixel x y = .ok ((x : ℚ) + (y : ℚ))) :
    r.getInterpolated (3 / 2) (3 / 2) = .ok 3 := by
  have h0 : floorUInt (3 / 2) = 1 :=
    floorUInt_eq (n := 1) (by norm_num) (by norm_num) (by decide)
  have h1 : ceilUInt (3 / 2) = 2 :=
    ceilUInt_eq (n := 2) (by norm_num) (by norm_num) (by decide)
  simp only [getInterpolated, h0, h1, hp 1 1 (by decide) (by decide),
    hp 2 1 (by decide) (by decide), hp 1 2 (by decide) (by decide),
    hp 2 2 (by decide) (by decide), lerp]
  norm_num

theorem sized_wellFormed' [FormatFromTemplate T] {width height : Nat} (inv : T)
    (fresh : Nat → T) (hw : width < UINT_RANGE) (hh : height < UINT_RANGE)
    (hc : width * height < UINT_RANGE) : (sized width height inv fresh).WellFormed := by
  obtain ⟨h1, h2, l, h3, h4⟩ := sized_wellFormed inv fresh hw hh hc
  refine ⟨by rw [h1]; exact hw, by rw [h2]; exact hh, ?_, ?_⟩
  · unfold storageLen; rw [h3]; dsimp only; rw [h4]; exact hc
  · unfold storageLen; rw [h3]; dsimp only; rw [h4, h1, h2]

/-- Counterexample to C14 as stated: on the 4x4 buffer filled with `x + y` the call
`getInterpolated(1.5, 1.5)` returns 3, which is not 4. -/
theorem getInterpolated_midpoint_not_four :
    ∃ r calls, (sized 4 4 (0 : ℚ) (fun _ => 0)).fill (fun x y => (x : ℚ) + (y : ℚ))
        = .ok (r, calls) ∧
      r.getInterpolated (3 / 2) (3 / 2) = .ok 3 ∧
      r.getInterpolated (3 / 2) (3 / 2) ≠ .ok 4 := by
  have hwf : (sized 4 4 (0 : ℚ) (fun _ => 0)).WellFormed :=
    sized_wellFormed' 0 _ (by decide) (by decide) (by decide)
  obtain ⟨r, calls, h, _, _, hp, _⟩ :=
    fill_spec (sized 4 4 (0 : ℚ) (fun _ => 0)) hwf (fun x y => (x : ℚ) + (y : ℚ))
  have h3 := getInterpolated_midpoint r hp
  refine ⟨r, calls, h, h3, ?_⟩
  rw [h3]
  intro h4
  injection h4 with h4
  norm_num at h4

/-- C14 (amended): on every 4x4 buffer of exact scalars filled by
`fill((x, y) -> x + y)`, whatever it held before, `getInterpolated(1.5, 1.5)`
returns 3. -/
theorem getInterpolated_midpoint_is_three (inv : ℚ) (fresh : Nat → ℚ) :
    ∃ r calls, (sized 4 4 inv fresh).fill (fun x y => (x : ℚ) + (y : ℚ)) = .ok (r, calls) ∧
      r.m_width = 4 ∧ r.m_height = 4 ∧
      (∀ x y, x < 4 → y < 4 → r.getPixel x y = .ok ((x : ℚ) + (y : ℚ))) ∧
      r.getInterpolated (3 / 2) (3 / 2) = .ok 3 := by
  have hwf : (sized 4 4 inv fresh).WellFormed :=
    sized_wellFormed' inv fresh (by decide) (by decide) (by decide)
  obtain ⟨r, calls, h, _, hrf, hp, _⟩ :=
    fill_spec (sized 4 4 inv fresh) hwf (fun x y => (x : ℚ) + (y : ℚ))
  exact ⟨r, calls, h, hrf.1, hrf.2.1, hp, getInterpolated_midpoint r hp⟩

/-! ### Normalized coordinates -/

theorem round_scaled_bounds {u : ℚ} (n : Nat) (h0 : 0 ≤ u) (h1 : u ≤ 1) :
    0 ≤ round (u * (n : ℚ)) ∧ round (u * (n : ℚ)) ≤ (n : Int) := by
  have hn : (0 : ℚ) ≤ (n : ℚ) := Nat.cast_nonneg n
  have hun : u * (n : ℚ) ≤ (n : ℚ) := by
    calc u * (n : ℚ) ≤ 1 * (n : ℚ) := mul_le_mul_of_nonneg_right h1 hn
      _ = (n : ℚ) := one_mul _
  have hpos : 0 ≤ u * (n : ℚ) := mul_nonneg h0 hn
  rw [round_eq]
  constructor
  · exact Int.floor_nonneg.mpr (by linarith)
  · have : Int.floor (u * (n : ℚ) + 1 / 2) < (n : Int) + 1 := by
      rw [Int.floor_lt]
      push_cast
      linarith
    omega

/-- For a coordinate in `[0, 1]` and a dimension of at least 1, the index of the
normalized access is the rounded product and lies inside the dimension. -/
theorem normToIndex_spec {u : ℚ} {dim : Nat} (h0 : 0 ≤ u) (h1 : u ≤ 1) (hd : 0 < dim)
    (hR : dim < UINT_RANGE) :
    normToIndex u dim = (round (u * ((dim - 1 : Nat) : ℚ))).toNat ∧
      normToIndex u dim < dim := by
  have hsub : usub dim 1 = dim - 1 := usub_eq_sub hd hR
  obtain ⟨hlo, hhi⟩ := round_scaled_bounds (dim - 1) h0 h1
  have hlt : (round (u * ((dim - 1 : Nat) : ℚ))).toNat < dim := by omega
  unfold normToIndex roundUInt
  rw [hsub, Nat.mod_eq_of_lt (by omega)]
  exact ⟨rfl, hlt⟩

theorem normToIndex_one {dim : Nat} (hd : 0 < dim) (hR : dim < UINT_RANGE) :
    normToIndex 1 dim = dim - 1 := by
  have hsub : usub dim 1 = dim - 1 := usub_eq_sub hd hR
  unfold normToIndex roundUInt
  rw [hsub, one_mul, round_natCast, Int.toNat_natCast, Nat.mod_eq_of_lt (by omega)]

theorem assignPixel_ok_eq (r : BaseImage T) (x y : Nat) {val : Except Error T} {v : T}
    (h : val = .ok v) :
    r.assignPixel x y val = (val.toOption).elim (.ok r) (fun w => r.setPixel x y w) := by
  subst h
  rfl

theorem normIndexExact_spec {j newDim dim : Nat} (hj : j < newDim) (hn : 2 ≤ newDim)
    (hnR : newDim < UINT_RANGE) (hd : 0 < dim) (hR : dim < UINT_RANGE) :
    normIndexExact j newDim dim =
        (round (((j : ℚ) / ((newDim - 1 : Nat) : ℚ)) * ((dim - 1 : Nat) : ℚ))).toNat ∧
      normIndexExact j newDim dim < dim := by
  have hsub : usub newDim 1 = newDim - 1 := usub_eq_sub (by omega) hnR
  have hpos : (0 : ℚ) < ((newDim - 1 : Nat) : ℚ) := by
    have : 0 < newDim - 1 := by omega
    exact_mod_cast this
  have h0 : (0 : ℚ) ≤ (j : ℚ) / ((newDim - 1 : Nat) : ℚ) :=
    div_nonneg (Nat.cast_nonneg j) (le_of_lt hpos)
  have h1 : (j : ℚ) / ((newDim - 1 : Nat) : ℚ) ≤ 1 := by
    rw [div_le_one hpos]
    have : j ≤ newDim - 1 := by omega
    exact_mod_cast this
  unfold normIndexExact
  rw [hsub]
  exact normToIndex_spec h0 h1 hd hR

theorem normIndexExact_zero (newDim dim : Nat) : normIndexExact 0 newDim dim = 0 := by
  simp [normIndexExact, normToIndex, roundUInt]

theorem normIndexExact_last {newDim dim : Nat} (hn : 2 ≤ newDim) (hnR : newDim < UINT_RANGE)
    (hd : 0 < dim) (hR : dim < UINT_RANGE) :
    normIndexExact (newDim - 1) newDim dim = dim - 1 := by
  have hsub : usub newDim 1 = newDim - 1 := usub_eq_sub (by omega) hnR
  have hpos : ((newDim - 1 : Nat) : ℚ) ≠ 0 := by
    have : newDim - 1 ≠ 0 := by omega
    exact_mod_cast this
  unfold normIndexExact
  rw [hsub, div_self hpos]
  exact normToIndex_one hd hR

/-- Nearest-neighbour resampling to a size whose pixel count is an `unsigned int`: with
coordinates as exact numbers, on a non-empty buffer that holds its pixels and for a new
size `newWidth >= 2`, `newHeight >= 2` that differs from the current one and whose pixel
count is below `2^32`, `reSample` succeeds; the buffer then has the new width and
height and the old sentinel, its pixel at every `(j, i)` is the old pixel at
`(round((j/(newWidth-1))*(w-1)), round((i/(newHeight-1))*(h-1)))`, and its four corner
pixels are the four corner pixels of the old buffer. -/
theorem reSample_nearest_neighbour [FormatFromTemplate T] (img : BaseImage T)
    (hwf : img.WellFormed) (hw : 0 < img.m_width) (hh : 0 < img.m_height)
    (newWidth newHeight : Nat) (hnw : 2 ≤ newWidth) (hnh : 2 ≤ newHeight)
    (hcount : newWidth * newHeight < UINT_RANGE)
    (hne : img.m_width ≠ newWidth ∨ img.m_height ≠ newHeight) (inv : T) (fresh : Nat → T) :
    ∃ r, img.reSample normIndexExact newWidth newHeight inv fresh = .ok r ∧
      r.m_width = newWidth ∧ r.m_height = newHeight ∧
      r.m_InvalidValue = img.m_InvalidValue ∧ r.WellFormed ∧
      (∀ j i, j < newWidth → i < newHeight →
        (∃ v, r.getPixel j i = .ok v) ∧
        r.getPixel j i =
          img.getPixel
            (round (((j : ℚ) / ((newWidth - 1 : Nat) : ℚ)) *
              ((img.m_width - 1 : Nat) : ℚ))).toNat
            (round (((i : ℚ) / ((newHeight - 1 : Nat) : ℚ)) *
              ((img.m_height - 1 : Nat) : ℚ))).toNat) ∧
      r.getPixel 0 0 = img.getPixel 0 0 ∧
      r.getPixel (newWidth - 1) 0 = img.getPixel (img.m_width - 1) 0 ∧
      r.getPixel 0 (newHeight - 1) = img.getPixel 0 (img.m_height - 1) ∧
      r.getPixel (newWidth - 1) (newHeight - 1) =
        img.getPixel (img.m_width - 1) (img.m_height - 1) := by
  have hnwR : newWidth < UINT_RANGE := by
    have : newWidth * 1 ≤ newWidth * newHeight := Nat.mul_le_mul_left _ (by omega)
    omega
  have hnhR : newHeight < UINT_RANGE := by
    have : 1 * newHeight ≤ newWidth * newHeight := Nat.mul_le_mul_right _ (by omega)
    omega
  have hs0 := sized_wellFormed inv fresh hnwR hnhR hcount
  have hres : ((sized newWidth newHeight inv fresh).setInvalidValue
      img.m_InvalidValue).WellFormed := sized_wellFormed' inv fresh hnwR hnhR hcount
  have hresW : ((sized newWidth newHeight inv fresh).setInvalidValue
      img.m_InvalidValue).m_width = newWidth := hs0.1
  have hresH : ((sized newWidth newHeight inv fresh).setInvalidValue
      img.m_InvalidValue).m_height = newHeight := hs0.2.1
  have hidx : ∀ j i, j < newWidth → i < newHeight →
      ∃ v, img.getPixel (normIndexExact j newWidth img.m_width)
        (normIndexExact i newHeight img.m_height) = .ok v := fun j i hj hi =>
    hwf.getPixel_ok (normIndexExact_spec hj hnw hnwR hw hwf.1).2
      (normIndexExact_spec hi hnh hnhR hh hwf.2.1).2
  have key := assignLoop_spec
    ((sized newWidth newHeight inv fresh).setInvalidValue img.m_InvalidValue) hres
    (fun i j r1 => r1.assignPixel j i
      (img.getPixel (normIndexExact j newWidth img.m_width)
        (normIndexExact i newHeight img.m_height)))
    (fun _ _ => newWidth)
    (fun j i => (img.getPixel (normIndexExact j newWidth img.m_width)
        (normIndexExact i newHeight img.m_height)).toOption)
    (fun _ _ _ => hresW.symm)
    (fun i j r1 hi hj _ _ => by
      obtain ⟨v, hv⟩ := hidx j i (hresW ▸ hj) (hresH ▸ hi)
      exact assignPixel_ok_eq r1 j i hv)
  rw [hresH, hresW] at key
  obtain ⟨r, hr, hrwf, hrf, hrp⟩ := key
  have hpix : ∀ j i, j < newWidth → i < newHeight →
      r.getPixel j i = img.getPixel (normIndexExact j newWidth img.m_width)
        (normIndexExact i newHeight img.m_height) := by
    intro j i hj hi
    obtain ⟨v, hv⟩ := hidx j i hj hi
    rw [hrp j i hj hi]
    dsimp only
    rw [hv]
    rfl
  refine ⟨r, ?_, hrf.1.trans hresW, hrf.2.1.trans hresH, hrf.2.2.1, hrwf, ?_, ?_, ?_, ?_, ?_⟩
  · unfold reSample
    rw [if_pos hne]
    dsimp only
    rw [hr]
    rfl
  · intro j i hj hi
    refine ⟨?_, ?_⟩
    · rw [hpix j i hj hi]; exact hidx j i hj hi
    · rw [hpix j i hj hi, (normIndexExact_spec hj hnw hnwR hw hwf.1).1,
        (normIndexExact_spec hi hnh hnhR hh hwf.2.1).1]
  · rw [hpix 0 0 (by omega) (by omega), normIndexExact_zero, normIndexExact_zero]
  · rw [hpix (newWidth - 1) 0 (by omega) (by omega), normIndexExact_zero,
      normIndexExact_last hnw hnwR hw hwf.1]
  · rw [hpix 0 (newHeight - 1) (by omega) (by omega), normIndexExact_zero,
      normIndexExact_last hnh hnhR hh hwf.2.1]
  · rw [hpix (newWidth - 1) (newHeight - 1) (by omega) (by omega),
      normIndexExact_last hnw hnwR hw hwf.1, normIndexExact_last hnh hnhR hh hwf.2.1]

/-- The 2x2 buffer `10 20 / 30 40` resampled to 3x3 keeps its corners. -/
theorem reSample_nearest_neighbour_witness :
    exampleImage.WellFormed ∧
      ∃ r, exampleImage.reSample normIndexExact 3 3 0 (fun _ => 0) = .ok r ∧
        r.m_width = 3 ∧ r.m_height = 3 ∧ r.getPixel 2 0 = .ok 20 ∧
        r.getPixel 2 2 = .ok 40 := by
  refine ⟨by decide, ?_⟩
  obtain ⟨r, hr, hw, hh, _, _, _, _, hc10, _, hc11⟩ :=
    reSample_nearest_neighbour exampleImage (by decide) (by decide) (by decide) 3 3
      (by decide) (by decide) (by decide) (Or.inl (by decide)) 0 (fun _ => 0)
  exact ⟨r, hr, hw, hh, hc10.trans rfl, hc11.trans rfl⟩

/-! ### Mip-mapping -/

theorem allocate_wellFormed (result : BaseImage T) (hr : result.WellFormed) {W H : Nat}
    (fresh : Nat → T) (hc : W * H < UINT_RANGE) (hW : W < UINT_RANGE) (hH : H < UINT_RANGE) :
    (result.allocate W H fresh).WellFormed ∧
      (result.allocate W H fresh).m_InvalidValue = result.m_InvalidValue ∧
      ((0 < W ∧ 0 < H) → (result.allocate W H fresh).m_width = W ∧
        (result.allocate W H fresh).m_height = H) ∧
      (¬ (0 < W ∧ 0 < H) → IsEmpty (result.allocate W H fresh)) := by
  unfold allocate
  by_cases h0 : W = 0 ∨ H = 0
  · rw [if_pos h0]
    refine ⟨?_, rfl, ?_, ?_⟩
    · refine ⟨?_, ?_, ?_, ?_⟩ <;> simp [free, SAFE_DELETE_ARRAY, storageLen, UINT_RANGE]
    · intro h; omega
    · intro _; exact ⟨rfl, rfl, rfl⟩
  · rw [if_neg h0]
    by_cases h1 : result.m_width ≠ W ∨ result.m_height ≠ H
    · rw [if_pos h1]
      refine ⟨?_, rfl, fun _ => ⟨rfl, rfl⟩, fun h => by omega⟩
      refine ⟨hW, hH, ?_, ?_⟩
      · show ((List.range ((H * W) % UINT_RANGE)).map fresh).length < UINT_RANGE
        simp only [List.length_map, List.length_range]
        exact Nat.mod_lt _ (by decide)
      · show ((List.range ((H * W) % UINT_RANGE)).map fresh).length = W * H
        simp only [List.length_map, List.length_range]
        rw [Nat.mul_comm, Nat.mod_eq_of_lt hc]
    · rw [if_neg h1]
      have hw : result.m_width = W := by
        by_contra hne; exact h1 (Or.inl hne)
      have hh : result.m_height = H := by
        by_contra hne; exact h1 (Or.inr hne)
      exact ⟨hr, rfl, fun _ => ⟨hw, hh⟩, fun h => by omega⟩

theorem half_product_lt {w h : Nat} (hc : w * h < UINT_RANGE) :
    (w / 2) * (h / 2) < UINT_RANGE :=
  Nat.lt_of_le_of_lt (Nat.mul_le_mul (Nat.div_le_self _ _) (Nat.div_le_self _ _)) hc

theorem pixelDiv_of_ne {F : Type} [Field F] [DecidableEq F] (divZero a : F) {b : F}
    (hb : b ≠ 0) : pixelDiv divZero a b = a / b := by
  simp [pixelDiv, hb]

/-- The four pixels of the 2x2 block behind the result pixel `(x, y)` exist. -/
theorem mipMap_block_ok (img : BaseImage T) (hwf : img.WellFormed) {x y : Nat}
    (hx : x < img.m_width / 2) (hy : y < img.m_height / 2) :
    uadd (umul 2 x) 0 = 2 * x ∧ uadd (umul 2 x) 1 = 2 * x + 1 ∧
    uadd (umul 2 y) 0 = 2 * y ∧ uadd (umul 2 y) 1 = 2 * y + 1 ∧
    ∃ a b c d, img.getPixel (2 * x) (2 * y) = .ok a ∧
      img.getPixel (2 * x + 1) (2 * y) = .ok b ∧
      img.getPixel (2 * x) (2 * y + 1) = .ok c ∧
      img.getPixel (2 * x + 1) (2 * y + 1) = .ok d := by
  have hwR := hwf.1
  have hhR := hwf.2.1
  simp only [UINT_RANGE] at hwR hhR
  have hx1 : 2 * x + 1 < img.m_width := by omega
  have hy1 : 2 * y + 1 < img.m_height := by omega
  obtain ⟨a, ha⟩ := hwf.getPixel_ok (x := 2 * x) (y := 2 * y) (by omega) (by omega)
  obtain ⟨b, hb⟩ := hwf.getPixel_ok (x := 2 * x + 1) (y := 2 * y) hx1 (by omega)
  obtain ⟨c, hc⟩ := hwf.getPixel_ok (x := 2 * x) (y := 2 * y + 1) (by omega) hy1
  obtain ⟨d, hd⟩ := hwf.getPixel_ok (x := 2 * x + 1) (y := 2 * y + 1) hx1 hy1
  refine ⟨?_, ?_, ?_, ?_, a, b, c, d, ha, hb, hc, hd⟩ <;>
    simp only [uadd, umul, UINT_RANGE] <;> omega

/-- The two loops of `mipMap` for a body that assigns the result pixel `(x, y)` the value
`gv x y`: the size of the result and its pixels. -/
theorem mipMap_loop (img result : BaseImage T) (hwf : img.WellFormed)
    (hr : result.WellFormed) (fresh : Nat → T)
    (body : Nat → Nat → BaseImage T → Except Error (BaseImage T)) (gv : Nat → Nat → T)
    (hbody : ∀ y x r1, x < img.m_width / 2 → y < img.m_height / 2 →
      r1.m_InvalidValue = img.m_InvalidValue → body y x r1 = r1.setPixel x y (gv x y)) :
    ∃ r, forRange (fun y r => forRange (body y) r.m_width 0 r)
        ((result.allocate (img.m_width / 2) (img.m_height / 2) fresh).setInvalidValue
          img.m_InvalidValue).m_height 0
        ((result.allocate (img.m_width / 2) (img.m_height / 2) fresh).setInvalidValue
          img.m_InvalidValue) = .ok r ∧
      r.WellFormed ∧ r.m_InvalidValue = img.m_InvalidValue ∧
      ((0 < img.m_width / 2 ∧ 0 < img.m_height / 2) →
        r.m_width = img.m_width / 2 ∧ r.m_height = img.m_height / 2) ∧
      (¬ (0 < img.m_width / 2 ∧ 0 < img.m_height / 2) → IsEmpty r) ∧
      ∀ x y, x < r.m_width → y < r.m_height →
        x < img.m_width / 2 ∧ y < img.m_height / 2 ∧ r.getPixel x y = .ok (gv x y) := by
  have hW : img.m_width / 2 < UINT_RANGE :=
    Nat.lt_of_le_of_lt (Nat.div_le_self _ _) hwf.1
  have hH : img.m_height / 2 < UINT_RANGE :=
    Nat.lt_of_le_of_lt (Nat.div_le_self _ _) hwf.2.1
  obtain ⟨hawf, _, hadim, haempty⟩ :=
    allocate_wellFormed result hr fresh (half_product_lt hwf.count_lt) hW hH
  generalize hr0 : (result.allocate (img.m_width / 2) (img.m_height / 2) fresh) = a
    at hawf hadim haempty
  have h0wf : (a.setInvalidValue img.m_InvalidValue).WellFormed := hawf
  by_cases hpos : 0 < img.m_width / 2 ∧ 0 < img.m_height / 2
  · obtain ⟨haw, hah⟩ := hadim hpos
    have h0w : (a.setInvalidValue img.m_InvalidValue).m_width = img.m_width / 2 := haw
    have h0h : (a.setInvalidValue img.m_InvalidValue).m_height = img.m_height / 2 := hah
    obtain ⟨r, hrun, hrwf, hrf, hrp⟩ := assignLoop_spec
      (a.setInvalidValue img.m_InvalidValue) h0wf body (fun _ r => r.m_width)
      (fun x y => some (gv x y)) (fun _ r hf => hf.1)
      (fun y x r1 hy hx _ hf => by
        rw [hbody y x r1 (h0w ▸ hx) (h0h ▸ hy) (hf.2.2.1.trans rfl)]
        rfl)
    refine ⟨r, hrun, hrwf, hrf.2.2.1.trans rfl, fun _ => ⟨hrf.1.trans h0w, hrf.2.1.trans h0h⟩,
      fun h => absurd hpos h, ?_⟩
    intro x y hx hy
    have hx' : x < img.m_width / 2 := by rw [← h0w, ← hrf.1]; exact hx
    have hy' : y < img.m_height / 2 := by rw [← h0h, ← hrf.2.1]; exact hy
    refine ⟨hx', hy', ?_⟩
    rw [hrp x y (h0w ▸ hx') (h0h ▸ hy')]
    rfl
  · obtain ⟨hew, heh, hed⟩ := haempty hpos
    have h0h : (a.setInvalidValue img.m_InvalidValue).m_height = 0 := heh
    refine ⟨a.setInvalidValue img.m_InvalidValue, by rw [h0h]; rfl, h0wf, rfl,
      fun h => absurd h hpos, fun _ => ⟨hew, heh, hed⟩, ?_⟩
    intro x y hx _
    have : (a.setInvalidValue img.m_InvalidValue).m_width = 0 := hew
    omega

/-- Counterexample to C16 as stated: the mip-map of the 1x4 example buffer has height 0,
not `floor(4/2) = 2`, because `allocate(0, 2)` empties the result. -/
theorem mipMap_thin_source_result_empty :
    ∃ r, exampleColumn.mipMap (exactOps 0) (mkDefault 0) false (fun _ => 0) = .ok r ∧
      r.m_height = 0 ∧ exampleColumn.m_height / 2 = 2 ∧ IsEmpty r :=
  ⟨_, rfl, rfl, rfl, rfl, rfl, rfl⟩

/-- C16 (amended): over an exact pixel type (a field of characteristic zero), for a source
that holds its pixels, `mipMap(result, false)` succeeds and gives the result the sentinel of
the source; the result has width `floor(w/2)` and height `floor(h/2)` when both are at least
1 and is the empty buffer (width 0, height 0, no storage) otherwise; every result pixel
`(x, y)` is `(p(2x,2y) + p(2x+1,2y) + p(2x,2y+1) + p(2x+1,2y+1)) / 4`, whatever the four
values are, sentinel or not. -/
theorem mipMap_box_average {F : Type} [Field F] [CharZero F] [DecidableEq F]
    (img result : BaseImage F) (hwf : img.WellFormed) (hr : result.WellFormed)
    (divZero : F) (fresh : Nat → F) :
    ∃ r, img.mipMap (exactOps divZero) result false fresh = .ok r ∧
      r.WellFormed ∧ r.m_InvalidValue = img.m_InvalidValue ∧
      ((0 < img.m_width / 2 ∧ 0 < img.m_height / 2) →
        r.m_width = img.m_width / 2 ∧ r.m_height = img.m_height / 2) ∧
      (¬ (0 < img.m_width / 2 ∧ 0 < img.m_height / 2) → IsEmpty r) ∧
      ∀ x y, x < r.m_width → y < r.m_height →
        ∃ a b c d, img.getPixel (2 * x) (2 * y) = .ok a ∧
          img.getPixel (2 * x + 1) (2 * y) = .ok b ∧
          img.getPixel (2 * x) (2 * y + 1) = .ok c ∧
          img.getPixel (2 * x + 1) (2 * y + 1) = .ok d ∧
          r.getPixel x y = .ok ((a + b + c + d) / 4) := by
  let gv : Nat → Nat → F := fun x y =>
    match mipMapBox (exactOps divZero) img x y with
    | .ok v => v
    | .error _ => divZero
  have hval : ∀ x y, x < img.m_width / 2 → y < img.m_height / 2 →
      ∃ a b c d, img.getPixel (2 * x) (2 * y) = .ok a ∧
        img.getPixel (2 * x + 1) (2 * y) = .ok b ∧
        img.getPixel (2 * x) (2 * y + 1) = .ok c ∧
        img.getPixel (2 * x + 1) (2 * y + 1) = .ok d ∧
        mipMapBox (exactOps divZero) img x y = .ok ((a + b + c + d) / 4) := by
    intro x y hx hy
    obtain ⟨e1, e2, e3, e4, a, b, c, d, ha, hb, hc, hd⟩ := mipMap_block_ok img hwf hx hy
    refine ⟨a, b, c, d, ha, hb, hc, hd, ?_⟩
    have h4 : (4 : F) ≠ 0 := by norm_num
    simp only [mipMapBox, e1, e2, e3, e4, ha, hb, hc, hd, bind, Except.bind, pure,
      Except.pure, exactOps, pixelDiv_of_ne divZero _ h4]
  obtain ⟨r, hrun, hrwf, hrs, hdim, hemp, hpix⟩ := mipMap_loop img result hwf hr fresh
    (fun y x r1 => r1.assignPixel x y (mipMapBox (exactOps divZero) img x y)) gv
    (fun y x r1 hx hy _ => by
      obtain ⟨a, b, c, d, _, _, _, _, hv⟩ := hval x y hx hy
      show r1.assignPixel x y (mipMapBox (exactOps divZero) img x y) = r1.setPixel x y (gv x y)
      simp only [gv, hv]
      rfl)
  refine ⟨r, ?_, hrwf, hrs, hdim, hemp, ?_⟩
  · simp only [mipMap, Bool.not_false, if_true]
    exact hrun
  · intro x y hx hy
    obtain ⟨hx', hy', hp⟩ := hpix x y hx hy
    obtain ⟨a, b, c, d, ha, hb, hc, hd, hv⟩ := hval x y hx' hy'
    refine ⟨a, b, c, d, ha, hb, hc, hd, ?_⟩
    rw [hp]
    simp only [gv, hv]

/-- Witness of C16 (amended) on the 2x2 block example. -/
theorem mipMap_box_average_witness :
    (exampleBlock.WellFormed ∧ (mkDefault 0 : BaseImage ℚ).WellFormed) ∧
      ∃ r, exampleBlock.mipMap (exactOps 0) (mkDefault 0) false (fun _ => 0) = .ok r ∧
        r.m_width = 1 ∧ r.m_height = 1 ∧ r.getPixel 0 0 = .ok (5 / 4) := by
  have hwf : exampleBlock.WellFormed := by decide
  have hd : (mkDefault 0 : BaseImage ℚ).WellFormed := by decide
  refine ⟨⟨hwf, hd⟩, ?_⟩
  obtain ⟨r, hr, _, _, hdim, _, hp⟩ :=
    mipMap_box_average exampleBlock (mkDefault 0) hwf hd 0 (fun _ => 0)
  obtain ⟨hw, hh⟩ := hdim ⟨by decide, by decide⟩
  refine ⟨r, hr, hw, hh, ?_⟩
  obtain ⟨a, b, c, d, ha, hb, hc, hd, hv⟩ := hp 0 0 (by rw [hw]; decide) (by rw [hh]; decide)
  have ha' : exampleBlock.getPixel 0 0 = .ok 1 := rfl
  have hb' : exampleBlock.getPixel 1 0 = .ok 2 := rfl
  have hc' : exampleBlock.getPixel 0 1 = .ok 3 := rfl
  have hd' : exampleBlock.getPixel 1 1 = .ok (-1) := rfl
  rw [ha'] at ha
  rw [hb'] at hb
  rw [hc'] at hc
  rw [hd'] at hd
  injection ha with ha
  injection hb with hb
  injection hc with hc
  injection hd with hd
  subst ha hb hc hd
  rw [hv]
  norm_num

theorem addIfValid_of_getPixel [DecidableEq T] (ops : PixelOps T) (img : BaseImage T)
    {x y : Nat} {p : T} (hp : img.getPixel x y = .ok p) (acc : Nat × T) :
    addIfValid ops img x y acc =
      .ok (if p ≠ img.m_InvalidValue then (uadd acc.1 1, ops.accumulate acc.2 p) else acc) := by
  unfold addIfValid isValid
  rw [hp]
  by_cases h : p = img.m_InvalidValue <;> simp [h]

/-- The value `mipMap` computes for a block when it ignores invalid pixels. -/
theorem mipMapValid_eq {F : Type} [Field F] [CharZero F] [DecidableEq F]
    (img : BaseImage F) (divZero : F) {x y : Nat} {a b c d : F}
    (ha : img.getPixel (uadd (umul 2 x) 0) (uadd (umul 2 y) 0) = .ok a)
    (hb : img.getPixel (uadd (umul 2 x) 1) (uadd (umul 2 y) 0) = .ok b)
    (hc : img.getPixel (uadd (umul 2 x) 0) (uadd (umul 2 y) 1) = .ok c)
    (hd : img.getPixel (uadd (umul 2 x) 1) (uadd (umul 2 y) 1) = .ok d) :
    mipMapValid (exactOps divZero) img img.m_InvalidValue x y =
      .ok (validAverage img.m_InvalidValue [a, b, c, d]) := by
  have h2 : (2 : F) ≠ 0 := by norm_num
  have h3 : (3 : F) ≠ 0 := by norm_num
  have h4 : (4 : F) ≠ 0 := by norm_num
  have h11 : ((1 : F) + 1) = 2 := by norm_num
  have h21 : ((2 : F) + 1) = 3 := by norm_num
  have h31 : ((3 : F) + 1) = 4 := by norm_num
  simp only [mipMapValid, addIfValid_of_getPixel _ _ ha, addIfValid_of_getPixel _ _ hb,
    addIfValid_of_getPixel _ _ hc, addIfValid_of_getPixel _ _ hd, bind, Except.bind, pure,
    Except.pure]
  by_cases h1 : a = img.m_InvalidValue <;> by_cases h2' : b = img.m_InvalidValue <;>
    by_cases h3' : c = img.m_InvalidValue <;> by_cases h4' : d = img.m_InvalidValue <;>
    simp [h1, h2', h3', h4', validAverage, exactOps, pixelDiv, uadd, UINT_RANGE, h2, h3, h4,
      h11, h21, h31, add_assoc]

/-- C17: over an exact pixel type (a field of characteristic zero), for a source that holds
its pixels, `mipMap(result, true)` succeeds and every pixel `(x, y)` of the result is the
sentinel when all four pixels of its 2x2 block equal the sentinel, and otherwise the sum of
the pixels of the block that differ from the sentinel divided by their number; a block with
exactly one sentinel pixel gives the average of the other three. -/
theorem mipMap_valid_average {F : Type} [Field F] [CharZero F] [DecidableEq F]
    (img result : BaseImage F) (hwf : img.WellFormed) (hr : result.WellFormed)
    (divZero : F) (fresh : Nat → F) :
    ∃ r, img.mipMap (exactOps divZero) result true fresh = .ok r ∧
      r.WellFormed ∧ r.m_InvalidValue = img.m_InvalidValue ∧
      ∀ x y, x < r.m_width → y < r.m_height →
        ∃ a b c d, img.getPixel (2 * x) (2 * y) = .ok a ∧
          img.getPixel (2 * x + 1) (2 * y) = .ok b ∧
          img.getPixel (2 * x) (2 * y + 1) = .ok c ∧
          img.getPixel (2 * x + 1) (2 * y + 1) = .ok d ∧
          r.getPixel x y = .ok (validAverage img.m_InvalidValue [a, b, c, d]) ∧
          ((a = img.m_InvalidValue ∧ b = img.m_InvalidValue ∧ c = img.m_InvalidValue ∧
              d = img.m_InvalidValue) → r.getPixel x y = .ok img.m_InvalidValue) ∧
          ((a = img.m_InvalidValue ∧ b ≠ img.m_InvalidValue ∧ c ≠ img.m_InvalidValue ∧
              d ≠ img.m_InvalidValue) → r.getPixel x y = .ok ((b + c + d) / 3)) ∧
          ((a ≠ img.m_InvalidValue ∧ b = img.m_InvalidValue ∧ c ≠ img.m_InvalidValue ∧
              d ≠ img.m_InvalidValue) → r.getPixel x y = .ok ((a + c + d) / 3)) ∧
          ((a ≠ img.m_InvalidValue ∧ b ≠ img.m_InvalidValue ∧ c = img.m_InvalidValue ∧
              d ≠ img.m_InvalidValue) → r.getPixel x y = .ok ((a + b + d) / 3)) ∧
          ((a ≠ img.m_InvalidValue ∧ b ≠ img.m_InvalidValue ∧ c ≠ img.m_InvalidValue ∧
              d = img.m_InvalidValue) → r.getPixel x y = .ok ((a + b + c) / 3)) := by
  let gv : Nat → Nat → F := fun x y =>
    match mipMapValid (exactOps divZero) img img.m_InvalidValue x y with
    | .ok v => v
    | .error _ => divZero
  have hval : ∀ x y, x < img.m_width / 2 → y < img.m_height / 2 →
      ∃ a b c d, img.getPixel (2 * x) (2 * y) = .ok a ∧
        img.getPixel (2 * x + 1) (2 * y) = .ok b ∧
        img.getPixel (2 * x) (2 * y + 1) = .ok c ∧
        img.getPixel (2 * x + 1) (2 * y + 1) = .ok d ∧
        mipMapValid (exactOps divZero) img img.m_InvalidValue x y =
          .ok (validAverage img.m_InvalidValue [a, b, c, d]) := by
    intro x y hx hy
    obtain ⟨e1, e2, e3, e4, a, b, c, d, ha, hb, hc, hd⟩ := mipMap_block_ok img hwf hx hy
    refine ⟨a, b, c, d, ha, hb, hc, hd, ?_⟩
    exact mipMapValid_eq img divZero (by rw [e1, e3]; exact ha) (by rw [e2, e3]; exact hb)
      (by rw [e1, e4]; exact hc) (by rw [e2, e4]; exact hd)
  obtain ⟨r, hrun, hrwf, hrs, _, _, hpix⟩ := mipMap_loop img result hwf hr fresh
    (fun y x r1 =>
      r1.assignPixel x y (mipMapValid (exactOps divZero) img r1.getInvalidValue x y)) gv
    (fun y x r1 hx hy hs => by
      obtain ⟨a, b, c, d, _, _, _, _, hv⟩ := hval x y hx hy
      show r1.assignPixel x y (mipMapValid (exactOps divZero) img r1.getInvalidValue x y) =
        r1.setPixel x y (gv x y)
      have hgi : r1.getInvalidValue = img.m_InvalidValue := hs
      simp only [gv, hgi, hv]
      rfl)
  refine ⟨r, ?_, hrwf, hrs, ?_⟩
  · simp only [mipMap, Bool.not_true, Bool.false_eq_true, if_false]
    exact hrun
  · intro x y hx hy
    obtain ⟨hx', hy', hp⟩ := hpix x y hx hy
    obtain ⟨a, b, c, d, ha, hb, hc, hd, hv⟩ := hval x y hx' hy'
    have hres : r.getPixel x y = .ok (validAverage img.m_InvalidValue [a, b, c, d]) := by
      rw [hp]
      simp only [gv, hv]
    have h3 : (3 : F) ≠ 0 := by norm_num
    have h111 : ((1 : F) + 1 + 1) = 3 := by norm_num
    refine ⟨a, b, c, d, ha, hb, hc, hd, hres, ?_, ?_, ?_, ?_, ?_⟩
    · rintro ⟨h1, h2, h3', h4⟩
      rw [hres]
      simp [validAverage, h1, h2, h3', h4]
    · rintro ⟨h1, h2, h3', h4⟩
      rw [hres]
      simp [validAverage, h1, h2, h3', h4, h111, add_assoc]
    · rintro ⟨h1, h2, h3', h4⟩
      rw [hres]
      simp [validAverage, h1, h2, h3', h4, h111, add_assoc]
    · rintro ⟨h1, h2, h3', h4⟩
      rw [hres]
      simp [validAverage, h1, h2, h3', h4, h111, add_assoc]
    · rintro ⟨h1, h2, h3', h4⟩
      rw [hres]
      simp [validAverage, h1, h2, h3', h4, h111, add_assoc]

/-- Witness of C17: the block `1 2 / 3 -1` with sentinel `-1` gives `(1 + 2 + 3) / 3`. -/
theorem mipMap_valid_average_witness :
    (exampleBlock.WellFormed ∧ (mkDefault 0 : BaseImage ℚ).WellFormed) ∧
      ∃ r, exampleBlock.mipMap (exactOps 0) (mkDefault 0) true (fun _ => 0) = .ok r ∧
        r.getPixel 0 0 = .ok 2 := by
  have hwf : exampleBlock.WellFormed := by decide
  have hd : (mkDefault 0 : BaseImage ℚ).WellFormed := by decide
  refine ⟨⟨hwf, hd⟩, ?_⟩
  obtain ⟨r, hr, hrwf, _, hp⟩ :=
    mipMap_valid_average exampleBlock (mkDefault 0) hwf hd 0 (fun _ => 0)
  have hdim : r.m_width = 1 ∧ r.m_height = 1 := by
    have hs := mipMap_sameShape hr
    exact ⟨hs.1.symm.trans rfl, hs.2.1.symm.trans rfl⟩
  refine ⟨r, hr, ?_⟩
  obtain ⟨a, b, c, d, ha, hb, hc, hd, _, _, _, _, _, hv⟩ :=
    hp 0 0 (by rw [hdim.1]; decide) (by rw [hdim.2]; decide)
  have ha' : exampleBlock.getPixel 0 0 = .ok 1 := rfl
  have hb' : exampleBlock.getPixel 1 0 = .ok 2 := rfl
  have hc' : exampleBlock.getPixel 0 1 = .ok 3 := rfl
  have hd' : exampleBlock.getPixel 1 1 = .ok (-1) := rfl
  rw [ha'] at ha
  rw [hb'] at hb
  rw [hc'] at hc
  rw [hd'] at hd
  injection ha with ha
  injection hb with hb
  injection hc with hc
  injection hd with hd
  subst ha hb hc hd
  rw [hv ⟨by norm_num [exampleBlock], by norm_num [exampleBlock],
    by norm_num [exampleBlock], rfl⟩]
  norm_num

/-! ### Smoothing -/

/-- The pair `(valid, value)` after one neighbour has been looked at. -/
theorem addIfValidCoordinate_spec [DecidableEq T] (ops : PixelOps T) (img : BaseImage T)
    (hwf : img.WellFormed) (cx cy : Nat) (acc : Nat × T) :
    addIfValidCoordinate ops img cx cy acc =
      .ok (accumulateStep ops acc (validPixel img cx cy)) := by
  unfold accumulateStep addIfValidCoordinate isValidCoordinate validPixel
  by_cases hb : cx < img.m_width ∧ cy < img.m_height
  · obtain ⟨p, hp⟩ := hwf.getPixel_ok hb.1 hb.2
    simp only [hb, and_self, decide_True, if_true, addIfValid_of_getPixel ops img hp, hp]
    by_cases hv : p = img.m_InvalidValue <;> simp [hv]
  · simp [hb]

theorem validPixel_of_not_lt [DecidableEq T] (img : BaseImage T) {cx cy : Nat}
    (h : ¬ (cx < img.m_width ∧ cy < img.m_height)) : validPixel img cx cy = none := by
  simp [validPixel, h]

/-- The four positions `smooth` looks at, in `unsigned int` arithmetic, are the four
neighbours; a position that wrapped around below zero contributes nothing. -/
theorem smooth_neighbour_coordinates [DecidableEq T] (img : BaseImage T)
    (hwf : img.WellFormed) {x y : Nat} (hx : x < img.m_width) (hy : y < img.m_height) :
    validPixel img (usub x 1) (uadd y 0) =
        (if 1 ≤ x then validPixel img (x - 1) y else none) ∧
    validPixel img (uadd x 1) (uadd y 0) = validPixel img (x + 1) y ∧
    validPixel img (uadd x 0) (uadd y 1) = validPixel img x (y + 1) ∧
    validPixel img (uadd x 0) (usub y 1) =
        (if 1 ≤ y then validPixel img x (y - 1) else none) := by
  have hwR := hwf.1
  have hhR := hwf.2.1
  have hx0 : uadd x 0 = x := uadd_eq_add (by omega)
  have hy0 : uadd y 0 = y := uadd_eq_add (by omega)
  have hx1 : uadd x 1 = x + 1 := uadd_eq_add (by omega)
  have hy1 : uadd y 1 = y + 1 := uadd_eq_add (by omega)
  rw [hx0, hy0, hx1, hy1]
  refine ⟨?_, rfl, rfl, ?_⟩
  · by_cases h1 : 1 ≤ x
    · rw [if_pos h1, usub_eq_sub h1 (by omega)]
    · rw [if_neg h1]
      apply validPixel_of_not_lt
      have : x = 0 := by omega
      subst this
      simp only [usub, UINT_RANGE] at hwR ⊢
      omega
  · by_cases h1 : 1 ≤ y
    · rw [if_pos h1, usub_eq_sub h1 (by omega)]
    · rw [if_neg h1]
      apply validPixel_of_not_lt
      have : y = 0 := by omega
      subst this
      simp only [usub, UINT_RANGE] at hhR ⊢
      omega

/-- Counting and summing four optional values one after the other gives the length and
the sum of the values that are present. -/
theorem accumulate_four {F : Type} [Field F] [DecidableEq F] (divZero : F)
    (o1 o2 o3 o4 : Option F) :
    accumulateStep (exactOps divZero)
      (accumulateStep (exactOps divZero)
        (accumulateStep (exactOps divZero)
          (accumulateStep (exactOps divZero) (0, (exactOps divZero).zero) o1) o2) o3) o4 =
      (([o1, o2, o3, o4].reduceOption).length, ([o1, o2, o3, o4].reduceOption).sum) := by
  cases o1 <;> cases o2 <;> cases o3 <;> cases o4 <;>
    simp [accumulateStep, exactOps, uadd, UINT_RANGE, List.reduceOption, add_assoc]

/-- The body of `smooth` for an in-bounds pixel, over an exact pixel type. -/
theorem smoothPixel_eq {F : Type} [Field F] [DecidableEq F] (divZero : F)
    (img : BaseImage F) (hwf : img.WellFormed) {x y : Nat} (hx : x < img.m_width)
    (hy : y < img.m_height) (other : BaseImage F) :
    smoothPixel (exactOps divZero) img y x other =
      (smoothValue divZero img x y).elim (.ok other) (fun v => other.setPixel x y v) := by
  obtain ⟨c1, c2, c3, c4⟩ := smooth_neighbour_coordinates img hwf hx hy
  obtain ⟨p, hp⟩ := hwf.getPixel_ok hx hy
  have hacc := accumulate_four divZero (validPixel img (usub x 1) (uadd y 0))
    (validPixel img (uadd x 1) (uadd y 0)) (validPixel img (uadd x 0) (uadd y 1))
    (validPixel img (uadd x 0) (usub y 1))
  have hlist : [validPixel img (usub x 1) (uadd y 0), validPixel img (uadd x 1) (uadd y 0),
      validPixel img (uadd x 0) (uadd y 1), validPixel img (uadd x 0) (usub y 1)].reduceOption
      = validNeighbours img x y := by
    rw [c1, c2, c3, c4]
    rfl
  rw [hlist] at hacc
  simp only [smoothPixel, addIfValidCoordinate_spec _ img hwf, bind, Except.bind, pure,
    Except.pure, hacc, isValid, hp, smoothValue]
  by_cases hv : p = img.m_InvalidValue
  · simp [hv]
  · simp only [ne_eq, hv, not_false_eq_true, decide_True, if_true]
    rfl

theorem getPixel_congr_data {a b : BaseImage T} (hw : a.m_width = b.m_width)
    (hh : a.m_height = b.m_height) (hd : a.m_data = b.m_data) (x y : Nat) :
    a.getPixel x y = b.getPixel x y := by
  unfold getPixel pixelOffset
  rw [hw, hh, hd]

/-- Copy assignment between two buffers of the same size that hold their pixels. -/
theorem copyAssign_same_size (img other : BaseImage T) (hwf : img.WellFormed)
    (howf : other.WellFormed) (hw : other.m_width = img.m_width)
    (hh : other.m_height = img.m_height) (fresh : Nat → T) :
    ∃ r, img.copyAssign other fresh = .ok r ∧ r.WellFormed ∧ r.m_width = img.m_width ∧
      r.m_height = img.m_height ∧ r.m_InvalidValue = other.m_InvalidValue ∧
      ∀ x y, x < img.m_width → y < img.m_height → r.getPixel x y = other.getPixel x y := by
  have hne : ¬ (other.m_width ≠ img.m_width ∨ other.m_height ≠ img.m_height) := by
    rw [hw, hh]; simp
  unfold copyAssign
  simp only [if_neg hne]
  by_cases hz : img.m_height * img.m_width = 0
  · refine ⟨{ img with
              m_data := img.m_data
              m_InvalidValue := other.getInvalidValue
              m_format := other.m_format }, by simp [memcpy, hz], hwf, rfl, rfl, rfl, ?_⟩
    intro x y hx hy
    have := offset_lt hx hy
    rw [Nat.mul_comm] at hz
    omega
  · have hpos : 0 < img.m_width * img.m_height := by
      rw [Nat.mul_comm] at hz; omega
    obtain ⟨_, _, hlt, hlen⟩ := hwf
    obtain ⟨_, _, holt, holen⟩ := howf
    unfold storageLen at hlen holen hlt holt
    cases hd : img.m_data with
    | none => rw [hd] at hlen; dsimp only at hlen; omega
    | some d =>
      cases hod : other.m_data with
      | none => rw [hod] at holen; dsimp only at holen; rw [hw, hh] at holen; omega
      | some s0 =>
        rw [hd] at hlen hlt
        rw [hod] at holen holt
        dsimp only at hlen holen hlt holt
        rw [hw, hh] at holen
        have hn : img.m_height * img.m_width = s0.length := by
          rw [holen, Nat.mul_comm]
        have hnd : img.m_height * img.m_width = d.length := by
          rw [hlen, Nat.mul_comm]
        have hcopy : memcpy (some d) (some s0) (img.m_height * img.m_width) =
            .ok (some s0) := by
          unfold memcpy
          rw [if_neg hz]
          have hc : img.m_height * img.m_width ≤ d.length ∧
              img.m_height * img.m_width ≤ s0.length := by omega
          simp only [hc, and_self, if_true]
          rw [hn, List.take_length, ← hn, hnd, List.drop_length, List.append_nil]
        refine ⟨{ img with
                    m_data := some s0
                    m_InvalidValue := other.getInvalidValue
                    m_format := other.m_format }, by simp only [hcopy], ?_, rfl, rfl, rfl, ?_⟩
        · refine ⟨by assumption, by assumption, ?_, ?_⟩
          · show s0.length < UINT_RANGE
            exact holt
          · show s0.length = img.m_width * img.m_height
            exact holen
        · intro x y _ _
          refine @getPixel_congr_data T _ other ?_ ?_ ?_ x y
          · exact hw.symm
          · exact hh.symm
          · exact hod.symm

end BaseImage

theorem forRange_shift {σ : Type} (body : Nat → σ → Except Error σ) :
    ∀ (k i : Nat) (s : σ),
      forRange body k (i + 1) s = forRange (fun j => body (j + 1)) k i s := by
  intro k
  induction k with
  | zero => intro i s; rfl
  | succ k ih =>
    intro i s
    unfold forRange
    cases body (i + 1) s with
    | error e => rfl
    | ok t => exact ih (i + 1) t

namespace BaseImage

variable {T : Type}

/-- One pass of `smooth` over an exact pixel type: the pass succeeds, keeps width, height
and sentinel, gives every valid pixel its smoothed value computed from the input, and
leaves at the place of an invalid pixel what the newly allocated image held there. -/
theorem smoothStep_spec {F : Type} [Field F] [DecidableEq F] [FormatFromTemplate F]
    (divZero inv : F) (fresh : Nat → F) (img : BaseImage F) (hwf : img.WellFormed) :
    ∃ r, smoothStep (exactOps divZero) inv fresh img = .ok r ∧ r.WellFormed ∧
      r.m_width = img.m_width ∧ r.m_height = img.m_height ∧
      r.m_InvalidValue = img.m_InvalidValue ∧
      ∀ x y, x < img.m_width → y < img.m_height →
        r.getPixel x y =
          (smoothValue divZero img x y).elim
            (((sized img.m_width img.m_height inv fresh).setInvalidValue
              img.m_InvalidValue).getPixel x y) Except.ok := by
  have hs0 := sized_wellFormed inv fresh hwf.1 hwf.2.1 hwf.count_lt
  have hother : ((sized img.m_width img.m_height inv fresh).setInvalidValue
      img.m_InvalidValue).WellFormed := sized_wellFormed' inv fresh hwf.1 hwf.2.1 hwf.count_lt
  have hoW : ((sized img.m_width img.m_height inv fresh).setInvalidValue
      img.m_InvalidValue).m_width = img.m_width := hs0.1
  have hoH : ((sized img.m_width img.m_height inv fresh).setInvalidValue
      img.m_InvalidValue).m_height = img.m_height := hs0.2.1
  have key := assignLoop_spec
    ((sized img.m_width img.m_height inv fresh).setInvalidValue img.m_InvalidValue) hother
    (fun y x o => smoothPixel (exactOps divZero) img y x o) (fun _ _ => img.m_width)
    (smoothValue divZero img) (fun _ _ _ => hoW.symm)
    (fun y x o hy hx _ _ => smoothPixel_eq divZero img hwf (hoW ▸ hx) (hoH ▸ hy) o)
  rw [hoH, hoW] at key
  obtain ⟨other1, hrun, ho1wf, ho1f, ho1p⟩ := key
  obtain ⟨r, hr, hrwf, hrw, hrh, hrs, hrp⟩ := copyAssign_same_size img other1 hwf ho1wf
    (ho1f.1.trans hoW) (ho1f.2.1.trans hoH) fresh
  refine ⟨r, ?_, hrwf, hrw, hrh, hrs.trans ho1f.2.2.1, ?_⟩
  · unfold smoothStep
    dsimp only
    rw [hrun]
    exact hr
  · intro x y hx hy
    rw [hrp x y hx hy, ho1p x y hx hy]

theorem smooth_one [DecidableEq T] [FormatFromTemplate T] (ops : PixelOps T)
    (inv : Nat → T) (fresh : Nat → Nat → T) (img : BaseImage T) :
    img.smooth ops inv fresh 1 = smoothStep ops (inv 0) (fresh 0) img := by
  unfold smooth forRange
  cases smoothStep ops (inv 0) (fresh 0) img with
  | error e => rfl
  | ok r => rfl

theorem smooth_eq_smoothRepeat [DecidableEq T] [FormatFromTemplate T] (ops : PixelOps T) :
    ∀ (k : Nat) (inv : Nat → T) (fresh : Nat → Nat → T) (img : BaseImage T),
      img.smooth ops inv fresh k = smoothRepeat ops inv fresh k img := by
  intro k
  induction k with
  | zero => intro inv fresh img; rfl
  | succ k ih =>
    intro inv fresh img
    unfold smoothRepeat
    rw [smooth_one]
    unfold smooth
    rw [forRange]
    cases smoothStep ops (inv 0) (fresh 0) img with
    | error e => rfl
    | ok r =>
      dsimp only
      rw [← ih (fun i => inv (i + 1)) (fun i => fresh (i + 1)) r]
      unfold smooth
      exact forRange_shift _ k 0 r

/-- C20: over an exact pixel type (a field of characteristic zero) and on a buffer that holds
its pixels, `smooth(1)` succeeds and keeps width, height and sentinel; every pixel `(x, y)`
that was valid, with value `p`, and had `n >= 1` valid in-bounds 4-neighbours of sum `S`
becomes `(n*p + S) / (2*n)`, where `p`, `n` and `S` are those of the input; `smooth(k)` is
`k` successive applications of `smooth(1)`. -/
theorem smooth_laplacian_snapshot {F : Type} [Field F] [CharZero F] [DecidableEq F]
    [FormatFromTemplate F] (img : BaseImage F) (hwf : img.WellFormed) (divZero : F)
    (inv : Nat → F) (fresh : Nat → Nat → F) :
    (∃ r, img.smooth (exactOps divZero) inv fresh 1 = .ok r ∧
      r.m_width = img.m_width ∧ r.m_height = img.m_height ∧
      r.m_InvalidValue = img.m_InvalidValue ∧
      ∀ x y p, x < img.m_width → y < img.m_height → img.getPixel x y = .ok p →
        p ≠ img.m_InvalidValue → 1 ≤ (validNeighbours img x y).length →
        r.getPixel x y =
          .ok (((((validNeighbours img x y).length : Nat) : F) * p +
              (validNeighbours img x y).sum) /
            (2 * (((validNeighbours img x y).length : Nat) : F)))) ∧
    (∀ k, img.smooth (exactOps divZero) inv fresh k =
      smoothRepeat (exactOps divZero) inv fresh k img) ∧
    (∀ k, ∃ r, img.smooth (exactOps divZero) inv fresh k = .ok r ∧ r.WellFormed) := by
  refine ⟨?_, fun k => smooth_eq_smoothRepeat (exactOps divZero) k inv fresh img, ?_⟩
  swap
  · intro k
    have h := forRange_induct (fun _ (t : BaseImage F) => t.WellFormed)
      (fun i im => smoothStep (exactOps divZero) (inv i) (fresh i) im) k 0 img
      (fun i t _ _ ht => by
        obtain ⟨r, hr, hrwf, _⟩ := smoothStep_spec divZero (inv i) (fresh i) t ht
        exact ⟨r, hr, hrwf⟩)
      hwf
    exact h
  obtain ⟨r, hr, _, hrw, hrh, hrs, hrp⟩ := smoothStep_spec divZero (inv 0) (fresh 0) img hwf
  refine ⟨r, by rw [smooth_one]; exact hr, hrw, hrh, hrs, ?_⟩
  intro x y p hx hy hp hv hn
  have hne : (2 * (((validNeighbours img x y).length : Nat) : F)) ≠ 0 := by
    have h1 : (((validNeighbours img x y).length : Nat) : F) ≠ 0 := by
      have : (validNeighbours img x y).length ≠ 0 := by omega
      exact_mod_cast this
    exact mul_ne_zero (by norm_num) h1
  rw [hrp x y hx hy]
  simp only [smoothValue, hp, ne_eq, hv, not_false_eq_true, if_true,
    pixelDiv_of_ne divZero _ hne]
  rfl

/-- Witness of C20: in the row `1 3` the pixel `1` has the single valid neighbour `3` and
becomes `(1*1 + 3) / (2*1) = 2`. -/
theorem smooth_laplacian_snapshot_witness :
    exampleRow.WellFormed ∧
      ∃ r, exampleRow.smooth (exactOps 0) (fun _ => 0) (fun _ _ => 0) 1 = .ok r ∧
        r.getPixel 0 0 = .ok 2 := by
  have hwf : exampleRow.WellFormed := by decide
  refine ⟨hwf, ?_⟩
  obtain ⟨r, hr, _, _, _, hp⟩ :=
    (smooth_laplacian_snapshot exampleRow hwf 0 (fun _ => 0) (fun _ _ => 0)).1
  have hn : validNeighbours exampleRow 0 0 = [3] := by decide
  refine ⟨r, hr, ?_⟩
  have h := hp 0 0 1 (by decide) (by decide) rfl (by decide) (by rw [hn]; decide)
  rw [h, hn]
  norm_num

/-! ### The neighbours of `smooth` -/

/-- The body of `smooth` first runs `smoothNeighbours` and then stores the new value. -/
theorem smoothPixel_eq_bind [DecidableEq T] (ops : PixelOps T) (img : BaseImage T)
    (y x : Nat) (other : BaseImage T) :
    smoothPixel ops img y x other =
      match smoothNeighbours ops img x y with
      | .error e => .error e
      | .ok acc4 =>
        match img.isValid x y with
        | .error e => .error e
        | .ok valid =>
          if valid then
            other.assignPixel x y
              (match img.getPixel x y with
               | .error e => .error e
               | .ok p => .ok (ops.laplace acc4.1 p acc4.2))
          else .ok other := by
  unfold smoothPixel smoothNeighbours
  simp only [bind, Except.bind, pure, Except.pure]
  cases addIfValidCoordinate ops img (usub x 1) (uadd y 0) (0, ops.zero) with
  | error e => rfl
  | ok acc1 =>
    dsimp only
    cases addIfValidCoordinate ops img (uadd x 1) (uadd y 0) acc1 with
    | error e => rfl
    | ok acc2 =>
      dsimp only
      cases addIfValidCoordinate ops img (uadd x 0) (uadd y 1) acc2 with
      | error e => rfl
      | ok acc3 =>
        dsimp only
        cases addIfValidCoordinate ops img (uadd x 0) (usub y 1) acc3 with
        | error e => rfl
        | ok acc4 =>
          dsimp only
          cases img.isValid x y with
          | error e => rfl
          | ok valid => rfl

/-- Counting and accumulating four optional values one after the other gives the number
of the values that are present and their accumulation from the left. -/
theorem accumulateStep_four (ops : PixelOps T) (o1 o2 o3 o4 : Option T) :
    accumulateStep ops
      (accumulateStep ops (accumulateStep ops (accumulateStep ops (0, ops.zero) o1) o2) o3)
      o4 =
      (([o1, o2, o3, o4].reduceOption).length,
        ([o1, o2, o3, o4].reduceOption).foldl ops.accumulate ops.zero) := by
  cases o1 <;> cases o2 <;> cases o3 <;> cases o4 <;>
    simp [accumulateStep, uadd, UINT_RANGE, List.reduceOption]

/-- The counter and the sum `smooth` builds for an in-bounds pixel are the number and the
accumulation of its valid in-bounds neighbours. -/
theorem smoothNeighbours_eq [DecidableEq T] (ops : PixelOps T) (img : BaseImage T)
    (hwf : img.WellFormed) {x y : Nat} (hx : x < img.m_width) (hy : y < img.m_height) :
    smoothNeighbours ops img x y =
      .ok ((validNeighbours img x y).length,
        (validNeighbours img x y).foldl ops.accumulate ops.zero) := by
  obtain ⟨c1, c2, c3, c4⟩ := smooth_neighbour_coordinates img hwf hx hy
  have hlist : [validPixel img (usub x 1) (uadd y 0), validPixel img (uadd x 1) (uadd y 0),
      validPixel img (uadd x 0) (uadd y 1), validPixel img (uadd x 0) (usub y 1)].reduceOption
      = validNeighbours img x y := by
    rw [c1, c2, c3, c4]
    rfl
  have hacc := accumulateStep_four ops (validPixel img (usub x 1) (uadd y 0))
    (validPixel img (uadd x 1) (uadd y 0)) (validPixel img (uadd x 0) (uadd y 1))
    (validPixel img (uadd x 0) (usub y 1))
  rw [hlist] at hacc
  simp only [smoothNeighbours, addIfValidCoordinate_spec _ img hwf, bind, Except.bind, hacc]

/-- C28: on a buffer that holds its pixels (width and height are `unsigned int` values) and
for every pixel `(x, y)` of it, the counter and the sum `smooth` builds from the four
positions `(x-1, y)`, `(x+1, y)`, `(x, y+1)`, `(x, y-1)` are the number and the
accumulation of exactly the neighbours that lie inside the buffer and differ from the
sentinel; at `x = 0` the wrapped position `x - 1` and at `y = 0` the wrapped position
`y - 1` fail the coordinate check and select no pixel. -/
theorem smooth_counts_valid_in_bounds_neighbours [DecidableEq T] (ops : PixelOps T)
    (img : BaseImage T) (hwf : img.WellFormed) {x y : Nat} (hx : x < img.m_width)
    (hy : y < img.m_height) :
    smoothNeighbours ops img x y =
        .ok ((validNeighbours img x y).length,
          (validNeighbours img x y).foldl ops.accumulate ops.zero) ∧
      (validNeighbours img x y).length ≤ 4 ∧
      (x = 0 → img.isValidCoordinate (usub x 1) (uadd y 0) = false) ∧
      (y = 0 → img.isValidCoordinate (uadd x 0) (usub y 1) = false) ∧
      (x = 0 → ∀ acc, addIfValidCoordinate ops img (usub x 1) (uadd y 0) acc = .ok acc) ∧
      (y = 0 → ∀ acc, addIfValidCoordinate ops img (uadd x 0) (usub y 1) acc = .ok acc) := by
  obtain ⟨c1, c2, c3, c4⟩ := smooth_neighbour_coordinates img hwf hx hy
  have hwR := hwf.1
  have hhR := hwf.2.1
  have hlist : [validPixel img (usub x 1) (uadd y 0), validPixel img (uadd x 1) (uadd y 0),
      validPixel img (uadd x 0) (uadd y 1), validPixel img (uadd x 0) (usub y 1)].reduceOption
      = validNeighbours img x y := by
    rw [c1, c2, c3, c4]
    rfl
  have hx0 : x = 0 → img.isValidCoordinate (usub x 1) (uadd y 0) = false := by
    intro h
    subst h
    simp only [isValidCoordinate, usub, UINT_RANGE, decide_eq_false_iff_not, not_and] at hwR ⊢
    omega
  have hy0 : y = 0 → img.isValidCoordinate (uadd x 0) (usub y 1) = false := by
    intro h
    subst h
    simp only [isValidCoordinate, usub, UINT_RANGE, decide_eq_false_iff_not, not_and] at hhR ⊢
    omega
  refine ⟨?_, ?_, hx0, hy0, ?_, ?_⟩
  · exact smoothNeighbours_eq ops img hwf hx hy
  · rw [← hlist]
    exact (List.reduceOption_length_le _).trans (by simp)
  · intro h acc
    unfold addIfValidCoordinate
    rw [hx0 h]
    rfl
  · intro h acc
    unfold addIfValidCoordinate
    rw [hy0 h]
    rfl

/-- Witness of C28: in the row `1 3` the pixel at `(0, 0)` has the single counted neighbour
`3`; the wrapped position `(2^32 - 1, 0)` is not counted. -/
theorem smooth_counts_valid_in_bounds_neighbours_witness :
    exampleRow.WellFormed ∧ 0 < exampleRow.m_width ∧ 0 < exampleRow.m_height ∧
      smoothNeighbours (exactOps (0 : ℚ)) exampleRow 0 0 =
        .ok ((validNeighbours exampleRow 0 0).length,
          (validNeighbours exampleRow 0 0).foldl (exactOps (0 : ℚ)).accumulate
            (exactOps (0 : ℚ)).zero) ∧
      validNeighbours exampleRow 0 0 = [3] :=
  ⟨by decide, by decide, by decide,
    (smooth_counts_valid_in_bounds_neighbours (exactOps (0 : ℚ)) exampleRow (by decide)
      (by decide) (by decide)).1, by decide⟩

/-! ### Pixels `smooth` does not average -/

/-- A pixel of a freshly constructed buffer is the uninitialised cell of the new array. -/
theorem sized_getPixel [FormatFromTemplate T] {width height : Nat} (inv s : T)
    (fresh : Nat → T) (hw : width < UINT_RANGE) (hh : height < UINT_RANGE)
    (hc : width * height < UINT_RANGE) {x y : Nat} (hx : x < width) (hy : y < height) :
    ((sized width height inv fresh).setInvalidValue s).getPixel x y =
      .ok (fresh (y * width + x)) := by
  have hoff := offset_lt hx hy
  have hlen : y * width + x < height * width := by rw [Nat.mul_comm height]; exact hoff
  have hc2 : height * width < UINT_RANGE := by rw [Nat.mul_comm]; exact hc
  unfold getPixel
  rw [pixelOffset_eq]
  simp only [sized, create, setInvalidValue, mkDefault, newArray, Nat.mod_eq_of_lt hw,
    Nat.mod_eq_of_lt hh, Nat.mod_eq_of_lt hc2, hx, hy, and_self, if_true, readAt,
    Nat.mod_eq_of_lt (lt_trans hlen hc2)]
  simp [hlen]

/-- On a buffer that holds its pixels, `smooth(1)` leaves a pixel that equals the sentinel
with the content of the cell of the newly allocated image: nothing is stored there. -/
theorem smooth_invalid_pixel {F : Type} [Field F] [DecidableEq F] [FormatFromTemplate F]
    (img : BaseImage F) (hwf : img.WellFormed) (divZero : F) (inv : Nat → F)
    (fresh : Nat → Nat → F) {x y : Nat} (hx : x < img.m_width) (hy : y < img.m_height)
    (hp : img.getPixel x y = .ok img.m_InvalidValue) :
    ∃ r, img.smooth (exactOps divZero) inv fresh 1 = .ok r ∧ r.m_width = img.m_width ∧
      r.m_height = img.m_height ∧ r.m_InvalidValue = img.m_InvalidValue ∧
      r.getPixel x y = .ok (fresh 0 (y * img.m_width + x)) := by
  obtain ⟨r, hr, _, hrw, hrh, hrs, hrp⟩ := smoothStep_spec divZero (inv 0) (fresh 0) img hwf
  refine ⟨r, by rw [smooth_one]; exact hr, hrw, hrh, hrs, ?_⟩
  rw [hrp x y hx hy]
  have hv : smoothValue divZero img x y = none := by
    simp [smoothValue, hp]
  rw [hv]
  exact sized_getPixel (inv 0) img.m_InvalidValue (fresh 0) hwf.1 hwf.2.1 hwf.count_lt hx hy

/-- On a buffer that holds its pixels, `smooth(1)` gives a valid pixel without a valid
in-bounds neighbour the outcome of the division of `0*p + 0` by `2*0`. -/
theorem smooth_lonely_pixel {F : Type} [Field F] [DecidableEq F] [FormatFromTemplate F]
    (img : BaseImage F) (hwf : img.WellFormed) (divZero : F) (inv : Nat → F)
    (fresh : Nat → Nat → F) {x y : Nat} {p : F} (hx : x < img.m_width)
    (hy : y < img.m_height) (hp : img.getPixel x y = .ok p) (hv : p ≠ img.m_InvalidValue)
    (hn : validNeighbours img x y = []) :
    ∃ r, img.smooth (exactOps divZero) inv fresh 1 = .ok r ∧
      r.getPixel x y = .ok ((exactOps divZero).laplace 0 p 0) ∧
      (exactOps divZero).laplace 0 p 0 = divZero := by
  obtain ⟨r, hr, _, _, _, _, hrp⟩ := smoothStep_spec divZero (inv 0) (fresh 0) img hwf
  have hl : (exactOps divZero).laplace 0 p 0 = divZero := by
    simp [exactOps, pixelDiv]
  refine ⟨r, by rw [smooth_one]; exact hr, ?_, hl⟩
  rw [hrp x y hx hy, hl]
  simp [smoothValue, hp, hv, hn, pixelDiv]

/-- C29 (failing input): `smooth(1)` on the 1x1 buffer whose only pixel equals the sentinel
`-1`, run where the newly allocated image holds `5`, succeeds and keeps width, height and
sentinel, but the pixel is `5` afterwards: nothing is stored for a pixel that equals the
sentinel, so it keeps what the new array held, not the sentinel. -/
theorem smooth_invalid_pixel_not_kept :
    exampleInvalid.getPixel 0 0 = .ok exampleInvalid.m_InvalidValue ∧
      ∃ r, exampleInvalid.smooth (exactOps 0) (fun _ => 0) (fun _ _ => 5) 1 = .ok r ∧
        r.m_width = 1 ∧ r.m_height = 1 ∧ r.m_InvalidValue = -1 ∧
        r.getPixel 0 0 = .ok 5 ∧ r.getPixel 0 0 ≠ .ok r.m_InvalidValue := by
  refine ⟨rfl, ?_⟩
  obtain ⟨r, hr, hw, hh, hs, hp⟩ := smooth_invalid_pixel exampleInvalid (by decide) 0
    (fun _ => 0) (fun _ _ => 5) (x := 0) (y := 0) (by decide) (by decide) rfl
  refine ⟨r, hr, hw, hh, hs, hp, ?_⟩
  rw [hp, hs]
  intro h
  injection h with h
  norm_num [exampleInvalid] at h

/-- C30 (failing input): on the 1x1 buffer whose only pixel `7` differs from the sentinel,
`smooth(1)` counts no neighbour and stores the quotient of `0*7 + 0` by `2*0`: whatever the
division by zero yields (`divZero`) is the pixel afterwards, not `7`. -/
theorem smooth_lonely_pixel_divides_by_zero (divZero : ℚ) :
    exampleLonely.getPixel 0 0 = .ok 7 ∧ validNeighbours exampleLonely 0 0 = [] ∧
      smoothNeighbours (exactOps divZero) exampleLonely 0 0 = .ok (0, 0) ∧
      (2 * ((0 : Nat) : ℚ) = 0) ∧
      ∃ r, exampleLonely.smooth (exactOps divZero) (fun _ => 0) (fun _ _ => 0) 1 = .ok r ∧
        r.getPixel 0 0 = .ok divZero := by
  have hn : validNeighbours exampleLonely 0 0 = [] := by decide
  have hwf : exampleLonely.WellFormed := by decide
  refine ⟨rfl, hn, ?_, by norm_num, ?_⟩
  · have h := smoothNeighbours_eq (exactOps divZero) exampleLonely hwf (x := 0) (y := 0)
      (by decide) (by decide)
    rw [h, hn]
    rfl
  · obtain ⟨r, hr, hp, hl⟩ := smooth_lonely_pixel exampleLonely hwf divZero (fun _ => 0)
      (fun _ _ => 0) (x := 0) (y := 0) (p := 7) (by decide) (by decide) rfl (by decide) hn
    exact ⟨r, hr, by rw [hp, hl]⟩

/-! ### Mip-mapping a `DepthImage16` -/

/-- The box average of four `unsigned short` pixels whose sum is below `2^16` is the
integer quotient of the sum by four. -/
theorem ushortOps_boxAverage_of_small (divZero a b c d : USHORT)
    (h : a.val + b.val + c.val + d.val < 65536) :
    ((ushortOps divZero).boxAverage a b c d).val = (a.val + b.val + c.val + d.val) / 4 := by
  show (((a.val + b.val + c.val + d.val) % 65536 / 4 : Nat) : USHORT).val = _
  rw [ZMod.val_natCast, Nat.mod_eq_of_lt h]
  exact Nat.mod_eq_of_lt (by omega)

/-- C27 (failing input): `mipMap(result, false)` of the 2x2 `DepthImage16` whose pixels
are all `65535` yields the 1x1 image with the pixel `16383`: the sum `262140` is stored
modulo `2^16` as `65532` before the division by four, whereas the integer quotient of the
exact sum by four is `65535`. -/
theorem mipMap_ushort_sum_wraps :
    ∃ r, exampleDepthFull.mipMap (ushortOps 0) (mkDefault 0) false (fun _ => 0) = .ok r ∧
      r.m_width = 1 ∧ r.m_height = 1 ∧ r.getPixel 0 0 = .ok 16383 ∧
      (65535 + 65535 + 65535 + 65535) / 4 = 65535 ∧ (16383 : USHORT) ≠ 65535 := by
  exact ⟨_, rfl, rfl, rfl, rfl, rfl, by decide⟩

/-! ### The converting constructor -/

theorem forRange_convertBody_spec {U : Type} (convert : U → T) (src : Option (List U)) :
    ∀ (k i : Nat) (im : BaseImage T) (l : List T), im.m_data = some l → i + k ≤ l.length →
      (∀ j, i ≤ j → j < i + k → ∃ v, readAt src j = .ok v) →
      ∃ l', forRange (convertBody convert src) k i im = .ok { im with m_data := some l' } ∧
        l'.length = l.length ∧
        (∀ j, i ≤ j → j < i + k →
          ∃ u, readAt src j = .ok u ∧ l'[j]? = some (convert u)) ∧
        (∀ j, ¬ (i ≤ j ∧ j < i + k) → l'[j]? = l[j]?) := by
  intro k
  induction k with
  | zero =>
    intro i im l hd _ _
    refine ⟨l, ?_, rfl, ?_, fun _ _ => rfl⟩
    · simp only [forRange]
      congr 1
      cases im
      simp only at hd
      subst hd
      rfl
    · intro j h1 h2; omega
  | succ k ih =>
    intro i im l hd hlen ha
    obtain ⟨u, hu⟩ := ha i (Nat.le_refl i) (by omega)
    have hil : i < l.length := by omega
    have hbody : convertBody convert src i im =
        .ok { im with m_data := some (l.set i (convert u)) } := by
      simp [convertBody, hu, writeAt, hd, hil]
    obtain ⟨l', hrun, hlen', hin, hout⟩ := ih (i + 1)
      { im with m_data := some (l.set i (convert u)) } (l.set i (convert u)) rfl
      (by rw [List.length_set]; omega)
      (fun j h1 h2 => ha j (by omega) (by omega))
    refine ⟨l', ?_, ?_, ?_, ?_⟩
    · unfold forRange
      rw [hbody]
      exact hrun
    · rw [hlen', List.length_set]
    · intro j h1 h2
      by_cases hji : j = i
      · subst hji
        refine ⟨u, hu, ?_⟩
        rw [hout j (by omega)]
        simp [hil]
      · exact hin j (by omega) (by omega)
    · intro j hj
      rw [hout j (by omega)]
      have hne : i ≠ j := by omega
      simp [List.getElem?_set, hne]

/-- C21: for every source buffer `other` of pixel type `U` that holds its pixels and every
conversion `convert : U → T`, the converting constructor succeeds with a buffer of the
width and height of `other` that holds its pixels, whose pixel at every index `i` (and so
at every position `(x, y)`) is `convert` of the pixel of `other` there, and whose sentinel
is `convert` of the sentinel of `other`. -/
theorem convertFrom_converts_pixels_and_sentinel {U : Type} [FormatFromTemplate T]
    (convert : U → T) (other : BaseImage U) (hwf : other.WellFormed) (inv : T)
    (fresh : Nat → T) :
    ∃ r, convertFrom convert other inv fresh = .ok r ∧ r.WellFormed ∧
      r.m_width = other.m_width ∧ r.m_height = other.m_height ∧
      r.m_InvalidValue = convert other.m_InvalidValue ∧
      (∀ i, i < other.m_width * other.m_height →
        ∃ u, readAt other.m_data i = .ok u ∧ readAt r.m_data i = .ok (convert u)) ∧
      (∀ x y, x < other.m_width → y < other.m_height →
        ∃ u, other.getPixel x y = .ok u ∧ r.getPixel x y = .ok (convert u)) := by
  have hc := hwf.count_lt
  have hc2 : other.m_height * other.m_width < UINT_RANGE := by rw [Nat.mul_comm]; exact hc
  have hn : umul other.m_height other.m_width = other.m_height * other.m_width :=
    Nat.mod_eq_of_lt hc2
  obtain ⟨l', hrun, hlen', hin, _⟩ := forRange_convertBody_spec convert other.m_data
    (other.m_height * other.m_width) 0
    ((mkDefault inv).create other.m_width other.m_height fresh)
    ((List.range (other.m_height * other.m_width)).map fresh)
    (by simp [create, newArray, Nat.mod_eq_of_lt hc2])
    (by simp)
    (fun j _ hj => hwf.readAt_ok (by rw [Nat.mul_comm]; omega))
  have hlen : l'.length = other.m_width * other.m_height := by
    rw [hlen', List.length_map, List.length_range, Nat.mul_comm]
  have hidx : ∀ i, i < other.m_width * other.m_height →
      ∃ u, readAt other.m_data i = .ok u ∧ readAt (some l') i = .ok (convert u) := by
    intro i hi
    obtain ⟨u, hu, hl⟩ := hin i (Nat.zero_le i) (by rw [Nat.mul_comm]; omega)
    exact ⟨u, hu, by simp [readAt, hl]⟩
  have hfull : ∃ r, convertFrom convert other inv fresh = .ok r ∧ r.m_data = some l' ∧
      r.m_width = other.m_width ∧ r.m_height = other.m_height ∧
      r.m_InvalidValue = convert other.m_InvalidValue := by
    refine ⟨{ m_data := some l'
              m_height := other.m_height
              m_width := other.m_width
              m_InvalidValue := convert other.m_InvalidValue
              m_format := FormatFromTemplate.formatFromTemplate T }, ?_, rfl, rfl, rfl, rfl⟩
    unfold convertFrom
    dsimp only
    have hn2 : umul ((mkDefault inv).create other.m_width other.m_height fresh).m_height
        ((mkDefault inv).create other.m_width other.m_height fresh).m_width =
        other.m_height * other.m_width := hn
    rw [hn2, hrun]
    rfl
  obtain ⟨r, hr, hd, hw, hh, hs⟩ := hfull
  refine ⟨r, hr, ?_, hw, hh, hs, ?_, ?_⟩
  · refine ⟨hw ▸ hwf.1, hh ▸ hwf.2.1, ?_, ?_⟩
    · unfold storageLen
      rw [hd]
      show l'.length < UINT_RANGE
      omega
    · unfold storageLen
      rw [hd, hw, hh]
      exact hlen
  · intro i hi
    rw [hd]
    exact hidx i hi
  · intro x y hx hy
    have hoff := offset_lt hx hy
    obtain ⟨u, hu, hru⟩ := hidx _ hoff
    refine ⟨u, ?_, ?_⟩
    · rw [getPixel_eq_readAt other hx hy (by omega)]
      exact hu
    · rw [getPixel_eq_readAt r (hw ▸ hx) (hh ▸ hy) (by rw [hw]; omega), hd, hw]
      exact hru

/-- Witness of C21: converting the buffer `300 7` with sentinel `65536` to 16-bit pixels by
reduction modulo `2^16` gives the pixels `300 7` and the sentinel `0`. -/
theorem convertFrom_converts_pixels_and_sentinel_witness :
    exampleWide.WellFormed ∧
      ∃ r : BaseImage USHORT,
        convertFrom (fun n : Nat => (n : USHORT)) exampleWide 0 (fun _ => 0) = .ok r ∧
          r.m_width = 2 ∧ r.m_height = 1 ∧ r.m_InvalidValue = 0 ∧
          r.getPixel 0 0 = .ok 300 ∧ r.getPixel 1 0 = .ok 7 := by
  have hwf : exampleWide.WellFormed := by decide
  refine ⟨hwf, ?_⟩
  obtain ⟨r, hr, _, hw, hh, hs, _, hp⟩ :=
    convertFrom_converts_pixels_and_sentinel (fun n : Nat => (n : USHORT)) exampleWide hwf 0
      (fun _ => 0)
  obtain ⟨u, hu, hru⟩ := hp 0 0 (by decide) (by decide)
  obtain ⟨v, hv, hrv⟩ := hp 1 0 (by decide) (by decide)
  have hu0 : u = 300 := by
    have h : exampleWide.getPixel 0 0 = .ok 300 := rfl
    rw [h] at hu
    injection hu with hu
    exact hu.symm
  have hv0 : v = 7 := by
    have h : exampleWide.getPixel 1 0 = .ok 7 := rfl
    rw [h] at hv
    injection hv with hv
    exact hv.symm
  subst hu0 hv0
  refine ⟨r, hr, hw, hh, ?_, hru, hrv⟩
  rw [hs]
  decide

/-! ### Colour images from depth images -/

theorem WellFormed.pixelList_length {img : BaseImage T} (hwf : img.WellFormed) :
    (pixelList img).length = img.m_width * img.m_height := by
  have h := hwf.2.2.2
  unfold storageLen at h
  unfold pixelList
  cases hd : img.m_data with
  | none => rw [hd] at h; exact h
  | some l => rw [hd] at h; exact h

/-- Dereferencing the iterator at step `k` of a buffer that holds its pixels. -/
theorem iteratorAt_deref {img : BaseImage T} (hwf : img.WellFormed) {l : List T}
    (hd : img.m_data = some l) {k : Nat} (hk : k < l.length) :
    (iteratorAt img.m_width img.m_height k).deref img =
      .ok { x := k % img.m_width, y := k / img.m_width, value := l.get ⟨k, hk⟩ } := by
  have hlen : l.length = img.m_width * img.m_height := by
    have h := hwf.2.2.2
    unfold storageLen at h
    rw [hd] at h
    exact h
  have hk2 : k < img.m_width * img.m_height := by omega
  have hw : 0 < img.m_width := by
    rcases Nat.eq_zero_or_pos img.m_width with h0 | h0
    · rw [h0, Nat.zero_mul] at hk2; omega
    · exact h0
  have hx : k % img.m_width < img.m_width := Nat.mod_lt _ hw
  have hy : k / img.m_width < img.m_height :=
    Nat.div_lt_of_lt_mul hk2
  have hoff : k / img.m_width * img.m_width + k % img.m_width = k := Nat.div_add_mod' k _
  have hc := hwf.count_lt
  have hg := getPixelSize_eq_of_data hd hx hy (by omega) (by omega)
  simp only [iteratorAt, hk2, if_true, iterator.deref, hg, Bool.not_true]
  simp [hoff]

/-- Advancing the iterator at step `k` of a buffer that holds its pixels. -/
theorem iteratorAt_next {img : BaseImage T} (hwf : img.WellFormed) {k : Nat}
    (hk : k < img.m_width * img.m_height) :
    (iteratorAt img.m_width img.m_height k).next img =
      .ok (iteratorAt img.m_width img.m_height (k + 1)) := by
  have hw : 0 < img.m_width := by
    rcases Nat.eq_zero_or_pos img.m_width with h0 | h0
    · rw [h0, Nat.zero_mul] at hk; omega
    · exact h0
  have hwR : img.m_width < UINT_RANGE := hwf.1
  have hhR : img.m_height < UINT_RANGE := hwf.2.1
  have hx : k % img.m_width < img.m_width := Nat.mod_lt _ hw
  have hy : k / img.m_width < img.m_height := Nat.div_lt_of_lt_mul hk
  have hsplit : img.m_width * (k / img.m_width) + k % img.m_width = k := Nat.div_add_mod k _
  have hxs : (k % img.m_width + 1) % SIZE_RANGE = k % img.m_width + 1 := by
    apply Nat.mod_eq_of_lt
    unfold UINT_RANGE at hwR; unfold SIZE_RANGE; omega
  have hys : (k / img.m_width + 1) % SIZE_RANGE = k / img.m_width + 1 := by
    apply Nat.mod_eq_of_lt
    unfold UINT_RANGE at hhR; unfold SIZE_RANGE; omega
  have hmul : img.m_width * (k / img.m_width + 1) =
      img.m_width * (k / img.m_width) + img.m_width := Nat.mul_succ _ _
  have hle : img.m_width * (k / img.m_width + 1) ≤ img.m_width * img.m_height :=
    Nat.mul_le_mul_left _ hy
  simp only [iteratorAt, hk, if_true, iterator.next, Bool.not_true, getWidth, getHeight,
    hxs, hys]
  by_cases hr : k % img.m_width + 1 = img.m_width
  · have hk1 : k + 1 = img.m_width * (k / img.m_width + 1) := by omega
    have hmod : (k + 1) % img.m_width = 0 := by rw [hk1]; exact Nat.mul_mod_right _ _
    have hdiv : (k + 1) / img.m_width = k / img.m_width + 1 := by
      rw [hk1]; exact Nat.mul_div_cancel_left _ hw
    by_cases hq : k / img.m_width + 1 = img.m_height
    · have hend : ¬ (k + 1 < img.m_width * img.m_height) := by
        rw [hk1, hq]; omega
      simp [hr, hq, hend]
    · have hlt : k / img.m_width + 1 < img.m_height := by omega
      have hlt2 : img.m_width * (k / img.m_width + 1 + 1) ≤ img.m_width * img.m_height :=
        Nat.mul_le_mul_left _ hlt
      have hmul2 : img.m_width * (k / img.m_width + 1 + 1) =
          img.m_width * (k / img.m_width + 1) + img.m_width := Nat.mul_succ _ _
      have hin : k + 1 < img.m_width * img.m_height := by omega
      simp [hr, hq, hin, hmod, hdiv]
  · have hin : k + 1 < img.m_width * img.m_height := by omega
    have hk1 : k + 1 = img.m_width * (k / img.m_width) + (k % img.m_width + 1) := by omega
    have hmod : (k + 1) % img.m_width = k % img.m_width + 1 := by
      rw [hk1, Nat.mul_add_mod]
      exact Nat.mod_eq_of_lt (by omega)
    have hdiv : (k + 1) / img.m_width = k / img.m_width := by
      rw [hk1, Nat.mul_add_div hw]
      rw [Nat.div_eq_of_lt (show k % img.m_width + 1 < img.m_width by omega)]
      rfl
    simp [hr, hin, hmod, hdiv]

/-- The traversal from step `k` on visits the remaining pixels in storage order. -/
theorem traverse_from {img : BaseImage T} (hwf : img.WellFormed) {l : List T}
    (hd : img.m_data = some l) :
    ∀ (n k fuel : Nat) (visited : List (iteratorEntry T)),
      k + n = img.m_width * img.m_height → n ≤ fuel →
      traverse img fuel (iteratorAt img.m_width img.m_height k) visited =
        some (.ok (visited ++ ((l.drop k).enumFrom k).map
          (fun p => { x := p.1 % img.m_width, y := p.1 / img.m_width, value := p.2 }))) := by
  have hlen : l.length = img.m_width * img.m_height := by
    have h := hwf.2.2.2
    unfold storageLen at h
    rw [hd] at h
    exact h
  intro n
  induction n with
  | zero =>
    intro k fuel visited hk _
    have hend : ¬ (k < img.m_width * img.m_height) := by omega
    have hdrop : l.drop k = [] := List.drop_eq_nil_of_le (by omega)
    have hne : (iteratorAt img.m_width img.m_height k).ne iteratorEnd = false := by
      simp [iteratorAt, hend, iterator.ne, iteratorEnd]
    rw [hdrop]
    cases fuel with
    | zero => rw [traverse, hne]; simp
    | succ f => rw [traverse, hne]; simp
  | succ n ih =>
    intro k fuel visited hk hfuel
    have hk2 : k < img.m_width * img.m_height := by omega
    have hkl : k < l.length := by omega
    obtain ⟨fuel, rfl⟩ : ∃ f, fuel = f + 1 := ⟨fuel - 1, by omega⟩
    have hne : (iteratorAt img.m_width img.m_height k).ne iteratorEnd = true := by
      simp [iteratorAt, hk2, iterator.ne, iteratorEnd]
    have hdrop : l.drop k = l.get ⟨k, hkl⟩ :: l.drop (k + 1) := by
      rw [List.drop_eq_getElem_cons hkl]
      rfl
    rw [traverse]
    simp only [hne, if_true, iteratorAt_deref hwf hd hkl, iteratorAt_next hwf hk2]
    rw [ih (k + 1) fuel _ (by omega) (by omega), hdrop, List.enumFrom_cons, List.map_cons,
      List.append_assoc]
    rfl

/-- On a buffer that holds its pixels and has positive width and height, the traversal from
`begin()` ends after `w*h` steps having visited exactly the `w*h` entries
`(k mod w, k div w, pixel k)` in order, `k = 0, 1, ...`. -/
theorem traverse_nonempty {img : BaseImage T} (hwf : img.WellFormed)
    (hw : 0 < img.m_width) (hh : 0 < img.m_height) (fuel : Nat)
    (hfuel : img.m_width * img.m_height ≤ fuel) :
    traverse img fuel (begin img) [] = some (.ok (rowMajorEntries img)) ∧
      (rowMajorEntries img).length = img.m_width * img.m_height ∧
      ∀ k, k < img.m_width * img.m_height →
        ∃ v, img.getPixel (k % img.m_width) (k / img.m_width) = .ok v ∧
          (rowMajorEntries img)[k]? =
            some { x := k % img.m_width, y := k / img.m_width, value := v } := by
  have hpos : 0 < img.m_width * img.m_height := Nat.mul_pos hw hh
  have hlen0 := hwf.2.2.2
  unfold storageLen at hlen0
  cases hd : img.m_data with
  | none => rw [hd] at hlen0; dsimp only at hlen0; omega
  | some l =>
    rw [hd] at hlen0
    dsimp only at hlen0
    have hpl : pixelList img = l := by simp [pixelList, hd]
    have hbegin : begin img = iteratorAt img.m_width img.m_height 0 := by
      simp [begin, iteratorAt, hpos]
    refine ⟨?_, ?_, ?_⟩
    · rw [hbegin, traverse_from hwf hd (img.m_width * img.m_height) 0 fuel [] (by omega)
        hfuel]
      simp [rowMajorEntries, hpl, List.enum]
    · simp [rowMajorEntries, hpl, hlen0]
    · intro k hk
      have hkl : k < l.length := by omega
      have hx : k % img.m_width < img.m_width := Nat.mod_lt _ hw
      have hy : k / img.m_width < img.m_height := Nat.div_lt_of_lt_mul hk
      have hoff : k / img.m_width * img.m_width + k % img.m_width = k :=
        Nat.div_add_mod' k _
      have hc := hwf.count_lt
      refine ⟨l.get ⟨k, hkl⟩, ?_, ?_⟩
      · rw [getPixel_eq_readAt img hx hy (by omega), hoff, hd]
        simp [readAt, List.getElem?_eq_getElem hkl]
      · simp [rowMajorEntries, hpl, List.enum, List.getElem?_enumFrom,
          List.getElem?_eq_getElem hkl]

/-- C22 (failing input): on the empty buffer (width 0, height 0, no storage) `begin()`
differs from `end()`, so the traversal enters its body: dereferencing the iterator asks for
the pixel `(0, 0)` and fails the bounds assertion instead of visiting `0` entries. -/
theorem iterator_begin_of_empty_is_not_end :
    (mkDefault 0 : BaseImage Nat).m_width = 0 ∧ (mkDefault 0 : BaseImage Nat).m_height = 0 ∧
      (begin (mkDefault 0 : BaseImage Nat)).ne iteratorEnd = true ∧
      (begin (mkDefault 0 : BaseImage Nat)).deref (mkDefault 0) = .error Error.assertion ∧
      (begin (mkDefault 0 : BaseImage Nat)).next (mkDefault 0) =
        .ok { x := 1, y := 0, image := true } ∧
      ∀ fuel, traverse (mkDefault 0 : BaseImage Nat) (fuel + 1) (begin (mkDefault 0)) [] =
        some (.error Error.assertion) := by
  exact ⟨rfl, rfl, rfl, rfl, rfl, fun fuel => rfl⟩

/-! ### The binary container -/

theorem readU32_u32Bytes {n : Nat} (hn : n < UINT_RANGE) (rest : List Nat) :
    readU32 (u32Bytes n ++ rest) = some (n, rest) := by
  unfold UINT_RANGE at hn
  simp only [u32Bytes, readU32, List.cons_append, List.nil_append, Option.some.injEq,
    Prod.mk.injEq, and_true]
  omega

theorem rawBytes_cons (L : PixelLayout T) (p : T) (l : List T) :
    rawBytes L (p :: l) = L.toBytes p ++ rawBytes L l := by
  simp [rawBytes]

theorem rawBytes_length (L : PixelLayout T) (hL : ∀ p, (L.toBytes p).length = L.sizeOf) :
    ∀ l : List T, (rawBytes L l).length = l.length * L.sizeOf := by
  intro l
  induction l with
  | nil => simp [rawBytes]
  | cons p l ih =>
    rw [rawBytes_cons, List.length_append, hL, ih, List.length_cons, Nat.succ_mul]
    omega

/-- The bytes of pixel `j` of an array lie at the offset `j * sizeof(T)`. -/
theorem rawBytes_chunk (L : PixelLayout T) (hL : ∀ p, (L.toBytes p).length = L.sizeOf) :
    ∀ (l : List T) (j : Nat) (hj : j < l.length),
      ((rawBytes L l).drop (j * L.sizeOf)).take L.sizeOf = L.toBytes (l.get ⟨j, hj⟩) := by
  intro l
  induction l with
  | nil => intro j hj; simp at hj
  | cons p l ih =>
    intro j hj
    rw [rawBytes_cons]
    cases j with
    | zero =>
      rw [Nat.zero_mul, List.drop_zero, ← hL p]
      simp
    | succ j =>
      have hj2 : j < l.length := by simpa using hj
      have h1 : (j + 1) * L.sizeOf = (L.toBytes p).length + j * L.sizeOf := by
        rw [hL, Nat.succ_mul]; omega
      rw [h1, List.drop_append, ih j hj2]
      rfl

/-- Reading the bytes of an array back gives the array. -/
theorem decodePixels_rawBytes (L : PixelLayout T) (hL : L.Lawful) (l : List T) :
    decodePixels L l.length (rawBytes L l) = l := by
  apply List.ext_getElem
  · simp [decodePixels]
  · intro j h1 h2
    simp only [decodePixels, List.getElem_map, List.getElem_range]
    have h := rawBytes_chunk L hL.2.2.1 l j h2
    rw [h]
    exact hL.2.2.2 _

/-- Writing one block of exactly the bytes of the array. -/
theorem writeBlock_all (L : PixelLayout T) (p : Option (List T)) :
    writeBlock L p (rawBytes L (arrayPixels p)).length = .ok (rawBytes L (arrayPixels p)) := by
  unfold writeBlock
  by_cases h0 : (rawBytes L (arrayPixels p)).length = 0
  · rw [if_pos h0]
    rw [List.length_eq_zero.mp h0]
  · rw [if_neg h0, if_pos (Nat.le_refl _), List.take_length]

/-- The file `saveBinaryMImageArray` writes for arrays that hold `width*height` pixels
each, when the byte count of a block is an `unsigned int`. -/
theorem saveBinaryMImageArray_eq (L : PixelLayout T) (hL : L.Lawful) (ext : String)
    (hext : ext = "mbindepth" ∨ ext = "mbinRGB") (data : List (Option (List T)))
    (w h : Nat) (hb : w * h * L.sizeOf < UINT_RANGE)
    (hdata : ∀ p ∈ data, (arrayPixels p).length = w * h) :
    saveBinaryMImageArray L ext true data w h data.length =
      .ok (u32Bytes data.length ++ u32Bytes w ++ u32Bytes h ++ u32Bytes L.sizeOf ++
        (data.map (fun p => rawBytes L (arrayPixels p))).flatten) := by
  have hne : ¬ (ext ≠ "mbindepth" ∧ ext ≠ "mbinRGB") := by
    rcases hext with h | h <;> simp [h]
  have hs : L.sizeOf % UINT_RANGE = L.sizeOf := Nat.mod_eq_of_lt hL.2.1
  have hwh : w * h < UINT_RANGE := by
    have h1 : w * h ≤ w * h * L.sizeOf := Nat.le_mul_of_pos_right _ hL.1
    omega
  have hcount : umul (umul w h) L.sizeOf = w * h * L.sizeOf := by
    unfold umul
    rw [Nat.mod_eq_of_lt hwh, Nat.mod_eq_of_lt hb]
  obtain ⟨out, hout, hP⟩ := forRange_induct
    (fun i (out : List Nat) =>
      out = u32Bytes data.length ++ u32Bytes w ++ u32Bytes h ++ u32Bytes L.sizeOf ++
        ((data.take i).map (fun p => rawBytes L (arrayPixels p))).flatten)
    (fun i out =>
      match data[i]? with
      | none => .error Error.undefined
      | some p =>
        match writeBlock L p (umul (umul w h) L.sizeOf) with
        | .error e => .error e
        | .ok block => .ok (out ++ block))
    data.length 0
    (u32Bytes data.length ++ u32Bytes w ++ u32Bytes h ++ u32Bytes L.sizeOf)
    (fun i out _ hi hP => by
      have hil : i < data.length := by omega
      have hlen : (rawBytes L (arrayPixels (data[i]))).length = w * h * L.sizeOf := by
        rw [rawBytes_length L hL.2.2.1, hdata _ (List.getElem_mem _)]
      have hwr : writeBlock L (data[i]) (umul (umul w h) L.sizeOf) =
          .ok (rawBytes L (arrayPixels (data[i]))) := by
        rw [hcount, ← hlen]
        exact writeBlock_all L _
      refine ⟨out ++ rawBytes L (arrayPixels (data[i])), ?_, ?_⟩
      · simp only [List.getElem?_eq_getElem hil, hwr]
      · have hP2 : out = u32Bytes data.length ++ u32Bytes w ++ u32Bytes h ++
            u32Bytes L.sizeOf ++
            ((data.take i).map (fun p => rawBytes L (arrayPixels p))).flatten := hP
        show out ++ rawBytes L (arrayPixels (data[i])) =
          u32Bytes data.length ++ u32Bytes w ++ u32Bytes h ++ u32Bytes L.sizeOf ++
            ((data.take (i + 1)).map (fun p => rawBytes L (arrayPixels p))).flatten
        rw [hP2, List.take_succ, List.getElem?_eq_getElem hil]
        simp only [Option.toList, List.map_append, List.flatten_append, List.map_cons,
          List.map_nil, List.flatten_cons, List.flatten_nil, List.append_nil,
          List.append_assoc])
    (by simp)
  unfold saveBinaryMImageArray
  rw [if_neg hne]
  simp only [Bool.not_true, Bool.false_eq_true, if_false, hs]
  rw [hout, hP, Nat.zero_add, List.take_length]

theorem ushortLayout_lawful : ushortLayout.Lawful := by
  refine ⟨by decide, by decide, fun _ => rfl, ?_⟩
  intro p
  show ((p.val % 256 + 256 * (p.val / 256) : Nat) : USHORT) = p
  rw [Nat.mod_add_div]
  exact ZMod.natCast_zmod_val p

/-- The array loader on a stream that starts with a complete header. -/
theorem loadBinaryMImageArray_header (L : PixelLayout T) (ext : String)
    (hext : ext = "mbindepth" ∨ ext = "mbinRGB") {n w h b : Nat} (hn : n < UINT_RANGE)
    (hw : w < UINT_RANGE) (hh : h < UINT_RANGE) (hb : b < UINT_RANGE) (rest : List Nat)
    (width0 height0 : Nat) :
    loadBinaryMImageArray L ext
        (some (u32Bytes n ++ (u32Bytes w ++ (u32Bytes h ++ (u32Bytes b ++ rest)))))
        width0 height0 =
      if L.sizeOf ≠ b then ⟨.error Error.assertion, w, h⟩
      else
        match forRange (fun _ s => readBlock L w h b s) n 0 (rest, []) with
        | .error e => ⟨.error e, w, h⟩
        | .ok s => ⟨.ok s.2, w, h⟩ := by
  have hne : ¬ (ext ≠ "mbindepth" ∧ ext ≠ "mbinRGB") := by
    rcases hext with h | h <;> simp [h]
  unfold loadBinaryMImageArray
  rw [if_neg hne]
  simp only [readU32_u32Bytes hn, readU32_u32Bytes hw, readU32_u32Bytes hh,
    readU32_u32Bytes hb]

/-- The layout of the container: for every batch `data` of arrays of `w*h` pixels each, of
a pixel type of size `b = sizeof(T)`, with `w`, `h`, the number of arrays and the byte count
`w*h*b` of a block all `unsigned int` values, `saveBinaryMImageArray` under a recognised
extension writes the
four fields `numImages`, `w`, `h`, `b`, each as four bytes least significant first (so
that reading four bytes back gives the field), followed by one block per array that
consists of exactly the `w*h*b` bytes of its pixels in storage order. -/
theorem saveBinaryMImageArray_layout (L : PixelLayout T) (hL : L.Lawful) (ext : String)
    (hext : ext = "mbindepth" ∨ ext = "mbinRGB") (data : List (Option (List T)))
    (w h : Nat) (hn : data.length < UINT_RANGE) (hw : w < UINT_RANGE)
    (hh : h < UINT_RANGE) (hb : w * h * L.sizeOf < UINT_RANGE)
    (hdata : ∀ p ∈ data, (arrayPixels p).length = w * h) :
    saveBinaryMImageArray L ext true data w h data.length =
        .ok (u32Bytes data.length ++ u32Bytes w ++ u32Bytes h ++ u32Bytes L.sizeOf ++
          (data.map (fun p => rawBytes L (arrayPixels p))).flatten) ∧
      (∀ p ∈ data, (rawBytes L (arrayPixels p)).length = w * h * L.sizeOf) ∧
      (∀ rest, readU32 (u32Bytes data.length ++ rest) = some (data.length, rest)) ∧
      (∀ rest, readU32 (u32Bytes w ++ rest) = some (w, rest)) ∧
      (∀ rest, readU32 (u32Bytes h ++ rest) = some (h, rest)) ∧
      (∀ rest, readU32 (u32Bytes L.sizeOf ++ rest) = some (L.sizeOf, rest)) := by
  refine ⟨saveBinaryMImageArray_eq L hL ext hext data w h hb hdata, ?_,
    readU32_u32Bytes hn, readU32_u32Bytes hw, readU32_u32Bytes hh, readU32_u32Bytes hL.2.1⟩
  intro p hp
  rw [rawBytes_length L hL.2.2.1, hdata p hp]

/-- The example of the specification: the 2x3 buffer of the 16-bit values `1 .. 6` is
written as the header
`01 00 00 00 | 02 00 00 00 | 03 00 00 00 | 02 00 00 00` followed by 12 bytes of pixels. -/
theorem saveBinaryMImageArray_layout_witness :
    ushortLayout.Lawful ∧
      saveBinaryMImageArray ushortLayout "mbindepth" true [exampleSix.m_data] 2 3 1 =
        .ok [1, 0, 0, 0, 2, 0, 0, 0, 3, 0, 0, 0, 2, 0, 0, 0,
          1, 0, 2, 0, 3, 0, 4, 0, 5, 0, 6, 0] ∧
      saveAsBinaryMImage ushortLayout "mbindepth" true exampleSix =
        .ok [1, 0, 0, 0, 2, 0, 0, 0, 3, 0, 0, 0, 2, 0, 0, 0,
          1, 0, 2, 0, 3, 0, 4, 0, 5, 0, 6, 0] := by
  have h := (saveBinaryMImageArray_layout ushortLayout ushortLayout_lawful "mbindepth"
    (Or.inl rfl) [exampleSix.m_data] 2 3 (by decide) (by decide) (by decide) (by decide)
    (by
      intro p hp
      rw [List.mem_singleton.mp hp]
      rfl)).1
  exact ⟨ushortLayout_lawful, h.trans rfl, h.trans rfl⟩

/-- C24 (amended): for every buffer `A` that holds its pixels, with a byte count
`w*h*sizeof(T)` that is an `unsigned int`, `saveAsBinaryMImage` under a recognised
extension writes bytes from which `loadBinaryMImageArray` reads back the width of `A`, the
height of `A` and one array with the pixel values of `A`; the bytes do not depend on the
sentinel of `A`, which the container does not hold. -/
theorem binary_round_trip_without_sentinel (L : PixelLayout T) (hL : L.Lawful)
    (ext : String) (hext : ext = "mbindepth" ∨ ext = "mbinRGB") (A : BaseImage T)
    (hwf : A.WellFormed) (hb : A.m_width * A.m_height * L.sizeOf < UINT_RANGE) :
    ∃ bytes, saveAsBinaryMImage L ext true A = .ok bytes ∧
      (∀ s, saveAsBinaryMImage L ext true (A.setInvalidValue s) = .ok bytes) ∧
      ∀ width0 height0,
        (loadBinaryMImageArray L ext (some bytes) width0 height0 :
            Loaded (List (List T))).outcome = .ok [pixelList A] ∧
          (loadBinaryMImageArray L ext (some bytes) width0 height0 :
            Loaded (List (List T))).width = A.m_width ∧
          (loadBinaryMImageArray L ext (some bytes) width0 height0 :
            Loaded (List (List T))).height = A.m_height := by
  have hlen : (arrayPixels A.m_data).length = A.m_width * A.m_height :=
    hwf.pixelList_length
  have hsave := saveBinaryMImageArray_eq L hL ext hext [A.m_data] A.m_width A.m_height hb
    (by
      intro p hp
      rw [List.mem_singleton.mp hp]
      exact hlen)
  have hbytes : u32Bytes [A.m_data].length ++ u32Bytes A.m_width ++ u32Bytes A.m_height ++
      u32Bytes L.sizeOf ++
      ([A.m_data].map (fun p => rawBytes L (arrayPixels p))).flatten =
      u32Bytes 1 ++ (u32Bytes A.m_width ++ (u32Bytes A.m_height ++
        (u32Bytes L.sizeOf ++ rawBytes L (pixelList A)))) := by
    simp [pixelList, arrayPixels, List.append_assoc]
  rw [hbytes] at hsave
  refine ⟨_, hsave, fun s => hsave, ?_⟩
  intro width0 height0
  have hcount : umul A.m_width A.m_height = A.m_width * A.m_height := hwf.umul_eq
  have hbc : umul (umul A.m_width A.m_height) L.sizeOf =
      A.m_width * A.m_height * L.sizeOf := by
    rw [hcount]
    exact Nat.mod_eq_of_lt hb
  have hrl : (rawBytes L (pixelList A)).length = A.m_width * A.m_height * L.sizeOf := by
    rw [rawBytes_length L hL.2.2.1, hwf.pixelList_length]
  have hblock : readBlock L A.m_width A.m_height L.sizeOf (rawBytes L (pixelList A), []) =
      .ok ([], [pixelList A]) := by
    unfold readBlock
    dsimp only
    rw [hbc, hcount, if_pos ⟨rfl, by rw [hrl]⟩, ← hrl, List.drop_length, List.take_length,
      List.nil_append]
    have hd := decodePixels_rawBytes L hL (pixelList A)
    rw [hwf.pixelList_length] at hd
    rw [hd]
  have hrun : forRange (fun _ s => readBlock L A.m_width A.m_height L.sizeOf s) 1 0
      (rawBytes L (pixelList A), ([] : List (List T))) = .ok ([], [pixelList A]) := by
    unfold forRange
    rw [hblock]
    rfl
  rw [loadBinaryMImageArray_header L ext hext (by decide) hwf.1 hwf.2.1 hL.2.1]
  simp only [ne_eq, not_true_eq_false, if_false, hrun, and_self]

/-- Witness of C24 (amended): the 2x3 buffer of 16-bit values. -/
theorem binary_round_trip_without_sentinel_witness :
    ushortLayout.Lawful ∧ exampleSix.WellFormed ∧
      ∃ bytes, saveAsBinaryMImage ushortLayout "mbindepth" true exampleSix = .ok bytes ∧
        (loadBinaryMImageArray ushortLayout "mbindepth" (some bytes) 0 0 :
          Loaded (List (List USHORT))).outcome = .ok [[1, 2, 3, 4, 5, 6]] := by
  obtain ⟨bytes, h1, _, h3⟩ := binary_round_trip_without_sentinel ushortLayout
    ushortLayout_lawful "mbindepth" (Or.inl rfl) exampleSix (by decide) (by decide)
  exact ⟨ushortLayout_lawful, by decide, bytes, h1, (h3 0 0).1⟩

/-- Counterexample to C24 as stated: the 2x1 buffer `65535 2` with sentinel `0` and the
same buffer with sentinel `9` are written as the same bytes, so no reader can give the
target the sentinel of the buffer written; and `loadFromBinaryMImage` of these bytes into
the 2x3 buffer `1 .. 6` ends in the undefined pointer handling of `loadBinaryMImage` with
the sentinel and the pixels of the target as they were. -/
theorem binary_round_trip_loses_sentinel :
    saveAsBinaryMImage ushortLayout "mbindepth" true (exampleDepthA.setInvalidValue 9) =
        .ok [1, 0, 0, 0, 2, 0, 0, 0, 1, 0, 0, 0, 2, 0, 0, 0, 255, 255, 2, 0] ∧
      saveAsBinaryMImage ushortLayout "mbindepth" true exampleDepthA =
        .ok [1, 0, 0, 0, 2, 0, 0, 0, 1, 0, 0, 0, 2, 0, 0, 0, 255, 255, 2, 0] ∧
      (exampleDepthA.setInvalidValue 9).m_InvalidValue = 9 ∧
      exampleDepthA.m_InvalidValue = 0 ∧
      (loadFromBinaryMImage ushortLayout "mbindepth"
        (some [1, 0, 0, 0, 2, 0, 0, 0, 1, 0, 0, 0, 2, 0, 0, 0, 255, 255, 2, 0])
        exampleSix).1 = .error Error.undefined ∧
      (loadFromBinaryMImage ushortLayout "mbindepth"
        (some [1, 0, 0, 0, 2, 0, 0, 0, 1, 0, 0, 0, 2, 0, 0, 0, 255, 255, 2, 0])
        exampleSix).2.m_InvalidValue = 0 ∧
      (loadFromBinaryMImage ushortLayout "mbindepth"
        (some [1, 0, 0, 0, 2, 0, 0, 0, 1, 0, 0, 0, 2, 0, 0, 0, 255, 255, 2, 0])
        exampleSix).2.m_data = some [1, 2, 3, 4, 5, 6] :=
  ⟨rfl, rfl, rfl, rfl, rfl, rfl, rfl⟩

/-- C25 (failing input): `loadFromBinaryMImage` into the 2x1 buffer `65535 2` of 16-bit
pixels, from a stream whose header announces one 5x7 image of 4 bytes per pixel, fails the
size assertion, but by then the width and the height of the buffer are already 5 and 7: the
header fields are read straight into `m_width` and `m_height`.  The pixels and the sentinel
are as before. -/
theorem loadFromBinaryMImage_mismatch_overwrites_size :
    exampleDepthA.m_width = 2 ∧ exampleDepthA.m_height = 1 ∧
      (loadFromBinaryMImage ushortLayout "mbindepth" (some exampleMismatchStream)
        exampleDepthA).1 = .error Error.assertion ∧
      (loadFromBinaryMImage ushortLayout "mbindepth" (some exampleMismatchStream)
        exampleDepthA).2.m_width = 5 ∧
      (loadFromBinaryMImage ushortLayout "mbindepth" (some exampleMismatchStream)
        exampleDepthA).2.m_height = 7 ∧
      (loadFromBinaryMImage ushortLayout "mbindepth" (some exampleMismatchStream)
        exampleDepthA).2.m_data = exampleDepthA.m_data ∧
      (loadFromBinaryMImage ushortLayout "mbindepth" (some exampleMismatchStream)
        exampleDepthA).2.m_InvalidValue = exampleDepthA.m_InvalidValue :=
  ⟨rfl, rfl, rfl, rfl, rfl, rfl, rfl⟩

/-- When the `unsigned int` product `width * height * bytesPerPixel` is zero, no pixel byte
is written: the file is the header alone. -/
theorem saveBinaryMImageArray_of_wrapped_count (L : PixelLayout T) (p : Option (List T))
    (w h : Nat) (hzero : umul (umul w h) (L.sizeOf % UINT_RANGE) = 0) :
    saveBinaryMImageArray L "mbindepth" true [p] w h 1 =
      .ok (u32Bytes 1 ++ u32Bytes w ++ u32Bytes h ++ u32Bytes (L.sizeOf % UINT_RANGE)) := by
  have hne : ¬ (("mbindepth" : String) ≠ "mbindepth" ∧ ("mbindepth" : String) ≠ "mbinRGB") :=
    by simp
  unfold saveBinaryMImageArray
  rw [if_neg hne]
  simp only [Bool.not_true, Bool.false_eq_true, if_false, forRange, hzero, writeBlock,
    List.getElem?_cons_zero, if_true, List.append_nil]

/-- C23 (failing input): the 32768x32768 buffer of 4-byte pixels holds its `2^30` pixels,
whose bytes in memory number `2^32`, but `saveAsBinaryMImage` writes the 16 header bytes
and no pixel byte at all: the byte count `width * height * bytesPerPixel` is computed in
`unsigned int` and wraps around to zero. -/
theorem saveAsBinaryMImage_byte_count_wraps :
    (sized 32768 32768 0 (fun _ => 7) : BaseImage Nat).WellFormed ∧
      (rawBytes uintLayout
        (pixelList (sized 32768 32768 0 (fun _ => 7) : BaseImage Nat))).length =
        4294967296 ∧
      saveAsBinaryMImage uintLayout "mbindepth" true
          (sized 32768 32768 0 (fun _ => 7) : BaseImage Nat) =
        .ok [1, 0, 0, 0, 0, 128, 0, 0, 0, 128, 0, 0, 4, 0, 0, 0] := by
  have hw : (32768 : Nat) < UINT_RANGE := by decide
  have hc : (32768 : Nat) * 32768 < UINT_RANGE := by decide
  have hwf : (sized 32768 32768 0 (fun _ => 7) : BaseImage Nat).WellFormed :=
    sized_wellFormed' 0 (fun _ => 7) hw hw hc
  obtain ⟨h1, h2, _⟩ := sized_wellFormed (0 : Nat) (fun _ => 7) hw hw hc
  refine ⟨hwf, ?_, ?_⟩
  · rw [rawBytes_length uintLayout (fun _ => rfl), hwf.pixelList_length, h1, h2]
    rfl
  · unfold saveAsBinaryMImage saveBinaryMImage
    rw [h1, h2]
    exact saveBinaryMImageArray_of_wrapped_count uintLayout _ 32768 32768 (by decide)

/-! ### Copies of an iterator -/

/-- The copy constructor keeps the column and the image and takes the row from the
column; the assignment operator keeps all three. -/
theorem iterator_copy_eq (i : iterator) :
    i.copy = { x := i.x, y := i.x, image := i.image } ∧ ∀ it : iterator, it.assign i = i :=
  ⟨rfl, fun _ => rfl⟩

/-- C33 (failing input): on the 2x2 buffer `10 20 / 30 40` the iterator reached from
`begin()` by two steps is at `(0, 1)` and dereferences to `(0, 1, 30)`; its copy is at
`(0, 0)` and dereferences to `(0, 0, 10)`, because the copy constructor sets `y = i.x`.
Likewise the copy of the iterator at `(1, 0)` is at `(1, 1)`.  Assignment keeps the
position. -/
theorem iterator_copy_takes_row_from_column :
    (begin exampleImage).next exampleImage = .ok { x := 1, y := 0, image := true } ∧
      iterator.next exampleImage { x := 1, y := 0, image := true } =
        .ok { x := 0, y := 1, image := true } ∧
      (iterator.deref exampleImage { x := 0, y := 1, image := true }).map
        (fun e => (e.x, e.y, e.value)) = .ok (0, 1, 30) ∧
      iterator.copy { x := 0, y := 1, image := true } = { x := 0, y := 0, image := true } ∧
      (iterator.deref exampleImage
        (iterator.copy { x := 0, y := 1, image := true })).map
        (fun e => (e.x, e.y, e.value)) = .ok (0, 0, 10) ∧
      iterator.copy { x := 1, y := 0, image := true } = { x := 1, y := 1, image := true } ∧
      (iterator.deref exampleImage { x := 1, y := 0, image := true }).map
        (fun e => (e.x, e.y, e.value)) = .ok (1, 0, 20) ∧
      (iterator.deref exampleImage
        (iterator.copy { x := 1, y := 0, image := true })).map
        (fun e => (e.x, e.y, e.value)) = .ok (1, 1, 40) ∧
      iterator.assign (begin exampleImage) { x := 0, y := 1, image := true } =
        { x := 0, y := 1, image := true } :=
  ⟨rfl, rfl, rfl, rfl, rfl, rfl, rfl, rfl, rfl⟩

/-! ### Resampling to a single row or column -/

theorem forRange_congr {σ : Type} (b1 b2 : Nat → σ → Except Error σ) :
    ∀ (k lo : Nat) (s : σ), (∀ i t, lo ≤ i → i < lo + k → b1 i t = b2 i t) →
      forRange b1 k lo s = forRange b2 k lo s := by
  intro k
  induction k with
  | zero => intro lo s _; rfl
  | succ k ih =>
    intro lo s h
    unfold forRange
    rw [h lo s (Nat.le_refl lo) (by omega)]
    cases b2 lo s with
    | error e => rfl
    | ok t => exact ih (lo + 1) t (fun i u h1 h2 => h i u (by omega) (by omega))

/-- The outcome of `reSample` depends on the index function only through the indices of the
new columns and rows. -/
theorem reSample_congr [FormatFromTemplate T] (f g : Nat → Nat → Nat → Nat)
    (img : BaseImage T) (newWidth newHeight : Nat) (inv : T) (fresh : Nat → T)
    (hx : ∀ j, j < newWidth → f j newWidth img.m_width = g j newWidth img.m_width)
    (hy : ∀ i, i < newHeight → f i newHeight img.m_height = g i newHeight img.m_height) :
    img.reSample f newWidth newHeight inv fresh =
      img.reSample g newWidth newHeight inv fresh := by
  unfold reSample
  by_cases hne : img.m_width ≠ newWidth ∨ img.m_height ≠ newHeight
  · rw [if_pos hne, if_pos hne]
    dsimp only
    rw [forRange_congr _
      (fun i r => forRange (fun j r1 =>
        r1.assignPixel j i
          (img.getPixel (g j newWidth img.m_width) (g i newHeight img.m_height)))
        newWidth 0 r) newHeight 0 _
      (fun i t _ hi => forRange_congr _ _ newWidth 0 t
        (fun j u _ hj => by
          rw [hx j (by omega), hy i (by omega)]))]
  · rw [if_neg hne, if_neg hne]

/-- For a new dimension of at least two there is a sample coordinate, and the index read
is the one of the exact model. -/
theorem normIndexChecked_of_two_le (nanIndex j dim : Nat) {newDim : Nat}
    (h2 : 2 ≤ newDim) (hR : newDim < UINT_RANGE) :
    sampleCoordinate j newDim = some ((j : ℚ) / ((newDim - 1 : Nat) : ℚ)) ∧
      normIndexChecked nanIndex j newDim dim = normIndexExact j newDim dim := by
  have hsub : usub newDim 1 = newDim - 1 := usub_eq_sub (by omega) hR
  have hne : ¬ (usub newDim 1 = 0) := by rw [hsub]; omega
  have hs : sampleCoordinate j newDim = some ((j : ℚ) / ((newDim - 1 : Nat) : ℚ)) := by
    unfold sampleCoordinate
    rw [if_neg hne, hsub]
  refine ⟨hs, ?_⟩
  unfold normIndexChecked
  rw [hs]
  unfold normIndexExact
  rw [hsub]
  rfl

/-- For the new dimension one the divisor `newDim - 1` is zero. -/
theorem sampleCoordinate_one (j : Nat) : sampleCoordinate j 1 = none := by
  have h : usub 1 1 = 0 := by simp [usub, UINT_RANGE]
  unfold sampleCoordinate
  rw [if_pos h]

/-- The index read for the new dimension one is the outcome of the division by zero. -/
theorem normIndexChecked_one (nanIndex j dim : Nat) :
    normIndexChecked nanIndex j 1 dim = nanIndex := by
  unfold normIndexChecked
  rw [sampleCoordinate_one]
  rfl

/-- The indices `reSample(1, 2)` reads on a 2x2 buffer: the column is the outcome of the
division by zero, the row is the new row. -/
theorem normIndexChecked_single_column (nanIndex : Nat) :
    (∀ j, j < 1 → normIndexChecked nanIndex j 1 2 =
      (fun j newDim (_ : Nat) => if newDim = 1 then nanIndex else j) j 1 2) ∧
    (∀ i, i < 2 → normIndexChecked nanIndex i 2 2 =
      (fun j newDim (_ : Nat) => if newDim = 1 then nanIndex else j) i 2 2) := by
  have hR : (2 : Nat) < UINT_RANGE := by simp [UINT_RANGE]
  constructor
  · intro j _
    rw [normIndexChecked_one]
    simp
  · intro i hi
    rw [(normIndexChecked_of_two_le nanIndex i 2 (Nat.le_refl 2) hR).2]
    have h01 : i = 0 ∨ i = 1 := by omega
    rcases h01 with h | h
    · subst h
      rw [normIndexExact_zero]
      simp
    · subst h
      have hl := @normIndexExact_last 2 2 (Nat.le_refl 2) hR (by omega) hR
      simpa using hl

/-- C31 (failing input): `reSample(1, 2)` on the 2x2 buffer `10 20 / 30 40`.  The divisor
`newWidth - 1` is zero, so the sample coordinate of the only column `j = 0` is the outcome
of a division by zero.  What index the conversion of that outcome to `unsigned int` gives is
not defined: if it is `0` the call succeeds and reads column `0`; if it is `2^31` the read
fails the bounds assertion. -/
theorem reSample_single_column_divides_by_zero :
    usub 1 1 = 0 ∧ sampleCoordinate 0 1 = none ∧
      (∀ nanIndex, normIndexChecked nanIndex 0 1 exampleImage.m_width = nanIndex) ∧
      (∃ r, exampleImage.reSample (normIndexChecked 0) 1 2 0 (fun _ => 0) = .ok r ∧
        r.m_width = 1 ∧ r.m_height = 2 ∧ r.getPixel 0 0 = .ok 10 ∧
        r.getPixel 0 1 = .ok 30) ∧
      exampleImage.reSample (normIndexChecked 2147483648) 1 2 0 (fun _ => 0) =
        .error Error.assertion := by
  refine ⟨by simp [usub, UINT_RANGE], sampleCoordinate_one 0, fun n => ?_, ?_, ?_⟩
  · exact normIndexChecked_one n 0 _
  · have h := reSample_congr (normIndexChecked 0)
      (fun j newDim (_ : Nat) => if newDim = 1 then 0 else j) exampleImage 1 2 0 (fun _ => 0)
      (normIndexChecked_single_column 0).1 (normIndexChecked_single_column 0).2
    exact ⟨_, h.trans rfl, rfl, rfl, rfl, rfl⟩
  · have h := reSample_congr (normIndexChecked 2147483648)
      (fun j newDim (_ : Nat) => if newDim = 1 then 2147483648 else j) exampleImage 1 2 0
      (fun _ => 0)
      (normIndexChecked_single_column 2147483648).1
      (normIndexChecked_single_column 2147483648).2
    exact h.trans rfl

/-! ### The PPM text of a `DepthImage` -/

theorem convertValueToExternalPPMFormat_zero : convertValueToExternalPPMFormat 0 = 0 := by
  unfold convertValueToExternalPPMFormat
  have hf : Int.floor ((0 : ℚ) * 255 + 49999 / 100000) = 0 := by
    rw [Int.floor_eq_iff]
    norm_num
  rw [if_neg (by norm_num), if_neg (by norm_num), hf]
  rfl

theorem convertValueToExternalPPMFormat_one : convertValueToExternalPPMFormat 1 = 255 := by
  unfold convertValueToExternalPPMFormat
  have hf : Int.floor ((1 : ℚ) * 255 + 49999 / 100000) = 255 := by
    rw [Int.floor_eq_iff]
    norm_num
  rw [if_neg (by norm_num), if_neg (by norm_num), hf]
  rfl

theorem saveAsPPM_exampleDepthRow :
    saveAsPPM exampleDepthRow "depth.ppm" true = .ok exampleDepthRowText := by
  have h00 : exampleDepthRow.getPixel 0 0 = .ok 0 := rfl
  have h10 : exampleDepthRow.getPixel 1 0 = .ok 1 := rfl
  have hw : exampleDepthRow.m_width = 2 := rfl
  have hh : exampleDepthRow.m_height = 1 := rfl
  simp only [saveAsPPM, hw, hh, forRange, savePPMPixel, h00, h10,
    convertValueToExternalPPMFormat_zero, convertValueToExternalPPMFormat_one,
    Bool.not_true, Bool.false_eq_true, if_false, List.nil_append, List.cons_append]
  rfl

theorem loadFromPPM_exampleDepthRowText :
    ∃ r, loadFromPPM (mkDefault (-1)) (some exampleDepthRowText) (fun _ => 0) = .ok r ∧
      r.m_width = 1 ∧ r.m_height = 2 ∧
      r.getPixel 0 0 = .ok (convertValueFromExternalPPMFormat 0) ∧
      r.getPixel 0 1 = .ok (convertValueFromExternalPPMFormat 255) ∧
      r.getPixel 1 0 = .error Error.assertion := by
  have ha : (mkDefault (-1) : BaseImage ℚ).allocate 1 2 (fun _ => 0) =
      { m_data := some [0, 0], m_height := 2, m_width := 1, m_InvalidValue := -1,
        m_format := Format.FORMAT_Unknown } := rfl
  have hc : (1 < UINT_RANGE ∧ 2 < UINT_RANGE) := by simp [UINT_RANGE]
  have hload : loadFromPPM (mkDefault (-1)) (some exampleDepthRowText) (fun _ => 0) =
      .ok { m_data := some [convertValueFromExternalPPMFormat 0,
              convertValueFromExternalPPMFormat 255],
            m_height := 2, m_width := 1, m_InvalidValue := -1,
            m_format := Format.FORMAT_Unknown } := by
    simp [loadFromPPM, exampleDepthRowText, ha, hc, forRange, loadPPMPixel, MLIB_ASSERT,
      setPixel, pixelOffset, writeAt, UINT_RANGE]
  exact ⟨_, hload, rfl, rfl, rfl, rfl, rfl⟩

/-- C32 (failing input): the 2x1 depth image `0 1` (width 2, height 1, values in `[0, 1]`)
is written by `saveAsPPM` with the third line `1 2` (height first) and the numbers
`0 0 0 255 255 255`; `loadFromPPM` takes the first number of that line as the width, so
the image read back has width 1 and height 2: its pixels are `0/255` at `(0, 0)` and
`255/255` at `(0, 1)`, and there is no pixel `(1, 0)`. -/
theorem ppm_round_trip_swaps_width_and_height :
    exampleDepthRow.m_width = 2 ∧ exampleDepthRow.m_height = 1 ∧
      exampleDepthRow.getPixel 1 0 = .ok 1 ∧
      ∃ text, saveAsPPM exampleDepthRow "depth.ppm" true = .ok text ∧
        text.size = [1, 2] ∧ text.body = [0, 0, 0, 255, 255, 255] ∧
        ∃ r, loadFromPPM (mkDefault (-1)) (some text) (fun _ => 0) = .ok r ∧
          r.m_width = 1 ∧ r.m_height = 2 ∧
          r.getPixel 0 0 = .ok (convertValueFromExternalPPMFormat 0) ∧
          r.getPixel 0 1 = .ok (convertValueFromExternalPPMFormat 255) ∧
          r.getPixel 1 0 = .error Error.assertion :=
  ⟨rfl, rfl, rfl, exampleDepthRowText, saveAsPPM_exampleDepthRow, rfl, rfl,
    loadFromPPM_exampleDepthRowText⟩

/-! ### Pixel counts beyond `unsigned int` -/

/-- A loop whose first iteration fails, fails. -/
theorem forRange_error_first {σ : Type} (body : Nat → σ → Except Error σ) (k lo : Nat)
    (s : σ) (e : Error) (h : body lo s = .error e) :
    forRange body (k + 1) lo s = .error e := by
  unfold forRange
  rw [h]

/-- C2 (failing input): the sized constructor `BaseImage(65536, 65536)` yields a reachable
buffer of width 65536 and height 65536 whose storage holds no pixel at all: `create`
allocates `new T[m_height*m_width]`, and the `unsigned int` product wraps around from
`2^32` to `0`.  The storage length `0` is not `width*height = 4294967296`, and the access to
the pixel `(0, 0)` passes the bounds check and falls outside the array. -/
theorem sized_storage_wraps_around :
    Reachable (sized 65536 65536 (0 : Nat) (fun _ => 0)) ∧
      (sized 65536 65536 (0 : Nat) (fun _ => 0)).m_width = 65536 ∧
      (sized 65536 65536 (0 : Nat) (fun _ => 0)).m_height = 65536 ∧
      (sized 65536 65536 (0 : Nat) (fun _ => 0)).m_data = some [] ∧
      (sized 65536 65536 (0 : Nat) (fun _ => 0)).storageLen = 0 ∧
      (sized 65536 65536 (0 : Nat) (fun _ => 0)).m_width *
        (sized 65536 65536 (0 : Nat) (fun _ => 0)).m_height = 4294967296 ∧
      (sized 65536 65536 (0 : Nat) (fun _ => 0)).storageLen ≠
        (sized 65536 65536 (0 : Nat) (fun _ => 0)).m_width *
          (sized 65536 65536 (0 : Nat) (fun _ => 0)).m_height ∧
      (sized 65536 65536 (0 : Nat) (fun _ => 0)).getPixel 0 0 = .error Error.undefined := by
  have hw : (sized 65536 65536 (0 : Nat) (fun _ => 0)).m_width = 65536 := by
    simp [sized, create, UINT_RANGE]
  have hh : (sized 65536 65536 (0 : Nat) (fun _ => 0)).m_height = 65536 := by
    simp [sized, create, UINT_RANGE]
  have hd : (sized 65536 65536 (0 : Nat) (fun _ => 0)).m_data = some [] := by
    simp [sized, create, newArray, UINT_RANGE]
  have hs : (sized 65536 65536 (0 : Nat) (fun _ => 0)).storageLen = 0 := by
    unfold storageLen
    rw [hd]
    rfl
  refine ⟨Reachable.sizedFrom 65536 65536 none 0 (fun _ => 0) _ rfl, hw, hh, hd, hs, ?_, ?_,
    ?_⟩
  · rw [hw, hh]
  · rw [hs, hw, hh]
    omega
  · unfold getPixel
    rw [pixelOffset_eq, hw, hh, hd]
    simp [readAt, UINT_RANGE]

/-- C19 (failing input): `reSample(65536, 65536)` on the 1x1 buffer with the pixel `7`
(new width and height at least 2 and different from the current size).  The new image
`res(65536, 65536)` has width and height 65536 but a storage of
`65536*65536 mod 2^32 = 0` pixels, so the first assignment `res(0, 0) = getPixel(x, y)`
passes the bounds check and writes outside the array: the call does not produce the
resampled buffer. -/
theorem reSample_pixel_count_wraps :
    exampleSmall.m_width = 1 ∧ exampleSmall.m_height = 1 ∧
      ((sized 65536 65536 (0 : Nat) (fun _ => 0)).setInvalidValue
        exampleSmall.m_InvalidValue).m_data = some [] ∧
      exampleSmall.getPixel (normIndexExact 0 65536 exampleSmall.m_width)
        (normIndexExact 0 65536 exampleSmall.m_height) = .ok 7 ∧
      exampleSmall.reSample normIndexExact 65536 65536 0 (fun _ => 0) =
        .error Error.undefined := by
  have hd : ((sized 65536 65536 (0 : Nat) (fun _ => 0)).setInvalidValue
      exampleSmall.m_InvalidValue).m_data = some [] := by
    simp [sized, create, newArray, setInvalidValue, UINT_RANGE]
  have hw : ((sized 65536 65536 (0 : Nat) (fun _ => 0)).setInvalidValue
      exampleSmall.m_InvalidValue).m_width = 65536 := by
    simp [sized, create, setInvalidValue, UINT_RANGE]
  have hh : ((sized 65536 65536 (0 : Nat) (fun _ => 0)).setInvalidValue
      exampleSmall.m_InvalidValue).m_height = 65536 := by
    simp [sized, create, setInvalidValue, UINT_RANGE]
  have hg : exampleSmall.getPixel (normIndexExact 0 65536 exampleSmall.m_width)
      (normIndexExact 0 65536 exampleSmall.m_height) = .ok 7 := by
    rw [normIndexExact_zero, normIndexExact_zero]
    rfl
  have hset : ((sized 65536 65536 (0 : Nat) (fun _ => 0)).setInvalidValue
      exampleSmall.m_InvalidValue).setPixel 0 0 7 = .error Error.undefined := by
    unfold setPixel
    rw [pixelOffset_eq, hw, hh, hd]
    simp [writeAt, UINT_RANGE]
  refine ⟨rfl, rfl, hd, hg, ?_⟩
  have hne : exampleSmall.m_width ≠ 65536 ∨ exampleSmall.m_height ≠ 65536 :=
    Or.inl (by show (1 : Nat) ≠ 65536; omega)
  have hinner : forRange (fun j r1 =>
      r1.assignPixel j 0
        (exampleSmall.getPixel (normIndexExact j 65536 exampleSmall.m_width)
          (normIndexExact 0 65536 exampleSmall.m_height)))
      (65535 + 1) 0
      ((sized 65536 65536 (0 : Nat) (fun _ => 0)).setInvalidValue
        exampleSmall.m_InvalidValue) = .error Error.undefined := by
    apply forRange_error_first
    rw [hg]
    exact hset
  have houter : forRange (fun i r => forRange (fun j r1 =>
      r1.assignPixel j i
        (exampleSmall.getPixel (normIndexExact j 65536 exampleSmall.m_width)
          (normIndexExact i 65536 exampleSmall.m_height)))
      65536 0 r) (65535 + 1) 0
      ((sized 65536 65536 (0 : Nat) (fun _ => 0)).setInvalidValue
        exampleSmall.m_InvalidValue) = .error Error.undefined := by
    apply forRange_error_first
    exact hinner
  unfold reSample
  rw [if_pos hne]
  dsimp only
  have houter2 : forRange (fun i r => forRange (fun j r1 =>
      r1.assignPixel j i
        (exampleSmall.getPixel (normIndexExact j 65536 exampleSmall.m_width)
          (normIndexExact i 65536 exampleSmall.m_height)))
      65536 0 r) 65536 0
      ((sized 65536 65536 (0 : Nat) (fun _ => 0)).setInvalidValue
        exampleSmall.m_InvalidValue) = .error Error.undefined := houter
  rw [houter2]

end BaseImage

end ml
